import Mathlib

/-!
# Maxim front end: parser and constant-folding call emitter

A shallow embedding of `src/compiler/parser/Parser.cpp` and
`src/compiler/codegen/Builder.cpp`, and of the editor's `HistoryList.cpp` and
`PersistentParameters.h`.

* The token stream is a list of tokens; `peek` reads its head and `next`
  removes it.
* A C++ function that may throw returns `Except Failure`; the remaining
  stream is threaded explicitly.
* The recursive-descent functions are mutually recursive and carry a fuel
  argument that bounds call depth and loop iterations; a run that exhausts
  every amount of fuel is a run that does not terminate.
-/

namespace Maxim

/-! ## Source positions and tokens -/

/-- Modelled from the spec: the `SourcePos` type (declared outside `src/`), a
line and a column, as in the constructor call `SourcePos(0, 0)`. -/
structure SourcePos where
  line : Nat
  column : Nat
deriving DecidableEq, Repr

/-- Modelled from the spec: positions are compared line first, then column. -/
def SourcePos.le (a b : SourcePos) : Prop :=
  a.line < b.line ∨ (a.line = b.line ∧ a.column ≤ b.column)

instance : LE SourcePos := ⟨SourcePos.le⟩

instance SourcePos.decLe (a b : SourcePos) : Decidable (a ≤ b) :=
  inferInstanceAs (Decidable (a.line < b.line ∨ (a.line = b.line ∧ a.column ≤ b.column)))

/-- The token kinds `Parser.cpp` names. `Token::Type` is declared outside
`src/`; `OTHER` stands for any further kind of that enumeration, which every
`switch` of the parser sends to its `default:` branch. -/
inductive TokenType where
  | HASH | COMMENT_OPEN | COLON | OPEN_SQUARE | CLOSE_SQUARE | NOTE | NUMBER
  | DOUBLE_STRING | PLUS | MINUS | NOT | INCREMENT | DECREMENT | IDENTIFIER
  | OPEN_BRACKET | CLOSE_BRACKET | COMMA | DOT | CAST
  | BITWISE_AND | BITWISE_OR | BITWISE_XOR | LOGICAL_AND | LOGICAL_OR
  | EQUAL_TO | NOT_EQUAL_TO | LT | GT | LTE | GTE
  | TIMES | DIVIDE | MODULO | POWER
  | ASSIGN | PLUS_ASSIGN | MINUS_ASSIGN | TIMES_ASSIGN | DIVIDE_ASSIGN
  | MODULO_ASSIGN | POWER_ASSIGN
  | END_OF_LINE | END_OF_FILE | OTHER
deriving DecidableEq, Repr

/-- A token: `{type, content, startPos, endPos}`. -/
structure Token where
  type : TokenType
  content : String
  startPos : SourcePos
  endPos : SourcePos
deriving DecidableEq, Repr

/-- Modelled from the spec: the `Precedence` enumeration of `Parser.h`, listed
low to high: `NONE < ASSIGNMENT < LOGICAL < EQUALITY < BITWISE < ADD < SUBTRACT
< MULTIPLY < DIVIDE < MODULO < POWER < CASTING < UNARY < ALL`. -/
inductive Precedence where
  | NONE | ASSIGNMENT | LOGICAL | EQUALITY | BITWISE | ADD | SUBTRACT
  | MULTIPLY | DIVIDE | MODULO | POWER | CASTING | UNARY | ALL
deriving DecidableEq, Repr

/-- The underlying integer of a `Precedence` enumerator. -/
def Precedence.rank : Precedence → Nat
  | .NONE => 0 | .ASSIGNMENT => 1 | .LOGICAL => 2 | .EQUALITY => 3
  | .BITWISE => 4 | .ADD => 5 | .SUBTRACT => 6 | .MULTIPLY => 7
  | .DIVIDE => 8 | .MODULO => 9 | .POWER => 10 | .CASTING => 11
  | .UNARY => 12 | .ALL => 13

/-! ## The AST -/

inductive UnaryType where
  | POSITIVE | NEGATIVE | NOT
deriving DecidableEq, Repr

inductive PostfixType where
  | INCREMENT | DECREMENT
deriving DecidableEq, Repr

inductive MathType where
  | BITWISE_AND | BITWISE_OR | BITWISE_XOR | LOGICAL_AND | LOGICAL_OR
  | LOGICAL_EQUAL | LOGICAL_NOT_EQUAL | LOGICAL_LT | LOGICAL_GT | LOGICAL_LTE
  | LOGICAL_GTE | ADD | SUBTRACT | MULTIPLY | DIVIDE | MODULO | POWER
deriving DecidableEq, Repr

inductive AssignType where
  | ASSIGN | ADD | SUBTRACT | MULTIPLY | DIVIDE | MODULO | POWER
deriving DecidableEq, Repr

inductive ControlType where
  | LABEL | VALUE | TOGGLE | GRAPH | SCOPE | KEYS | ROLL | PLUG
deriving DecidableEq, Repr

mutual
/-- The expression variants, each with its `startPos` and `endPos`. -/
inductive Expression where
  | VariableExpression (name : String) (startPos endPos : SourcePos)
  | UnaryExpression (type : UnaryType) (expr : Expression) (startPos endPos : SourcePos)
  | PostfixExpression (left : Expression) (type : PostfixType) (startPos endPos : SourcePos)
  | MathExpression (left : Expression) (type : MathType) (right : Expression)
      (startPos endPos : SourcePos)
  | AssignExpression (left : Expression) (type : AssignType) (right : Expression)
      (startPos endPos : SourcePos)
  | CastExpression (target : Form) (expr : Expression) (isPrefix : Bool)
      (startPos endPos : SourcePos)
  | CallExpression (name : String) (arguments : List Expression) (startPos endPos : SourcePos)
  | ControlExpression (name : String) (type : ControlType) (prop : String)
      (startPos endPos : SourcePos)
  | NoteExpression (note : Int) (startPos endPos : SourcePos)
  | NumberExpression (value : ℚ) (form : Form) (startPos endPos : SourcePos)
/-- A form: `{name, arguments, startPos, endPos}`. -/
inductive Form where
  | mk (name : String) (arguments : List Expression) (startPos endPos : SourcePos)
end

def Form.name : Form → String
  | .mk n _ _ _ => n

def Form.arguments : Form → List Expression
  | .mk _ a _ _ => a

def Form.startPos : Form → SourcePos
  | .mk _ _ s _ => s

def Form.endPos : Form → SourcePos
  | .mk _ _ _ e => e

def Expression.startPos : Expression → SourcePos
  | .VariableExpression _ s _ => s
  | .UnaryExpression _ _ s _ => s
  | .PostfixExpression _ _ s _ => s
  | .MathExpression _ _ _ s _ => s
  | .AssignExpression _ _ _ s _ => s
  | .CastExpression _ _ _ s _ => s
  | .CallExpression _ _ s _ => s
  | .ControlExpression _ _ _ s _ => s
  | .NoteExpression _ s _ => s
  | .NumberExpression _ _ s _ => s

def Expression.endPos : Expression → SourcePos
  | .VariableExpression _ _ e => e
  | .UnaryExpression _ _ _ e => e
  | .PostfixExpression _ _ _ e => e
  | .MathExpression _ _ _ _ e => e
  | .AssignExpression _ _ _ _ e => e
  | .CastExpression _ _ _ _ e => e
  | .CallExpression _ _ _ e => e
  | .ControlExpression _ _ _ _ e => e
  | .NoteExpression _ _ e => e
  | .NumberExpression _ _ _ e => e

/-- The assignments `expr->startPos = a; expr->endPos = b;`. -/
def Expression.setSpan (a b : SourcePos) : Expression → Expression
  | .VariableExpression n _ _ => .VariableExpression n a b
  | .UnaryExpression t x _ _ => .UnaryExpression t x a b
  | .PostfixExpression l t _ _ => .PostfixExpression l t a b
  | .MathExpression l t r _ _ => .MathExpression l t r a b
  | .AssignExpression l t r _ _ => .AssignExpression l t r a b
  | .CastExpression f x p _ _ => .CastExpression f x p a b
  | .CallExpression n xs _ _ => .CallExpression n xs a b
  | .ControlExpression n t p _ _ => .ControlExpression n t p a b
  | .NoteExpression n _ _ => .NoteExpression n a b
  | .NumberExpression v f _ _ => .NumberExpression v f a b

/-- Modelled from the spec: the assignable capability, which
`dynamic_unique_cast<AssignableExpression>` tests; only a `VariableExpression`
has it. -/
def Expression.isAssignable : Expression → Bool
  | .VariableExpression _ _ _ => true
  | _ => false

mutual
/-- Every node of the tree has `startPos ≤ endPos`. -/
def Expression.spansOk : Expression → Bool
  | .VariableExpression _ s e => decide (s ≤ e)
  | .UnaryExpression _ x s e => decide (s ≤ e) && x.spansOk
  | .PostfixExpression l _ s e => decide (s ≤ e) && l.spansOk
  | .MathExpression l _ r s e => decide (s ≤ e) && l.spansOk && r.spansOk
  | .AssignExpression l _ r s e => decide (s ≤ e) && l.spansOk && r.spansOk
  | .CastExpression f x _ s e => decide (s ≤ e) && f.spansOk && x.spansOk
  | .CallExpression _ xs s e => decide (s ≤ e) && Expression.spansOkList xs
  | .ControlExpression _ _ _ s e => decide (s ≤ e)
  | .NoteExpression _ s e => decide (s ≤ e)
  | .NumberExpression _ f s e => decide (s ≤ e) && f.spansOk
/-- Every expression node below a form has `startPos ≤ endPos`. -/
def Form.spansOk : Form → Bool
  | .mk _ xs _ _ => Expression.spansOkList xs
/-- The same for each expression of a list. -/
def Expression.spansOkList : List Expression → Bool
  | [] => true
  | x :: xs => x.spansOk && Expression.spansOkList xs
end

/-! ## Failures -/

/-- The `ParseError` exception: `{message, startPos, endPos}`. -/
structure ParseError where
  message : String
  startPos : SourcePos
  endPos : SourcePos
deriving DecidableEq, Repr

/-- The ways a run does not return a value. `parseError` is the thrown
`ParseError`; `invalidArgument` and `outOfRange` are the exceptions of
`std::stof` and `std::stoi`; `assertionFailed` is a failed `assert`;
`nullDereference`, `missingReturn` and `uninitialized` are the undefined
behaviours the code can reach (a member read through a null pointer, control
leaving a value-returning function without `return`, a read of a variable no
branch assigned); `outOfFuel` is the fuel bound of this embedding. -/
inductive Failure where
  | parseError (e : ParseError)
  | invalidArgument
  | outOfRange
  | assertionFailed
  | nullDereference
  | missingReturn
  | uninitialized
  | outOfFuel
deriving DecidableEq, Repr

/-! ## The token stream -/

/-- Modelled from the spec: the token a `TokenStream` (declared outside `src/`)
yields once its tokens are used up, an `END_OF_FILE`. -/
def eofToken : Token := ⟨.END_OF_FILE, "", ⟨0, 0⟩, ⟨0, 0⟩⟩

/-- Modelled from the spec: `stream()->peek()`, the next token, not consumed. -/
def peek (s : List Token) : Token := s.headD eofToken

/-- Modelled from the spec: `stream()->next()`, the next token, consumed. -/
def next (s : List Token) : Token × List Token := (peek s, s.tail)

/-! ## Diagnostics -/

section Parser

variable (typeString : TokenType → String)

/-- `Parser::expect`; `typeString` is `Token::typeString`, defined outside `src/`. -/
def expect (token : Token) (expectedType : TokenType) : Except Failure Unit :=
  if token.type ≠ expectedType then
    .error (.parseError
      ⟨"Dude, why is there a " ++ typeString token.type ++ "? I expected a "
        ++ typeString expectedType ++ " here.", token.startPos, token.endPos⟩)
  else .ok ()

/-- `Parser::fail`. -/
def fail (token : Token) : ParseError :=
  ⟨"Hey man, not cool. I didn't expect this " ++ typeString token.type ++ "!",
    token.startPos, token.endPos⟩

/-- `Parser::castFail`; the argument is a pointer, `none` the null pointer, through
which `expr->startPos` cannot be read. -/
def castFail (expr : Option Expression) : Failure :=
  match expr with
  | none => .nullDereference
  | some e =>
    .parseError
      ⟨"Hey! I ned something I can assign to here, not this silly fuge you're giving me.",
        e.startPos, e.endPos⟩

/-- `MaximUtil::dynamic_unique_cast<AssignableExpression>`: the pointer itself
when the expression is assignable, the null pointer otherwise. -/
def dynamic_unique_cast (e : Expression) : Option Expression :=
  if e.isAssignable then some e else none

/-- `Parser::operatorToPrecedence`. -/
def operatorToPrecedence : TokenType → Precedence
  | .CAST => .CASTING
  | .INCREMENT | .DECREMENT => .UNARY
  | .BITWISE_AND | .BITWISE_OR | .BITWISE_XOR => .BITWISE
  | .PLUS => .ADD
  | .MINUS => .SUBTRACT
  | .TIMES => .MULTIPLY
  | .DIVIDE => .DIVIDE
  | .MODULO => .MODULO
  | .POWER => .POWER
  | .EQUAL_TO | .NOT_EQUAL_TO | .LT | .GT | .LTE | .GTE => .EQUALITY
  | .LOGICAL_AND | .LOGICAL_OR => .LOGICAL
  | .ASSIGN | .PLUS_ASSIGN | .MINUS_ASSIGN | .TIMES_ASSIGN | .DIVIDE_ASSIGN
  | .MODULO_ASSIGN | .POWER_ASSIGN => .ASSIGNMENT
  | _ => .NONE

/-! ## Leaf expressions -/

/-- The file-local `toUpperCase`: `std::transform` with `::toupper` over the
characters of the string. -/
def toUpperCase (str : String) : String := String.mk (str.toList.map Char.toUpper)

/-- The chain of comparisons of `typeToken.content` in
`Parser::parseControlExpression`; `none` is its final `else`. -/
def controlType (content : String) : Option ControlType :=
  if content = "label" then some .LABEL
  else if content = "value" then some .VALUE
  else if content = "toggle" then some .TOGGLE
  else if content = "graph" then some .GRAPH
  else if content = "scope" then some .SCOPE
  else if content = "keys" then some .KEYS
  else if content = "roll" then some .ROLL
  else if content = "plug" then some .PLUG
  else none

/-- `Parser::parseControlExpression`. -/
def parseControlExpression (name : String) (startPos : SourcePos) (s : List Token) :
    Except Failure (Expression × List Token) :=
  match expect typeString (next s).1 .COLON with
  | .error f => .error f
  | .ok _ =>
    let typeToken := (next (next s).2).1
    match expect typeString typeToken .IDENTIFIER with
    | .error f => .error f
    | .ok _ =>
      match controlType typeToken.content with
      | none =>
        .error (.parseError
          ⟨"Come on man, I don't support " ++ typeToken.content ++ " controls.",
            typeToken.startPos, typeToken.endPos⟩)
      | some controlType =>
        let s2 := (next (next s).2).2
        if (peek s2).type = .DOT then
          let propertyToken := (next (next s2).2).1
          match expect typeString propertyToken .IDENTIFIER with
          | .error f => .error f
          | .ok _ =>
            .ok (.ControlExpression name controlType propertyToken.content startPos
              propertyToken.endPos, (next (next s2).2).2)
        else .ok (.ControlExpression name controlType "value" startPos typeToken.endPos, s2)

/-- `Parser::parseColonTokenExpression`. -/
def parseColonTokenExpression (s : List Token) : Except Failure (Expression × List Token) :=
  let colon := peek s
  parseControlExpression typeString "" colon.startPos s

/-- `Parser::parseStringTokenExpression`. -/
def parseStringTokenExpression (s : List Token) : Except Failure (Expression × List Token) :=
  let nameToken := (next s).1
  match expect typeString nameToken .DOUBLE_STRING with
  | .error f => .error f
  | .ok _ => parseControlExpression typeString nameToken.content nameToken.startPos (next s).2

/-- The regular expression `([a-gA-G]#?)([0-9]+)` matched against the whole
text: the two groups when it matches. -/
def noteRegex (content : String) : Option (String × String) :=
  match content.toList with
  | [] => none
  | c :: rest =>
    if ('a' ≤ c ∧ c ≤ 'g') ∨ ('A' ≤ c ∧ c ≤ 'G') then
      let groups : List Char × List Char :=
        if rest.head? = some '#' then ([c, '#'], rest.tail) else ([c], rest)
      if groups.2 ≠ [] ∧ groups.2.all Char.isDigit then
        some (String.mk groups.1, String.mk groups.2)
      else none
    else none

/-- The table `noteNames`. -/
def noteNames : List String :=
  "C" :: "C#" :: "D" :: "D#" :: "E" :: "F" :: "F#" :: "G" :: "G#" :: "A" :: "A#" :: "B" :: []

/-- The number a string of decimal digits denotes. -/
def digitsValue (ds : List Char) : Nat :=
  ds.foldl (fun n c => 10 * n + (c.toNat - 48)) 0

/-- Modelled from the spec: `std::stoi` on a string of decimal digits; a value
that does not fit `int` throws `std::out_of_range`. -/
def stoi (str : String) : Except Failure Nat :=
  if digitsValue str.toList ≤ 2147483647 then .ok (digitsValue str.toList)
  else .error .outOfRange

/-- The unsigned decimal numeral a text starts with: its integer digits and, behind
a point, its fraction digits. -/
def numeralParts (str : String) : List Char × List Char :=
  (str.toList.takeWhile Char.isDigit,
    match str.toList.dropWhile Char.isDigit with
    | '.' :: r => r.takeWhile Char.isDigit
    | _ => [])

/-- The exact value of the numeral a text starts with. -/
def numeralValue (str : String) : ℚ :=
  (digitsValue (numeralParts str).1 : ℚ) +
    (digitsValue (numeralParts str).2 : ℚ) / 10 ^ (numeralParts str).2.length

/-- Whether a text is, as a whole, an unsigned decimal numeral: digits, then
optionally a point and digits, with a digit somewhere. -/
def isNumeral (str : String) : Bool :=
  match str.toList.dropWhile Char.isDigit with
  | [] => !(str.toList.takeWhile Char.isDigit).isEmpty
  | '.' :: r =>
    r.all Char.isDigit && !((str.toList.takeWhile Char.isDigit).isEmpty && r.isEmpty)
  | _ => false

/-- Modelled from the spec: `std::stof` on a text that starts with an unsigned decimal
numeral (digits, then optionally a point and digits), read exactly. A text that
starts with no numeral throws `std::invalid_argument`. A value that `strtof` reports
as out of range throws `std::out_of_range`: one that rounds beyond the largest
`float`, which is any value from `2^128 - 2^103` on, and a non-zero value below the
least normal `float` `2^-126`. For such a small value the C standard leaves the
report to the implementation (glibc makes it whenever the subnormal result is
inexact); here it is always made. Signs, exponents, hexadecimal numerals and the
special values are outside this model. -/
def stof (str : String) : Except Failure ℚ :=
  if (numeralParts str).1 = [] ∧ (numeralParts str).2 = [] then .error .invalidArgument
  else if 2 ^ 128 - 2 ^ 103 ≤ numeralValue str then .error .outOfRange
  else if 0 < numeralValue str ∧ numeralValue str < 1 / 2 ^ 126 then .error .outOfRange
  else .ok (numeralValue str)

/-- `std::string::compare(pos, npos, str)`: zero exactly when the text from `pos`
on equals `str`. -/
def compare (text : String) (pos : Nat) (str : String) : Int :=
  if String.mk (text.toList.drop pos) = str then 0
  else if String.mk (text.toList.drop pos) < str then -1 else 1

/-- `Parser::parseNoteTokenExpression`. -/
def parseNoteTokenExpression (s : List Token) : Except Failure (Expression × List Token) :=
  let noteToken := (next s).1
  match expect typeString noteToken .NOTE with
  | .error f => .error f
  | .ok _ =>
    match noteRegex noteToken.content with
    | none => .error .assertionFailed
    | some (group1, group2) =>
      let noteName := toUpperCase group1
      let noteNum := noteNames.indexOf noteName
      if noteNum ≥ noteNames.length then
        .error (.parseError
          ⟨"Ey my man, don't you know that " ++ noteName ++ " isn't a valid note?",
            noteToken.startPos, noteToken.endPos⟩)
      else
        match stoi group2 with
        | .error f => .error f
        | .ok octave =>
          .ok (.NoteExpression ((noteNum : Int) + (octave : Int) * (noteNames.length : Int))
            noteToken.startPos noteToken.endPos, (next s).2)

/-- The multiplier chain of `Parser::parseNumberTokenExpression`: the scaled value
when the first character is a magnitude letter (`didMatchMul`), else `none`. -/
def postMul (numValue : ℚ) (first : Char) : Option ℚ :=
  if first = 'K' then some (numValue * 10 ^ 3)
  else if first = 'M' then some (numValue * 10 ^ 6)
  else if first = 'G' then some (numValue * 10 ^ 9)
  else if first = 'T' then some (numValue * 10 ^ 12)
  else if first = 'P' then some (numValue * 10 ^ 15)
  else none

/-- The form chain of `Parser::parseNumberTokenExpression`: the form name a branch
assigns (`didMatchForm`), else `none`. Each `if` tests the integer `compare` returns. -/
def postForm (postMulText : String) (formStart : Nat) : Option String :=
  if compare postMulText formStart "HZ" ≠ 0 then some "freq"
  else if compare postMulText formStart "DB" ≠ 0 then some "db"
  else if compare postMulText formStart "Q" ≠ 0 then some "q"
  else if compare postMulText formStart "R" ≠ 0 then some "res"
  else if compare postMulText formStart "S" ≠ 0 then some "seconds"
  else if compare postMulText formStart "B" ≠ 0 then some "beats"
  else none

/-- `Parser::parseNumberTokenExpression`. -/
def parseNumberTokenExpression (s : List Token) : Except Failure (Expression × List Token) :=
  let numberToken := (next s).1
  match expect typeString numberToken .NUMBER with
  | .error f => .error f
  | .ok _ =>
    match stof numberToken.content with
    | .error f => .error f
    | .ok numValue =>
      let s1 := (next s).2
      let postMulToken := peek s1
      if postMulToken.type = .IDENTIFIER then
        let postMulText := toUpperCase postMulToken.content
        let mul := postMul numValue (postMulText.toList.headD (Char.ofNat 0))
        let didMatchMul := mul.isSome
        let formStart := if didMatchMul then 1 else 0
        let formName := postForm postMulText formStart
        let didMatchForm := formName.isSome
        let valueForm :=
          Form.mk (formName.getD "lin") [] postMulToken.startPos postMulToken.endPos
        if didMatchMul || didMatchForm then
          .ok (.NumberExpression (mul.getD numValue) valueForm numberToken.startPos
            postMulToken.endPos, (next s1).2)
        else
          .ok (.NumberExpression (mul.getD numValue) valueForm numberToken.startPos
            numberToken.endPos, s1)
      else
        .ok (.NumberExpression numValue
          (Form.mk "lin" [] postMulToken.startPos postMulToken.endPos)
          numberToken.startPos numberToken.endPos, s1)

/-- `Parser::parsePostfixExpression`. -/
def parsePostfixExpression (pre : Expression) (s : List Token) :
    Except Failure (Expression × List Token) :=
  let postfixToken := (next s).1
  let postfixType : Option PostfixType :=
    match postfixToken.type with
    | .INCREMENT => some .INCREMENT
    | .DECREMENT => some .DECREMENT
    | _ => none
  match postfixType with
  | none => .error (.parseError (fail typeString postfixToken))
  | some postfixType =>
    match dynamic_unique_cast pre with
    | none => .error (castFail none)
    | some assignable =>
      .ok (.PostfixExpression assignable postfixType assignable.startPos postfixToken.endPos,
        (next s).2)

/-! ## The recursive descent -/

/-- The case labels of `Parser::parseMathExpression`. -/
def mathType : TokenType → Option MathType
  | .BITWISE_AND => some .BITWISE_AND
  | .BITWISE_OR => some .BITWISE_OR
  | .BITWISE_XOR => some .BITWISE_XOR
  | .LOGICAL_AND => some .LOGICAL_AND
  | .LOGICAL_OR => some .LOGICAL_OR
  | .EQUAL_TO => some .LOGICAL_EQUAL
  | .NOT_EQUAL_TO => some .LOGICAL_NOT_EQUAL
  | .LT => some .LOGICAL_LT
  | .GT => some .LOGICAL_GT
  | .LTE => some .LOGICAL_LTE
  | .GTE => some .LOGICAL_GTE
  | .PLUS => some .ADD
  | .MINUS => some .SUBTRACT
  | .TIMES => some .MULTIPLY
  | .DIVIDE => some .DIVIDE
  | .MODULO => some .MODULO
  | .POWER => some .POWER
  | _ => none

/-- The case labels of `Parser::parseAssignExpression`. -/
def assignType : TokenType → Option AssignType
  | .ASSIGN => some .ASSIGN
  | .PLUS_ASSIGN => some .ADD
  | .MINUS_ASSIGN => some .SUBTRACT
  | .TIMES_ASSIGN => some .MULTIPLY
  | .DIVIDE_ASSIGN => some .DIVIDE
  | .MODULO_ASSIGN => some .MODULO
  | .POWER_ASSIGN => some .POWER
  | _ => none

mutual
/-- `Parser::parseExpression(Precedence)`: the prefix, then the `while` loop. The
overload without argument is `parseExpression fuel .ALL`. -/
def parseExpression (fuel : Nat) (precedence : Precedence) (s : List Token) :
    Except Failure (Expression × List Token) :=
  match fuel with
  | 0 => .error .outOfFuel
  | n + 1 =>
    match parsePrefix n precedence s with
    | .error f => .error f
    | .ok (result, s1) => parseExpressionLoop n result precedence s1
/-- The loop `while (stream()->peek().type != END_OF_LINE) result = parsePostfix(...)`
of `Parser::parseExpression`. -/
def parseExpressionLoop (fuel : Nat) (result : Expression) (precedence : Precedence)
    (s : List Token) : Except Failure (Expression × List Token) :=
  match fuel with
  | 0 => .error .outOfFuel
  | n + 1 =>
    if (peek s).type ≠ .END_OF_LINE then
      match parsePostfix n result precedence s with
      | .error f => .error f
      | .ok (result1, s1) => parseExpressionLoop n result1 precedence s1
    else .ok (result, s)
/-- `Parser::parsePrefix`. After `break` control leaves the function without a
`return`. -/
def parsePrefix (fuel : Nat) (precedence : Precedence) (s : List Token) :
    Except Failure (Expression × List Token) :=
  match fuel with
  | 0 => .error .outOfFuel
  | n + 1 =>
    match (peek s).type with
    | .HASH => .error .missingReturn
    | .COMMENT_OPEN => .error .missingReturn
    | .COLON => parseColonTokenExpression typeString s
    | .OPEN_SQUARE => parseOpenSquareTokenExpression n s
    | .NOTE => parseNoteTokenExpression typeString s
    | .NUMBER => parseNumberTokenExpression typeString s
    | .DOUBLE_STRING => parseStringTokenExpression typeString s
    | .PLUS | .MINUS | .NOT | .INCREMENT | .DECREMENT => parseUnaryTokenExpression n s
    | .IDENTIFIER => parseIdentifierTokenExpression n s
    | .OPEN_BRACKET => parseSubTokenExpression n s
    | _ => .error (.parseError (fail typeString (peek s)))
/-- `Parser::parsePostfix`. -/
def parsePostfix (fuel : Nat) (pre : Expression) (precedence : Precedence) (s : List Token) :
    Except Failure (Expression × List Token) :=
  match fuel with
  | 0 => .error .outOfFuel
  | n + 1 =>
    if precedence.rank > (operatorToPrecedence (peek s).type).rank then .ok (pre, s)
    else
      match (peek s).type with
      | .CAST => parseCastExpression n pre s
      | .INCREMENT | .DECREMENT => parsePostfixExpression typeString pre s
      | .BITWISE_AND | .BITWISE_OR | .BITWISE_XOR | .LOGICAL_AND | .LOGICAL_OR
      | .EQUAL_TO | .NOT_EQUAL_TO | .LT | .GT | .LTE | .GTE
      | .PLUS | .MINUS | .TIMES | .DIVIDE | .MODULO | .POWER => parseMathExpression n pre s
      | .ASSIGN | .PLUS_ASSIGN | .MINUS_ASSIGN | .TIMES_ASSIGN | .DIVIDE_ASSIGN
      | .MODULO_ASSIGN | .POWER_ASSIGN => parseAssignExpression n pre s
      | _ => .ok (pre, s)
/-- `Parser::parseOpenSquareTokenExpression`. -/
def parseOpenSquareTokenExpression (fuel : Nat) (s : List Token) :
    Except Failure (Expression × List Token) :=
  match fuel with
  | 0 => .error .outOfFuel
  | n + 1 =>
    match parseForm n s with
    | .error f => .error f
    | .ok (form, s1) =>
      match parseExpression n .UNARY s1 with
      | .error f => .error f
      | .ok (expr, s2) => .ok (.CastExpression form expr true form.startPos expr.endPos, s2)
/-- `Parser::parseForm`. -/
def parseForm (fuel : Nat) (s : List Token) : Except Failure (Form × List Token) :=
  match fuel with
  | 0 => .error .outOfFuel
  | n + 1 =>
    match expect typeString (next s).1 .OPEN_SQUARE with
    | .error f => .error f
    | .ok _ =>
      let nameToken := (next (next s).2).1
      match expect typeString nameToken .IDENTIFIER with
      | .error f => .error f
      | .ok _ =>
        match parseArguments n [] (next (next s).2).2 with
        | .error f => .error f
        | .ok (arguments, s3) =>
          let closeToken := (next s3).1
          match expect typeString closeToken .CLOSE_SQUARE with
          | .error f => .error f
          | .ok _ =>
            .ok (Form.mk nameToken.content arguments nameToken.startPos closeToken.endPos,
              (next s3).2)
/-- `Parser::parseUnaryTokenExpression`. -/
def parseUnaryTokenExpression (fuel : Nat) (s : List Token) :
    Except Failure (Expression × List Token) :=
  match fuel with
  | 0 => .error .outOfFuel
  | n + 1 =>
    let typeToken := (next s).1
    let unaryType : Option UnaryType :=
      match typeToken.type with
      | .PLUS => some .POSITIVE
      | .MINUS => some .NEGATIVE
      | .NOT => some .NOT
      | _ => none
    match unaryType with
    | none => .error (.parseError (fail typeString typeToken))
    | some unaryType =>
      match parseExpression n .UNARY (next s).2 with
      | .error f => .error f
      | .ok (expr, s2) => .ok (.UnaryExpression unaryType expr typeToken.startPos expr.endPos, s2)
/-- `Parser::parseIdentifierTokenExpression`. Its first two branches call a parser,
drop the result and leave the function without a `return`. -/
def parseIdentifierTokenExpression (fuel : Nat) (s : List Token) :
    Except Failure (Expression × List Token) :=
  match fuel with
  | 0 => .error .outOfFuel
  | n + 1 =>
    let identifier := (next s).1
    match expect typeString identifier .IDENTIFIER with
    | .error f => .error f
    | .ok _ =>
      let nextToken := peek (next s).2
      if nextToken.type = .COLON then
        match parseCallExpression n identifier.content identifier.startPos (next s).2 with
        | .error f => .error f
        | .ok _ => .error .missingReturn
      else if nextToken.type = .OPEN_BRACKET then
        match parseControlExpression typeString identifier.content identifier.startPos
            (next s).2 with
        | .error f => .error f
        | .ok _ => .error .missingReturn
      else
        .ok (.VariableExpression identifier.content identifier.startPos identifier.endPos,
          (next s).2)
/-- `Parser::parseCallExpression`. -/
def parseCallExpression (fuel : Nat) (name : String) (startPos : SourcePos) (s : List Token) :
    Except Failure (Expression × List Token) :=
  match fuel with
  | 0 => .error .outOfFuel
  | n + 1 =>
    match expect typeString (next s).1 .OPEN_BRACKET with
    | .error f => .error f
    | .ok _ =>
      let parsedArguments : Except Failure (List Expression × List Token) :=
        if (peek (next s).2).type ≠ .CLOSE_BRACKET then parseArguments n [] (next s).2
        else .ok ([], (next s).2)
      match parsedArguments with
      | .error f => .error f
      | .ok (arguments, s2) =>
        let closeBracket := (next s2).1
        match expect typeString closeBracket .CLOSE_BRACKET with
        | .error f => .error f
        | .ok _ => .ok (.CallExpression name arguments startPos closeBracket.endPos, (next s2).2)
/-- `Parser::parseSubTokenExpression`. -/
def parseSubTokenExpression (fuel : Nat) (s : List Token) :
    Except Failure (Expression × List Token) :=
  match fuel with
  | 0 => .error .outOfFuel
  | n + 1 =>
    let openBracket := (next s).1
    match expect typeString openBracket .OPEN_BRACKET with
    | .error f => .error f
    | .ok _ =>
      match parseExpression n .ALL (next s).2 with
      | .error f => .error f
      | .ok (subExpr, s2) =>
        let closeBracket := (next s2).1
        match expect typeString closeBracket .CLOSE_BRACKET with
        | .error f => .error f
        | .ok _ => .ok (subExpr.setSpan openBracket.startPos closeBracket.endPos, (next s2).2)
/-- `Parser::parseArguments`: the `do ... while` loop, which appends to `arguments`
and takes a token off the stream each time it tests its condition. -/
def parseArguments (fuel : Nat) (arguments : List Expression) (s : List Token) :
    Except Failure (List Expression × List Token) :=
  match fuel with
  | 0 => .error .outOfFuel
  | n + 1 =>
    match parseExpression n .ALL s with
    | .error f => .error f
    | .ok (expr, s1) =>
      if (next s1).1.type = .COMMA then parseArguments n (arguments ++ [expr]) (next s1).2
      else .ok (arguments ++ [expr], (next s1).2)
/-- `Parser::parseCastExpression`. -/
def parseCastExpression (fuel : Nat) (pre : Expression) (s : List Token) :
    Except Failure (Expression × List Token) :=
  match fuel with
  | 0 => .error .outOfFuel
  | n + 1 =>
    match expect typeString (next s).1 .CAST with
    | .error f => .error f
    | .ok _ =>
      match parseForm n (next s).2 with
      | .error f => .error f
      | .ok (form, s2) => .ok (.CastExpression form pre false pre.startPos form.endPos, s2)
/-- `Parser::parseMathExpression`. In its `default:` branch `fail(opToken)` builds an
error that is not thrown, and `opType` stays unassigned until it is read. -/
def parseMathExpression (fuel : Nat) (pre : Expression) (s : List Token) :
    Except Failure (Expression × List Token) :=
  match fuel with
  | 0 => .error .outOfFuel
  | n + 1 =>
    let opToken := (next s).1
    match parseExpression n (operatorToPrecedence opToken.type) (next s).2 with
    | .error f => .error f
    | .ok (post, s2) =>
      match mathType opToken.type with
      | none => .error .uninitialized
      | some opType => .ok (.MathExpression pre opType post pre.startPos post.endPos, s2)
/-- `Parser::parseAssignExpression`. -/
def parseAssignExpression (fuel : Nat) (pre : Expression) (s : List Token) :
    Except Failure (Expression × List Token) :=
  match fuel with
  | 0 => .error .outOfFuel
  | n + 1 =>
    let opToken := (next s).1
    match dynamic_unique_cast pre with
    | none => .error (castFail none)
    | some assignable =>
      match parseExpression n (operatorToPrecedence opToken.type) (next s).2 with
      | .error f => .error f
      | .ok (post, s2) =>
        match assignType opToken.type with
        | none => .error .uninitialized
        | some opType =>
          .ok (.AssignExpression assignable opType post assignable.startPos post.endPos, s2)
end

/-- `Parser::parse`: the loop over the statements, which collects them in `block`;
after the loop the function ends without a `return`. -/
def parse (fuel : Nat) (block : List Expression) (s : List Token) :
    Except Failure (List Expression × List Token) :=
  match fuel with
  | 0 => .error .outOfFuel
  | n + 1 =>
    if (peek s).type ≠ .END_OF_FILE then
      match parseExpression typeString n .ALL s with
      | .error f => .error f
      | .ok (expr, s1) =>
        match expect typeString (next s1).1 .END_OF_LINE with
        | .error f => .error f
        | .ok _ => parse n (block ++ [expr]) (next s1).2
    else .error .missingReturn

end Parser

/-! ## The constant-folding call emitter (`Builder.cpp`) -/

/-- An `llvm::Constant`, named by a number. -/
structure Constant where
  id : Nat
deriving DecidableEq, Repr

/-- An `llvm::Function`, named by its name. -/
structure Function where
  name : String
deriving DecidableEq, Repr

mutual
/-- An `llvm::Value`: a constant, the result of a call instruction, or any other
value (an argument, another instruction). -/
inductive Value where
  | constant (c : Constant)
  | call (inst : CallInst)
  | other (id : Nat)
/-- An `llvm::CallInst`: the callee, the operands and the name it was given. -/
inductive CallInst where
  | mk (callee : Function) (operands : List Value) (name : String)
end

/-- `llvm::CallInst::Create(f->getFunctionType(), f, operands)`: an instruction in
no block, without a name. -/
def CallInst.Create (f : Function) (operands : List Value) : CallInst :=
  .mk f operands ""

/-- The instruction under the name `Insert` gives it. -/
def CallInst.setName : CallInst → String → CallInst
  | .mk f operands _, name => .mk f operands name

/-- The builder: the instructions before and after its insertion point. -/
structure Builder where
  before : List CallInst
  after : List CallInst

/-- The instruction sequence the builder has emitted. -/
def Builder.instructions (b : Builder) : List CallInst := b.before ++ b.after

/-- `b.Insert(inst, name)`: names the instruction, puts it at the insertion
point and returns it. -/
def Builder.Insert (b : Builder) (inst : CallInst) (name : String) : Value × Builder :=
  (.call (inst.setName name), { b with before := b.before ++ [inst.setName name] })

/-- `llvm::dyn_cast<llvm::Constant>(operand)`. -/
def dyn_cast (operand : Value) : Option Constant :=
  match operand with
  | .constant c => some c
  | _ => none

/-- The `for` loop of `CreateCall`: the operands as constants, or `none` once an
operand is not a constant (the loop's early `return`). -/
def constOperandsLoop : List Value → List Constant → Option (List Constant)
  | [], constOperands => some constOperands
  | operand :: operands, constOperands =>
    match dyn_cast operand with
    | some constOperand => constOperandsLoop operands (constOperands ++ [constOperand])
    | none => none

/-- `MaximCodegen::CreateCall`. `canConstantFoldCallTo` and `ConstantFoldCall` are
LLVM's; the latter returns a null pointer, here `none`, when it cannot fold. The
result is the returned pointer, `none` when null, and the builder afterwards. -/
def CreateCall (canConstantFoldCallTo : CallInst → Function → Bool)
    (ConstantFoldCall : CallInst → Function → List Constant → Option Constant)
    (b : Builder) (f : Function) (operands : List Value) (name : String) :
    Option Value × Builder :=
  let callInst := CallInst.Create f operands
  if !canConstantFoldCallTo callInst f then
    ((b.Insert callInst name).1, (b.Insert callInst name).2)
  else
    match constOperandsLoop operands [] with
    | none => ((b.Insert callInst name).1, (b.Insert callInst name).2)
    | some constOperands =>
      ((ConstantFoldCall callInst f constOperands).map Value.constant, b)

/-- The eight control kind words with the enumerator each selects. -/
def controlWords : List (String × ControlType) :=
  [("label", .LABEL), ("value", .VALUE), ("toggle", .TOGGLE), ("graph", .GRAPH),
   ("scope", .SCOPE), ("keys", .KEYS), ("roll", .ROLL), ("plug", .PLUG)]

/-! ## Span invariants -/

/-- Every token of the stream has `startPos ≤ endPos`, and the tokens stand in
non-decreasing source order. -/
def StreamOk (s : List Token) : Prop :=
  (∀ t ∈ s, t.startPos ≤ t.endPos) ∧ s.Pairwise (fun a b => a.startPos ≤ b.startPos)

/-- The position `p` is at or before the start of every token of the stream. -/
def LowerBound (p : SourcePos) (s : List Token) : Prop :=
  ∀ t ∈ s, p ≤ t.startPos

/-- What a prefix parser guarantees of the expression `e` it returns with the
stream `s1`, started on the stream `s`. -/
def PrefixPost (s : List Token) (e : Expression) (s1 : List Token) : Prop :=
  e.spansOk = true ∧ s1 <:+ s ∧ (∀ p, LowerBound p s → p ≤ e.startPos) ∧
    LowerBound e.startPos s1

/-- What a postfix parser guarantees of the expression `e` it returns with the
stream `s1`, started with the operand `pre` on the stream `s`. -/
def PostfixPost (pre : Expression) (s : List Token) (e : Expression) (s1 : List Token) :
    Prop :=
  e.spansOk = true ∧ s1 <:+ s ∧ e.startPos = pre.startPos

/-- What `parseForm` guarantees of the form it returns. -/
def FormPost (s : List Token) (form : Form) (s1 : List Token) : Prop :=
  form.spansOk = true ∧ s1 <:+ s ∧ (∀ p, LowerBound p s → p ≤ form.startPos) ∧
    LowerBound form.startPos s1 ∧ form.startPos ≤ form.endPos

/-- The span invariant of every recursive parser at one amount of fuel. -/
structure SpanInv (typeString : TokenType → String) (n : Nat) : Prop where
  expression : ∀ precedence s e s1, parseExpression typeString n precedence s = .ok (e, s1) →
    StreamOk s → PrefixPost s e s1
  loop : ∀ result precedence s e s1,
    parseExpressionLoop typeString n result precedence s = .ok (e, s1) → StreamOk s →
    result.spansOk = true → LowerBound result.startPos s → PostfixPost result s e s1
  pre : ∀ precedence s e s1, parsePrefix typeString n precedence s = .ok (e, s1) →
    StreamOk s → PrefixPost s e s1
  post : ∀ result precedence s e s1,
    parsePostfix typeString n result precedence s = .ok (e, s1) → StreamOk s →
    result.spansOk = true → LowerBound result.startPos s → PostfixPost result s e s1
  openSquare : ∀ s e s1, parseOpenSquareTokenExpression typeString n s = .ok (e, s1) →
    StreamOk s → PrefixPost s e s1
  form : ∀ s f s1, parseForm typeString n s = .ok (f, s1) → StreamOk s → FormPost s f s1
  unary : ∀ s e s1, parseUnaryTokenExpression typeString n s = .ok (e, s1) →
    StreamOk s → PrefixPost s e s1
  identifier : ∀ s e s1, parseIdentifierTokenExpression typeString n s = .ok (e, s1) →
    StreamOk s → PrefixPost s e s1
  sub : ∀ s e s1, parseSubTokenExpression typeString n s = .ok (e, s1) →
    StreamOk s → PrefixPost s e s1
  arguments : ∀ args s args1 s1, parseArguments typeString n args s = .ok (args1, s1) →
    StreamOk s → Expression.spansOkList args = true →
    Expression.spansOkList args1 = true ∧ s1 <:+ s
  cast : ∀ result s e s1, parseCastExpression typeString n result s = .ok (e, s1) →
    StreamOk s → result.spansOk = true → LowerBound result.startPos s →
    PostfixPost result s e s1
  math : ∀ result s e s1, parseMathExpression typeString n result s = .ok (e, s1) →
    StreamOk s → result.spansOk = true → LowerBound result.startPos s →
    PostfixPost result s e s1
  assign : ∀ result s e s1, parseAssignExpression typeString n result s = .ok (e, s1) →
    StreamOk s → result.spansOk = true → LowerBound result.startPos s →
    PostfixPost result s e s1

/-- The magnitude the claim gives the first letter of the identifier behind a
number: `K`, `M`, `G`, `T`, `P`, in either case, stand for 10³, 10⁶, 10⁹, 10¹², 10¹⁵;
any other letter, and no letter at all, for 1. -/
def magnitude (first : Option Char) : ℚ :=
  if first = some 'k' ∨ first = some 'K' then 10 ^ 3
  else if first = some 'm' ∨ first = some 'M' then 10 ^ 6
  else if first = some 'g' ∨ first = some 'G' then 10 ^ 9
  else if first = some 't' ∨ first = some 'T' then 10 ^ 12
  else if first = some 'p' ∨ first = some 'P' then 10 ^ 15
  else 1

/-- The spellings of the twelve note names, the letter in either case, each with
its index in the chromatic table. -/
def noteSpellings : List (String × Nat) :=
  [("C", 0), ("c", 0), ("C#", 1), ("c#", 1), ("D", 2), ("d", 2), ("D#", 3), ("d#", 3),
   ("E", 4), ("e", 4), ("F", 5), ("f", 5), ("F#", 6), ("f#", 6), ("G", 7), ("g", 7),
   ("G#", 8), ("g#", 8), ("A", 9), ("a", 9), ("A#", 10), ("a#", 10), ("B", 11), ("b", 11)]

/-! ## The undo history (`HistoryList.cpp`) -/

/-- An `Action`, named by a number. -/
structure Action where
  id : Nat
deriving DecidableEq, Repr

/-- The state of a `HistoryList`: `_stackPos`, `_stack`, and `maxActions`, a member
declared in `HistoryList.h`, outside `src/`. -/
structure HistoryList where
  maxActions : Nat
  stackPos : Nat
  stack : List Action
deriving DecidableEq, Repr

/-- `HistoryList::HistoryList()`: no action, position 0. -/
def HistoryList.empty (maxActions : Nat) : HistoryList := ⟨maxActions, 0, []⟩

/-- `HistoryList::canUndo`. -/
def HistoryList.canUndo (h : HistoryList) : Bool := h.stackPos > 0

/-- `HistoryList::canRedo`. -/
def HistoryList.canRedo (h : HistoryList) : Bool := h.stackPos < h.stack.length

/-- `HistoryList::append`, on the stack and the position; running the action and
the signals it triggers do not touch either. The two flags only decide about those. -/
def HistoryList.append (h : HistoryList) (action : Action) (_forward _forceForwards : Bool) :
    HistoryList :=
  let erased := h.stack.take h.stackPos
  if erased.length = h.maxActions then
    { h with stack := erased.tail ++ [action] }
  else
    { h with stackPos := h.stackPos + 1, stack := erased ++ [action] }

/-- `HistoryList::undo`, on the stack and the position. -/
def HistoryList.undo (h : HistoryList) : HistoryList :=
  if !h.canUndo then h else { h with stackPos := h.stackPos - 1 }

/-- `HistoryList::redo`, on the stack and the position. -/
def HistoryList.redo (h : HistoryList) : HistoryList :=
  if !h.canRedo then h else { h with stackPos := h.stackPos + 1 }

/-- A call of one of the three operations. -/
inductive HistoryCall where
  | append (action : Action) (forward forceForwards : Bool)
  | undo
  | redo
deriving DecidableEq, Repr

/-- The history after one call. -/
def HistoryList.call (h : HistoryList) : HistoryCall → HistoryList
  | .append action forward forceForwards => h.append action forward forceForwards
  | .undo => h.undo
  | .redo => h.redo

/-- The history after a sequence of calls, the first call first. -/
def HistoryList.calls (h : HistoryList) (cs : List HistoryCall) : HistoryList :=
  cs.foldl HistoryList.call h

/-! ## Persistent parameters (`PersistentParameters.h`) -/

/-- A `PersistentParameter<T>`: `{id, portalIndex, value, name}`, the pointer `value`
as a number. -/
structure PersistentParameter where
  id : Nat
  portalIndex : Nat
  value : Nat
  name : String
deriving DecidableEq, Repr

/-- A `std::unordered_map` from numbers to numbers, as the function that finds the
value of a key. -/
abbrev IndexMap := Nat → Option Nat

/-- The empty map. -/
def IndexMap.empty : IndexMap := fun _ => none

/-- `std::unordered_map::emplace`: the pair is added unless the key is there
already. -/
def IndexMap.emplace (m : IndexMap) (key value : Nat) : IndexMap :=
  fun k => if k = key then (match m key with | some v => some v | none => some value) else m k

/-- The state of a `PersistentParameters<T>`: `_parameters` and
`_portalParameterMap`. -/
structure PersistentParameters where
  parameters : List (Option PersistentParameter)
  portalParameterMap : IndexMap

/-- A default-constructed `PersistentParameters<T>`. -/
def PersistentParameters.empty : PersistentParameters := ⟨[], IndexMap.empty⟩

/-- `PersistentParameters::insertParameter`: pad with empty slots up to the index,
assign the slot, `emplace` the portal index. -/
def PersistentParameters.insertParameter (s : PersistentParameters) (insertIndex : Nat)
    (param : PersistentParameter) : PersistentParameters :=
  let padded :=
    s.parameters ++ List.replicate (insertIndex + 1 - s.parameters.length) none
  { parameters := padded.set insertIndex (some param),
    portalParameterMap := s.portalParameterMap.emplace param.portalIndex insertIndex }

/-- `PersistentParameters::pushParameter`: the first index whose slot is empty, or
the size when none is. -/
def PersistentParameters.pushParameter (s : PersistentParameters)
    (param : PersistentParameter) : PersistentParameters :=
  s.insertParameter (s.parameters.findIdx (fun p => p.isNone)) param

/-- The first loop of `setParameters`: the map from the id of each stored parameter
to its index, built from index `parameterIndex` on. -/
def parameterIndexMapLoop :
    List (Option PersistentParameter) → Nat → IndexMap → IndexMap
  | [], _, m => m
  | parameter :: rest, parameterIndex, m =>
    parameterIndexMapLoop rest (parameterIndex + 1)
      (match parameter with
       | some p => m.emplace p.id parameterIndex
       | none => m)

/-- The second loop of `setParameters`: a parameter whose id had an index is
inserted there, any other is queued. -/
def newParametersLoop (parameterIndexMap : IndexMap) :
    List PersistentParameter → PersistentParameters → List PersistentParameter →
      PersistentParameters × List PersistentParameter
  | [], s, queuedParameters => (s, queuedParameters)
  | newParameter :: rest, s, queuedParameters =>
    match parameterIndexMap newParameter.id with
    | some previousParameterIndex =>
      newParametersLoop parameterIndexMap rest
        (s.insertParameter previousParameterIndex newParameter) queuedParameters
    | none =>
      newParametersLoop parameterIndexMap rest s (queuedParameters ++ [newParameter])

/-- The third loop of `setParameters`: the queued parameters are pushed. -/
def queuedParametersLoop : List PersistentParameter → PersistentParameters →
    PersistentParameters
  | [], s => s
  | queuedParam :: rest, s => queuedParametersLoop rest (s.pushParameter queuedParam)

/-- `PersistentParameters::setParameters`. The table is cleared; the portal map is
not. -/
def PersistentParameters.setParameters (s : PersistentParameters)
    (newParameters : List PersistentParameter) : PersistentParameters :=
  let parameterIndexMap := parameterIndexMapLoop s.parameters 0 IndexMap.empty
  let afterNew :=
    newParametersLoop parameterIndexMap newParameters { s with parameters := [] } []
  queuedParametersLoop afterNew.2 afterNew.1

/-- The states a `PersistentParameters` object goes through: the fresh object, and
what `setParameters` makes of a reached state for a list of pairwise-distinct ids. -/
inductive PersistentParameters.Reached : PersistentParameters → Prop where
  | fresh : PersistentParameters.Reached PersistentParameters.empty
  | set (s : PersistentParameters) (newParameters : List PersistentParameter) :
      PersistentParameters.Reached s → (newParameters.map (fun p => p.id)).Nodup →
      PersistentParameters.Reached (s.setParameters newParameters)

/-- The slot at an index of the table: the parameter there, if any. -/
def slot (table : List (Option PersistentParameter)) (index : Nat) :
    Option PersistentParameter :=
  table.getD index none

/-- The index of the first slot that holds a parameter of the given id. -/
def firstIndex : List (Option PersistentParameter) → Nat → Option Nat
  | [], _ => none
  | some p :: rest, id => if p.id = id then some 0 else (firstIndex rest id).map (· + 1)
  | none :: rest, id => (firstIndex rest id).map (· + 1)

/-- Assignment to a slot of the table, which grows by empty slots as needed. -/
def insertAt : List (Option PersistentParameter) → Nat → PersistentParameter →
    List (Option PersistentParameter)
  | [], 0, p => [some p]
  | [], i + 1, p => none :: insertAt [] i p
  | _ :: rest, 0, p => some p :: rest
  | parameter :: rest, i + 1, p => parameter :: insertAt rest i p

/-! # Theorems -/

/-! ## Reading a numeral -/

/-- A text that starts with a numeral whose value is zero or a normal `float` is read
by `std::stof` as that value. -/
theorem stof_eq_ok (str : String) (v : ℚ)
    (hdigits : ¬ ((numeralParts str).1 = [] ∧ (numeralParts str).2 = []))
    (hv : numeralValue str = v) (hhigh : v < 2 ^ 128 - 2 ^ 103)
    (hlow : v = 0 ∨ 1 / 2 ^ 126 ≤ v) : stof str = .ok v := by
  unfold stof
  rw [if_neg hdigits, hv, if_neg (not_le.mpr hhigh)]
  have h3 : ¬ (0 < v ∧ v < 1 / 2 ^ 126) := by
    rintro ⟨h1, h2⟩
    rcases hlow with h | h
    · exact absurd h (ne_of_gt h1)
    · exact absurd h (not_le.mpr h2)
  rw [if_neg h3]

/-- A numeral whose value rounds beyond the largest `float` makes `std::stof` throw
`std::out_of_range`. -/
theorem stof_eq_outOfRange (str : String)
    (hdigits : ¬ ((numeralParts str).1 = [] ∧ (numeralParts str).2 = []))
    (hhigh : 2 ^ 128 - 2 ^ 103 ≤ numeralValue str) : stof str = .error .outOfRange := by
  unfold stof
  rw [if_neg hdigits, if_pos hhigh]

/-! ## The token stream and `expect` -/

@[simp] theorem peek_cons (t : Token) (s : List Token) : peek (t :: s) = t := rfl

@[simp] theorem next_cons (t : Token) (s : List Token) : next (t :: s) = (t, s) := rfl

@[simp] theorem peek_nil : peek [] = eofToken := rfl

@[simp] theorem next_nil : next [] = (eofToken, []) := rfl

theorem next_fst (s : List Token) : (next s).1 = peek s := rfl

theorem next_snd (s : List Token) : (next s).2 = s.tail := rfl

theorem expect_ok (typeString : TokenType → String) (token : Token) (expectedType : TokenType)
    (h : token.type = expectedType) : expect typeString token expectedType = .ok () := by
  simp [expect, h]

theorem expect_error (typeString : TokenType → String) (token : Token)
    (expectedType : TokenType) (h : token.type ≠ expectedType) :
    expect typeString token expectedType =
      .error (.parseError
        ⟨"Dude, why is there a " ++ typeString token.type ++ "? I expected a "
          ++ typeString expectedType ++ " here.", token.startPos, token.endPos⟩) := by
  simp [expect, h]

/-! ## Control expressions -/

theorem controlType_of_mem (w : String) (kind : ControlType) (hk : (w, kind) ∈ controlWords) :
    controlType w = some kind := by
  simp only [controlWords, List.mem_cons, Prod.mk.injEq, List.mem_singleton, List.not_mem_nil,
    or_false] at hk
  rcases hk with h | h | h | h | h | h | h | h <;> obtain ⟨rfl, rfl⟩ := h <;> rfl

theorem controlType_of_not_mem (t : String)
    (ht : t ∉ ["label", "value", "toggle", "graph", "scope", "keys", "roll", "plug"]) :
    controlType t = none := by
  simp only [List.mem_cons, List.mem_singleton, List.not_mem_nil, or_false, not_or] at ht
  obtain ⟨h1, h2, h3, h4, h5, h6, h7, h8⟩ := ht
  simp [controlType, h1, h2, h3, h4, h5, h6, h7, h8]

theorem parseControlExpression_kind (typeString : TokenType → String) (w : String)
    (kind : ControlType) (hk : (w, kind) ∈ controlWords) (name : String) (startPos : SourcePos)
    (colon ident : Token) (hc : colon.type = .COLON) (hi : ident.type = .IDENTIFIER)
    (hw : ident.content = w) (rest : List Token) (hdot : (peek rest).type ≠ .DOT) :
    parseControlExpression typeString name startPos (colon :: ident :: rest) =
      .ok (.ControlExpression name kind "value" startPos ident.endPos, rest) := by
  subst hw
  simp [parseControlExpression, expect_ok, hc, hi, controlType_of_mem _ _ hk, hdot]

theorem parseControlExpression_property (typeString : TokenType → String) (w : String)
    (kind : ControlType) (hk : (w, kind) ∈ controlWords) (name : String) (startPos : SourcePos)
    (colon ident dot p : Token) (hc : colon.type = .COLON) (hi : ident.type = .IDENTIFIER)
    (hw : ident.content = w) (hd : dot.type = .DOT) (hp : p.type = .IDENTIFIER)
    (rest : List Token) :
    parseControlExpression typeString name startPos (colon :: ident :: dot :: p :: rest) =
      .ok (.ControlExpression name kind p.content startPos p.endPos, rest) := by
  subst hw
  simp [parseControlExpression, expect_ok, hc, hi, controlType_of_mem _ _ hk, hd, hp]

theorem parseControlExpression_unknown (typeString : TokenType → String) (name : String)
    (startPos : SourcePos) (colon ident : Token) (hc : colon.type = .COLON)
    (hi : ident.type = .IDENTIFIER)
    (ht : ident.content ∉ ["label", "value", "toggle", "graph", "scope", "keys", "roll", "plug"])
    (rest : List Token) :
    parseControlExpression typeString name startPos (colon :: ident :: rest) =
      .error (.parseError ⟨"Come on man, I don't support " ++ ident.content ++ " controls.",
        ident.startPos, ident.endPos⟩) := by
  simp [parseControlExpression, expect_ok, hc, hi, controlType_of_not_mem _ ht]

theorem parsePrefix_colon (typeString : TokenType → String) (fuel : Nat)
    (precedence : Precedence) (s : List Token) (h : (peek s).type = .COLON) :
    parsePrefix typeString (fuel + 1) precedence s = parseColonTokenExpression typeString s := by
  simp [parsePrefix, h]

theorem parsePrefix_string (typeString : TokenType → String) (fuel : Nat)
    (precedence : Precedence) (s : List Token) (h : (peek s).type = .DOUBLE_STRING) :
    parsePrefix typeString (fuel + 1) precedence s = parseStringTokenExpression typeString s := by
  simp [parsePrefix, h]

/-- C12. For each of the eight kind words, `COLON IDENTIFIER(k)` in prefix position
parses to the control expression with empty name, the matching kind and property
`"value"`; a following `DOT IDENTIFIER(p)` makes the property `p` and ends the span
at `p`; a leading `DOUBLE_STRING` gives the same node under the string's content as
name (its span then starts at the string). -/
theorem control_expression_parses (typeString : TokenType → String) (fuel : Nat)
    (precedence : Precedence) (w : String) (kind : ControlType)
    (hk : (w, kind) ∈ controlWords) (colon ident : Token) (hc : colon.type = .COLON)
    (hi : ident.type = .IDENTIFIER) (hw : ident.content = w) :
    (∀ rest, (peek rest).type ≠ .DOT →
      parsePrefix typeString (fuel + 1) precedence (colon :: ident :: rest) =
        .ok (.ControlExpression "" kind "value" colon.startPos ident.endPos, rest)) ∧
    (∀ dot p rest, dot.type = .DOT → p.type = .IDENTIFIER →
      parsePrefix typeString (fuel + 1) precedence (colon :: ident :: dot :: p :: rest) =
        .ok (.ControlExpression "" kind p.content colon.startPos p.endPos, rest)) ∧
    (∀ str rest, str.type = .DOUBLE_STRING → (peek rest).type ≠ .DOT →
      parsePrefix typeString (fuel + 1) precedence (str :: colon :: ident :: rest) =
        .ok (.ControlExpression str.content kind "value" str.startPos ident.endPos, rest)) ∧
    (∀ str dot p rest, str.type = .DOUBLE_STRING → dot.type = .DOT → p.type = .IDENTIFIER →
      parsePrefix typeString (fuel + 1) precedence (str :: colon :: ident :: dot :: p :: rest) =
        .ok (.ControlExpression str.content kind p.content str.startPos p.endPos, rest)) := by
  refine ⟨?_, ?_, ?_, ?_⟩
  · intro rest hdot
    rw [parsePrefix_colon _ _ _ _ (by simpa using hc)]
    exact parseControlExpression_kind typeString w kind hk "" _ colon ident hc hi hw rest hdot
  · intro dot p rest hd hp
    rw [parsePrefix_colon _ _ _ _ (by simpa using hc)]
    exact parseControlExpression_property typeString w kind hk "" _ colon ident dot p hc hi hw
      hd hp rest
  · intro str rest hs hdot
    rw [parsePrefix_string _ _ _ _ (by simpa using hs)]
    simp only [parseStringTokenExpression, next_cons, expect_ok _ _ _ hs]
    exact parseControlExpression_kind typeString w kind hk _ _ colon ident hc hi hw rest hdot
  · intro str dot p rest hs hd hp
    rw [parsePrefix_string _ _ _ _ (by simpa using hs)]
    simp only [parseStringTokenExpression, next_cons, expect_ok _ _ _ hs]
    exact parseControlExpression_property typeString w kind hk _ _ colon ident dot p hc hi hw
      hd hp rest

theorem control_expression_parses_witness :
    parsePrefix (fun _ => "") 1 .ALL
        [⟨.COLON, ":", ⟨1, 0⟩, ⟨1, 1⟩⟩, ⟨.IDENTIFIER, "value", ⟨1, 1⟩, ⟨1, 6⟩⟩,
          ⟨.END_OF_LINE, "", ⟨1, 6⟩, ⟨1, 7⟩⟩] =
      .ok (.ControlExpression "" .VALUE "value" ⟨1, 0⟩ ⟨1, 6⟩,
        [⟨.END_OF_LINE, "", ⟨1, 6⟩, ⟨1, 7⟩⟩]) :=
  (control_expression_parses (fun _ => "") 0 .ALL "value" .VALUE (by decide)
    ⟨.COLON, ":", ⟨1, 0⟩, ⟨1, 1⟩⟩ ⟨.IDENTIFIER, "value", ⟨1, 1⟩, ⟨1, 6⟩⟩ rfl rfl rfl).1
    [⟨.END_OF_LINE, "", ⟨1, 6⟩, ⟨1, 7⟩⟩] (by decide)

/-- C13. For an identifier text `t` that is none of the eight kind words,
`parseControlExpression` on `COLON IDENTIFIER(t)` throws the `ParseError` whose
message is `"Come on man, I don't support " ++ t ++ " controls."` (so it contains
`t`) and whose span is the span of the `IDENTIFIER` token. -/
theorem control_expression_unknown_kind (typeString : TokenType → String) (name : String)
    (startPos : SourcePos) (colon ident : Token) (rest : List Token) (hc : colon.type = .COLON)
    (hi : ident.type = .IDENTIFIER)
    (ht : ident.content ∉
      ["label", "value", "toggle", "graph", "scope", "keys", "roll", "plug"]) :
    parseControlExpression typeString name startPos (colon :: ident :: rest) =
        .error (.parseError ⟨"Come on man, I don't support " ++ ident.content ++ " controls.",
          ident.startPos, ident.endPos⟩) ∧
      parsePrefix typeString 1 .ALL (colon :: ident :: rest) =
        .error (.parseError ⟨"Come on man, I don't support " ++ ident.content ++ " controls.",
          ident.startPos, ident.endPos⟩) := by
  refine ⟨parseControlExpression_unknown typeString name startPos colon ident hc hi ht rest, ?_⟩
  rw [parsePrefix_colon _ _ _ _ (by simpa using hc)]
  exact parseControlExpression_unknown typeString "" _ colon ident hc hi ht rest

theorem control_expression_unknown_kind_witness :
    parseControlExpression (fun _ => "") "" ⟨1, 0⟩
        [⟨.COLON, ":", ⟨1, 0⟩, ⟨1, 1⟩⟩, ⟨.IDENTIFIER, "bogus", ⟨1, 1⟩, ⟨1, 6⟩⟩] =
      .error (.parseError ⟨"Come on man, I don't support bogus controls.", ⟨1, 1⟩, ⟨1, 6⟩⟩) :=
  (control_expression_unknown_kind (fun _ => "") "" ⟨1, 0⟩ ⟨.COLON, ":", ⟨1, 0⟩, ⟨1, 1⟩⟩
    ⟨.IDENTIFIER, "bogus", ⟨1, 1⟩, ⟨1, 6⟩⟩ [] rfl rfl (by decide)).1

/-! ## `expect` -/

/-- C18. `expect` throws exactly when the token's kind is not the expected one; what
it throws is the `ParseError` whose message holds the type string of the actual kind
and then that of the expected kind, and whose span is the token's span. -/
theorem expect_throws_iff (typeString : TokenType → String) (token : Token)
    (expectedType : TokenType) :
    ((∃ f, expect typeString token expectedType = .error f) ↔ token.type ≠ expectedType) ∧
    (expect typeString token expectedType = .ok () ↔ token.type = expectedType) ∧
    (∀ f, expect typeString token expectedType = .error f →
      f = .parseError
        ⟨"Dude, why is there a " ++ typeString token.type ++ "? I expected a "
          ++ typeString expectedType ++ " here.", token.startPos, token.endPos⟩) := by
  by_cases h : token.type = expectedType
  · simp [expect_ok _ _ _ h, h]
  · simp [expect_error _ _ _ h, h]

/-! ## `CreateCall` -/

theorem constOperandsLoop_none (operands : List Value) (acc : List Constant)
    (h : ∃ operand ∈ operands, dyn_cast operand = none) :
    constOperandsLoop operands acc = none := by
  induction operands generalizing acc with
  | nil => simp at h
  | cons v vs ih =>
    cases hv : dyn_cast v with
    | none => simp [constOperandsLoop, hv]
    | some c =>
      have h2 : ∃ operand ∈ vs, dyn_cast operand = none := by
        obtain ⟨o, ho, hn⟩ := h
        rcases List.mem_cons.mp ho with rfl | ho
        · rw [hv] at hn; cases hn
        · exact ⟨o, ho, hn⟩
      simp [constOperandsLoop, hv, ih _ h2]

theorem constOperandsLoop_some (operands : List Value) (acc : List Constant)
    (h : ∀ operand ∈ operands, dyn_cast operand ≠ none) :
    constOperandsLoop operands acc = some (acc ++ operands.filterMap dyn_cast) := by
  induction operands generalizing acc with
  | nil => simp [constOperandsLoop]
  | cons v vs ih =>
    cases hv : dyn_cast v with
    | none => exact absurd hv (h v (List.mem_cons_self _ _))
    | some c =>
      simp [constOperandsLoop, hv, ih _ (fun o ho => h o (List.mem_cons_of_mem _ ho)),
        List.filterMap_cons]

/-- C19. When the callee is not constant-foldable, or some operand is not a
constant, `CreateCall` returns the result of the call instruction it inserts, and the
builder holds exactly that one instruction more, at the insertion point. -/
theorem CreateCall_inserts_one_call (canConstantFoldCallTo : CallInst → Function → Bool)
    (ConstantFoldCall : CallInst → Function → List Constant → Option Constant)
    (b : Builder) (f : Function) (operands : List Value) (name : String)
    (h : canConstantFoldCallTo (CallInst.Create f operands) f = false ∨
      ∃ operand ∈ operands, dyn_cast operand = none) :
    (CreateCall canConstantFoldCallTo ConstantFoldCall b f operands name).1 =
        some (.call (.mk f operands name)) ∧
      (CreateCall canConstantFoldCallTo ConstantFoldCall b f operands name).2.before =
        b.before ++ [.mk f operands name] ∧
      (CreateCall canConstantFoldCallTo ConstantFoldCall b f operands name).2.after = b.after ∧
      (CreateCall canConstantFoldCallTo ConstantFoldCall b f operands name).2.instructions.length
        = b.instructions.length + 1 := by
  have key : CreateCall canConstantFoldCallTo ConstantFoldCall b f operands name =
      (some (.call (.mk f operands name)),
        ⟨b.before ++ [.mk f operands name], b.after⟩) := by
    by_cases hc : canConstantFoldCallTo (CallInst.Create f operands) f = false
    · simp only [CreateCall, hc]
      rfl
    · rcases h with h | h
      · exact absurd h hc
      · simp only [CreateCall, hc, constOperandsLoop_none _ _ h]
        rfl
  rw [key]
  simp [Builder.instructions]
  omega

theorem CreateCall_inserts_one_call_witness :
    (CreateCall (fun _ _ => true) (fun _ _ _ => some ⟨7⟩) ⟨[], []⟩ ⟨"sin"⟩
        [.constant ⟨1⟩, .other 0] "r").1 =
        some (.call (.mk ⟨"sin"⟩ [.constant ⟨1⟩, .other 0] "r")) ∧
      (CreateCall (fun _ _ => true) (fun _ _ _ => some ⟨7⟩) ⟨[], []⟩ ⟨"sin"⟩
        [.constant ⟨1⟩, .other 0] "r").2.before =
        [] ++ [.mk ⟨"sin"⟩ [.constant ⟨1⟩, .other 0] "r"] :=
  have h := CreateCall_inserts_one_call (fun _ _ => true) (fun _ _ _ => some ⟨7⟩) ⟨[], []⟩
    ⟨"sin"⟩ [.constant ⟨1⟩, .other 0] "r" (Or.inr ⟨.other 0, by simp, rfl⟩)
  ⟨h.1, h.2.1⟩

/-- C20. When the callee is constant-foldable, every operand is a constant and the
folder returns a constant, `CreateCall` returns that constant and leaves the builder
as it was; the value returned does not depend on the builder or on the name, so a
second invocation with the same callee and operands returns the same value. -/
theorem CreateCall_folds (canConstantFoldCallTo : CallInst → Function → Bool)
    (ConstantFoldCall : CallInst → Function → List Constant → Option Constant)
    (b : Builder) (f : Function) (operands : List Value) (name : String) (c : Constant)
    (hfoldable : canConstantFoldCallTo (CallInst.Create f operands) f = true)
    (hconst : ∀ operand ∈ operands, dyn_cast operand ≠ none)
    (hfold : ConstantFoldCall (CallInst.Create f operands) f (operands.filterMap dyn_cast)
      = some c) :
    CreateCall canConstantFoldCallTo ConstantFoldCall b f operands name =
        (some (.constant c), b) ∧
      (CreateCall canConstantFoldCallTo ConstantFoldCall b f operands name).2.instructions =
        b.instructions ∧
      ∀ (b2 : Builder) (name2 : String),
        (CreateCall canConstantFoldCallTo ConstantFoldCall b2 f operands name2).1 =
          (CreateCall canConstantFoldCallTo ConstantFoldCall b f operands name).1 := by
  have key : ∀ (b1 : Builder) (n1 : String),
      CreateCall canConstantFoldCallTo ConstantFoldCall b1 f operands n1 =
        (some (.constant c), b1) := by
    intro b1 n1
    simp [CreateCall, hfoldable, constOperandsLoop_some _ _ hconst, hfold]
  refine ⟨key b name, by rw [key], ?_⟩
  intro b2 name2
  rw [key, key]

theorem CreateCall_folds_witness :
    CreateCall (fun _ _ => true) (fun _ _ cs => some ⟨cs.length⟩) ⟨[], []⟩ ⟨"sin"⟩
        [.constant ⟨1⟩, .constant ⟨2⟩] "r" = (some (.constant ⟨2⟩), ⟨[], []⟩) :=
  (CreateCall_folds (fun _ _ => true) (fun _ _ cs => some ⟨cs.length⟩) ⟨[], []⟩ ⟨"sin"⟩
    [.constant ⟨1⟩, .constant ⟨2⟩] "r" ⟨2⟩ rfl (by simp [dyn_cast]) rfl).1

/-! ## The loop of `parseExpression` -/

theorem operatorToPrecedence_rank_lt (t : TokenType) :
    (operatorToPrecedence t).rank < Precedence.ALL.rank := by
  cases t <;> decide

/-- At precedence `ALL` the postfix dispatch hands the operand back and leaves the
stream as it is. -/
theorem parsePostfix_ALL (typeString : TokenType → String) (n : Nat) (pre : Expression)
    (s : List Token) : parsePostfix typeString (n + 1) pre .ALL s = .ok (pre, s) := by
  have h := operatorToPrecedence_rank_lt (peek s).type
  simp [parsePostfix, h]

/-- A token the postfix dispatch does not know is left in the stream, whatever the
precedence. -/
theorem parsePostfix_NONE (typeString : TokenType → String) (n : Nat) (pre : Expression)
    (precedence : Precedence) (s : List Token)
    (h : (peek s).type = .CLOSE_BRACKET ∨ (peek s).type = .CLOSE_SQUARE ∨
      (peek s).type = .COMMA ∨ (peek s).type = .END_OF_FILE) :
    parsePostfix typeString (n + 1) pre precedence s = .ok (pre, s) := by
  rcases h with h | h | h | h <;> simp [parsePostfix, h]

/-- The loop never ends once a pass through `parsePostfix` leaves the operand and
the stream unchanged at a token other than `END_OF_LINE`. -/
theorem parseExpressionLoop_stuck (typeString : TokenType → String) (result : Expression)
    (precedence : Precedence) (s : List Token) (hne : (peek s).type ≠ .END_OF_LINE)
    (hstay : ∀ n, parsePostfix typeString (n + 1) result precedence s = .ok (result, s))
    (fuel : Nat) :
    parseExpressionLoop typeString fuel result precedence s = .error .outOfFuel := by
  induction fuel with
  | zero => simp [parseExpressionLoop]
  | succ n ih =>
    cases n with
    | zero => simp [parseExpressionLoop, parsePostfix, hne]
    | succ m =>
      rw [parseExpressionLoop, if_pos hne, hstay m]
      exact ih

/-- When the loop returns, the next token is `END_OF_LINE`. -/
theorem parseExpressionLoop_ok_peek (typeString : TokenType → String) (fuel : Nat) :
    ∀ (result : Expression) (precedence : Precedence) (s : List Token) (e : Expression)
      (s1 : List Token),
      parseExpressionLoop typeString fuel result precedence s = .ok (e, s1) →
        (peek s1).type = .END_OF_LINE := by
  induction fuel with
  | zero => intro result precedence s e s1 h; simp [parseExpressionLoop] at h
  | succ n ih =>
    intro result precedence s e s1 h
    by_cases hp : (peek s).type = .END_OF_LINE
    · simp [parseExpressionLoop, hp] at h
      rw [← h.2]; exact hp
    · simp only [parseExpressionLoop, hp, ne_eq, not_false_eq_true, if_true] at h
      cases hq : parsePostfix typeString n result precedence s with
      | error f => simp [hq] at h
      | ok r =>
        obtain ⟨r1, r2⟩ := r
        simp only [hq] at h
        exact ih r1 precedence r2 e s1 h

/-- When `parseExpression` returns, at any precedence, the next token is
`END_OF_LINE`. -/
theorem parseExpression_ok_peek (typeString : TokenType → String) (fuel : Nat)
    (precedence : Precedence) (s : List Token) (e : Expression) (s1 : List Token)
    (h : parseExpression typeString fuel precedence s = .ok (e, s1)) :
    (peek s1).type = .END_OF_LINE := by
  cases fuel with
  | zero => simp [parseExpression] at h
  | succ n =>
    simp only [parseExpression] at h
    cases hq : parsePrefix typeString n precedence s with
    | error f => simp [hq] at h
    | ok r =>
      obtain ⟨r1, r2⟩ := r
      simp only [hq] at h
      exact parseExpressionLoop_ok_peek typeString n r1 precedence r2 e s1 h

/-- An identifier followed by neither `:` nor `(` is a variable reference. -/
theorem parseIdentifierTokenExpression_variable (typeString : TokenType → String) (n : Nat)
    (ident : Token) (rest : List Token) (hi : ident.type = .IDENTIFIER)
    (h1 : (peek rest).type ≠ .COLON) (h2 : (peek rest).type ≠ .OPEN_BRACKET) :
    parseIdentifierTokenExpression typeString (n + 1) (ident :: rest) =
      .ok (.VariableExpression ident.content ident.startPos ident.endPos, rest) := by
  simp [parseIdentifierTokenExpression, expect_ok, hi, h1, h2]

/-- At precedence `ALL`, a variable followed by a token other than `:`, `(` and
`END_OF_LINE` sends `parseExpression` into its loop for good. -/
theorem parseExpression_ALL_variable_stuck (typeString : TokenType → String) (x t : Token)
    (rest : List Token) (hx : x.type = .IDENTIFIER) (h1 : t.type ≠ .COLON)
    (h2 : t.type ≠ .OPEN_BRACKET) (h3 : t.type ≠ .END_OF_LINE) (fuel : Nat) :
    parseExpression typeString fuel .ALL (x :: t :: rest) = .error .outOfFuel := by
  rcases fuel with _ | _ | _ | n
  · simp [parseExpression]
  · simp [parseExpression, parsePrefix]
  · simp [parseExpression, parsePrefix, hx, parseIdentifierTokenExpression]
  · have hv := parseIdentifierTokenExpression_variable typeString n x (t :: rest) hx
      (by simpa using h1) (by simpa using h2)
    simp only [parseExpression, parsePrefix, peek_cons, hx, hv]
    exact parseExpressionLoop_stuck typeString _ .ALL (t :: rest) (by simpa using h3)
      (fun m => parsePostfix_ALL typeString m _ _) _

/-! ## Postfix increment and decrement -/

/-- C11 (code defect). `parsePostfixExpression` on a variable followed by `++` or
`--` returns the postfix node that spans from the variable's start to the operator's
end; but the statement `x++ END_OF_LINE` parsed from the top level never returns:
at precedence `ALL` the operator is left in the stream and the loop of
`parseExpression` runs for ever, whatever the fuel. -/
theorem postfix_statement_never_returns :
    (∀ (typeString : TokenType → String) (name : String) (a b : SourcePos) (op : Token)
      (rest : List Token), op.type = .INCREMENT →
      parsePostfixExpression typeString (.VariableExpression name a b) (op :: rest) =
        .ok (.PostfixExpression (.VariableExpression name a b) .INCREMENT a op.endPos, rest)) ∧
    (∀ (typeString : TokenType → String) (name : String) (a b : SourcePos) (op : Token)
      (rest : List Token), op.type = .DECREMENT →
      parsePostfixExpression typeString (.VariableExpression name a b) (op :: rest) =
        .ok (.PostfixExpression (.VariableExpression name a b) .DECREMENT a op.endPos, rest)) ∧
    (∀ (typeString : TokenType → String) (x op : Token) (rest : List Token) (fuel : Nat),
      x.type = .IDENTIFIER → (op.type = .INCREMENT ∨ op.type = .DECREMENT) →
      parseExpression typeString fuel .ALL (x :: op :: rest) = .error .outOfFuel) ∧
    (∀ (typeString : TokenType → String) (fuel : Nat),
      parse typeString fuel []
        [⟨.IDENTIFIER, "x", ⟨1, 0⟩, ⟨1, 1⟩⟩, ⟨.INCREMENT, "++", ⟨1, 1⟩, ⟨1, 3⟩⟩,
          ⟨.END_OF_LINE, "", ⟨1, 3⟩, ⟨1, 4⟩⟩, ⟨.END_OF_FILE, "", ⟨2, 0⟩, ⟨2, 0⟩⟩] =
        .error .outOfFuel) := by
  refine ⟨?_, ?_, ?_, ?_⟩
  · intro typeString name a b op rest h
    simp [parsePostfixExpression, h, dynamic_unique_cast, Expression.isAssignable,
      Expression.startPos]
  · intro typeString name a b op rest h
    simp [parsePostfixExpression, h, dynamic_unique_cast, Expression.isAssignable,
      Expression.startPos]
  · intro typeString x op rest fuel hx hop
    apply parseExpression_ALL_variable_stuck typeString x op rest hx <;>
      rcases hop with h | h <;> simp [h]
  · intro typeString fuel
    cases fuel with
    | zero => simp [parse]
    | succ n =>
      simp [parse, parseExpression_ALL_variable_stuck typeString
        ⟨.IDENTIFIER, "x", ⟨1, 0⟩, ⟨1, 1⟩⟩ ⟨.INCREMENT, "++", ⟨1, 1⟩, ⟨1, 3⟩⟩ _ rfl
        (by decide) (by decide) (by decide) n]

/-! ## Call expressions -/

/-- C14 (code defect). An identifier followed by `:` is sent to
`parseCallExpression`, which expects the `(` where the `:` still stands: with
enough fuel the result is the `expect` error at the colon, and with no amount of
fuel does `f : ( ... )` yield a call expression. -/
theorem call_expression_rejected_at_colon :
    (∀ (typeString : TokenType → String) (n : Nat) (precedence : Precedence)
      (f colon : Token) (rest : List Token), f.type = .IDENTIFIER → colon.type = .COLON →
      parsePrefix typeString (n + 3) precedence (f :: colon :: rest) =
        .error (.parseError
          ⟨"Dude, why is there a " ++ typeString .COLON ++ "? I expected a "
            ++ typeString .OPEN_BRACKET ++ " here.", colon.startPos, colon.endPos⟩)) ∧
    (∀ (typeString : TokenType → String) (fuel : Nat) (precedence : Precedence)
      (f colon : Token) (rest : List Token) (r : Expression × List Token),
      f.type = .IDENTIFIER → colon.type = .COLON →
      parsePrefix typeString fuel precedence (f :: colon :: rest) ≠ .ok r) ∧
    (∀ (typeString : TokenType → String) (n : Nat),
      parsePrefix typeString (n + 3) .ALL
        [⟨.IDENTIFIER, "f", ⟨1, 0⟩, ⟨1, 1⟩⟩, ⟨.COLON, ":", ⟨1, 1⟩, ⟨1, 2⟩⟩,
          ⟨.OPEN_BRACKET, "(", ⟨1, 2⟩, ⟨1, 3⟩⟩, ⟨.CLOSE_BRACKET, ")", ⟨1, 3⟩, ⟨1, 4⟩⟩,
          ⟨.END_OF_LINE, "", ⟨1, 4⟩, ⟨1, 5⟩⟩, ⟨.END_OF_FILE, "", ⟨2, 0⟩, ⟨2, 0⟩⟩] =
        .error (.parseError
          ⟨"Dude, why is there a " ++ typeString .COLON ++ "? I expected a "
            ++ typeString .OPEN_BRACKET ++ " here.", ⟨1, 1⟩, ⟨1, 2⟩⟩)) := by
  have main : ∀ (typeString : TokenType → String) (n : Nat) (precedence : Precedence)
      (f colon : Token) (rest : List Token), f.type = .IDENTIFIER → colon.type = .COLON →
      parsePrefix typeString (n + 3) precedence (f :: colon :: rest) =
        .error (.parseError
          ⟨"Dude, why is there a " ++ typeString .COLON ++ "? I expected a "
            ++ typeString .OPEN_BRACKET ++ " here.", colon.startPos, colon.endPos⟩) := by
    intro typeString n precedence f colon rest hf hc
    simp [parsePrefix, hf, parseIdentifierTokenExpression, expect_ok, hc, parseCallExpression,
      expect, hc]
  refine ⟨main, ?_, ?_⟩
  · intro typeString fuel precedence f colon rest r hf hc
    rcases fuel with _ | _ | _ | n
    · simp [parsePrefix]
    · simp [parsePrefix, hf, parseIdentifierTokenExpression]
    · simp [parsePrefix, hf, parseIdentifierTokenExpression, expect_ok, hc,
        parseCallExpression]
    · rw [main typeString n precedence f colon rest hf hc]
      simp
  · intro typeString n
    exact main typeString n .ALL _ _ _ rfl rfl

/-! ## Forms -/

/-- C15 (code defect). `parseForm` always enters `parseArguments`, whose first
step parses an expression: on `[ n ]` that is the `fail` error at the closing square
bracket, and on `[ n a ]` the expression parser, at precedence `ALL`, never gets past
the closing bracket, whatever the fuel. No form without arguments is returned. -/
theorem form_arguments_not_parsed :
    (∀ (typeString : TokenType → String) (k : Nat) (openSquare n closeSquare : Token)
      (rest : List Token), openSquare.type = .OPEN_SQUARE → n.type = .IDENTIFIER →
      closeSquare.type = .CLOSE_SQUARE →
      parseForm typeString (k + 4) (openSquare :: n :: closeSquare :: rest) =
        .error (.parseError (fail typeString closeSquare))) ∧
    (∀ (typeString : TokenType → String) (fuel : Nat) (openSquare n a closeSquare : Token)
      (rest : List Token), openSquare.type = .OPEN_SQUARE → n.type = .IDENTIFIER →
      a.type = .IDENTIFIER → closeSquare.type = .CLOSE_SQUARE →
      parseForm typeString fuel (openSquare :: n :: a :: closeSquare :: rest) =
        .error .outOfFuel) ∧
    (∀ (typeString : TokenType → String) (k : Nat),
      parseForm typeString (k + 4)
        [⟨.OPEN_SQUARE, "[", ⟨1, 0⟩, ⟨1, 1⟩⟩, ⟨.IDENTIFIER, "freq", ⟨1, 1⟩, ⟨1, 5⟩⟩,
          ⟨.CLOSE_SQUARE, "]", ⟨1, 5⟩, ⟨1, 6⟩⟩, ⟨.END_OF_LINE, "", ⟨1, 6⟩, ⟨1, 7⟩⟩,
          ⟨.END_OF_FILE, "", ⟨2, 0⟩, ⟨2, 0⟩⟩] =
        .error (.parseError
          ⟨"Hey man, not cool. I didn't expect this " ++ typeString .CLOSE_SQUARE ++ "!",
            ⟨1, 5⟩, ⟨1, 6⟩⟩)) := by
  have empty : ∀ (typeString : TokenType → String) (k : Nat)
      (openSquare n closeSquare : Token) (rest : List Token),
      openSquare.type = .OPEN_SQUARE → n.type = .IDENTIFIER →
      closeSquare.type = .CLOSE_SQUARE →
      parseForm typeString (k + 4) (openSquare :: n :: closeSquare :: rest) =
        .error (.parseError (fail typeString closeSquare)) := by
    intro typeString k openSquare n closeSquare rest ho hn hc
    simp [parseForm, expect_ok, ho, hn, parseArguments, parseExpression, parsePrefix, hc]
  refine ⟨empty, ?_, ?_⟩
  · intro typeString fuel openSquare n a closeSquare rest ho hn ha hc
    have hstuck := parseExpression_ALL_variable_stuck typeString a closeSquare rest ha
      (by simp [hc]) (by simp [hc]) (by simp [hc])
    rcases fuel with _ | _ | n
    · simp [parseForm]
    · simp [parseForm, expect_ok, ho, hn, parseArguments]
    · simp [parseForm, expect_ok, ho, hn, parseArguments, hstuck]
  · intro typeString k
    exact empty typeString k _ _ _ _ rfl rfl rfl

/-! ## Parenthesized sub-expressions -/

/-- C16 (code defect). `parseSubTokenExpression` returns for no stream and no
fuel: its inner `parseExpression` returns only in front of an `END_OF_LINE`, where
the closing bracket is then expected. On `( x )` the inner loop never ends. -/
theorem sub_expression_never_returns :
    (∀ (typeString : TokenType → String) (fuel : Nat) (s : List Token)
      (r : Expression × List Token), parseSubTokenExpression typeString fuel s ≠ .ok r) ∧
    (∀ (typeString : TokenType → String) (fuel : Nat) (openBracket x closeBracket : Token)
      (rest : List Token), openBracket.type = .OPEN_BRACKET → x.type = .IDENTIFIER →
      closeBracket.type = .CLOSE_BRACKET →
      parsePrefix typeString fuel .ALL (openBracket :: x :: closeBracket :: rest) =
        .error .outOfFuel) ∧
    (∀ (typeString : TokenType → String) (fuel : Nat),
      parsePrefix typeString fuel .ALL
        [⟨.OPEN_BRACKET, "(", ⟨1, 0⟩, ⟨1, 1⟩⟩, ⟨.IDENTIFIER, "x", ⟨1, 1⟩, ⟨1, 2⟩⟩,
          ⟨.CLOSE_BRACKET, ")", ⟨1, 2⟩, ⟨1, 3⟩⟩, ⟨.END_OF_LINE, "", ⟨1, 3⟩, ⟨1, 4⟩⟩,
          ⟨.END_OF_FILE, "", ⟨2, 0⟩, ⟨2, 0⟩⟩] = .error .outOfFuel) := by
  have stuck : ∀ (typeString : TokenType → String) (fuel : Nat)
      (openBracket x closeBracket : Token) (rest : List Token),
      openBracket.type = .OPEN_BRACKET → x.type = .IDENTIFIER →
      closeBracket.type = .CLOSE_BRACKET →
      parsePrefix typeString fuel .ALL (openBracket :: x :: closeBracket :: rest) =
        .error .outOfFuel := by
    intro typeString fuel openBracket x closeBracket rest ho hx hc
    have hstuck := parseExpression_ALL_variable_stuck typeString x closeBracket rest hx
      (by simp [hc]) (by simp [hc]) (by simp [hc])
    rcases fuel with _ | _ | n
    · simp [parsePrefix]
    · simp [parsePrefix, ho, parseSubTokenExpression]
    · simp [parsePrefix, ho, parseSubTokenExpression, expect_ok, hstuck]
  refine ⟨?_, stuck, ?_⟩
  · intro typeString fuel s r h
    cases fuel with
    | zero => simp [parseSubTokenExpression] at h
    | succ n =>
      simp only [parseSubTokenExpression] at h
      cases he : expect typeString (next s).1 .OPEN_BRACKET with
      | error f => simp [he] at h
      | ok u =>
        simp only [he] at h
        cases hq : parseExpression typeString n .ALL (next s).2 with
        | error f => simp [hq] at h
        | ok q =>
          obtain ⟨e, s2⟩ := q
          have hp := parseExpression_ok_peek typeString n .ALL _ e s2 hq
          simp only [hq] at h
          have hne : (next s2).1.type ≠ .CLOSE_BRACKET := by
            rw [next_fst, hp]; decide
          simp [expect_error _ _ _ hne] at h
  · intro typeString fuel
    exact stuck typeString fuel _ _ _ _ rfl rfl rfl

/-! ## Source positions -/

theorem SourcePos.le_def (a b : SourcePos) :
    a ≤ b ↔ a.line < b.line ∨ (a.line = b.line ∧ a.column ≤ b.column) := Iff.rfl

theorem SourcePos.le_refl (a : SourcePos) : a ≤ a := by
  rw [SourcePos.le_def]; right; exact ⟨rfl, Nat.le_refl _⟩

theorem SourcePos.le_trans {a b c : SourcePos} (h1 : a ≤ b) (h2 : b ≤ c) : a ≤ c := by
  rw [SourcePos.le_def] at *
  omega

/-! ## Streams in source order -/

theorem StreamOk.ofSuffix {s s1 : List Token} (h : StreamOk s) (hs : s1 <:+ s) : StreamOk s1 :=
  ⟨fun t ht => h.1 t (hs.subset ht), h.2.sublist hs.sublist⟩

theorem StreamOk.dropHead {t : Token} {s : List Token} (h : StreamOk (t :: s)) : StreamOk s :=
  h.ofSuffix (List.suffix_cons t s)

theorem StreamOk.head_le {t : Token} {s : List Token} (h : StreamOk (t :: s)) :
    t.startPos ≤ t.endPos := h.1 t (List.mem_cons_self _ _)

theorem StreamOk.lowerBound {t : Token} {s : List Token} (h : StreamOk (t :: s)) :
    LowerBound t.startPos s := fun u hu => (List.pairwise_cons.mp h.2).1 u hu

theorem LowerBound.toSuffix {p : SourcePos} {s s1 : List Token} (h : LowerBound p s)
    (hs : s1 <:+ s) : LowerBound p s1 := fun t ht => h t (hs.subset ht)

theorem LowerBound.mono {p q : SourcePos} {s : List Token} (hpq : p ≤ q)
    (h : LowerBound q s) : LowerBound p s := fun t ht => SourcePos.le_trans hpq (h t ht)

theorem LowerBound.atHead {p : SourcePos} {t : Token} {s : List Token}
    (h : LowerBound p (t :: s)) : p ≤ t.startPos := h t (List.mem_cons_self _ _)

theorem tail_suffix (s : List Token) : (next s).2 <:+ s := List.tail_suffix s

theorem Expression.spansOk_root (e : Expression) (h : e.spansOk = true) :
    e.startPos ≤ e.endPos := by
  cases e <;> simp [Expression.spansOk] at h <;>
    simp [Expression.startPos, Expression.endPos, h]

theorem PrefixPost.of_head {t : Token} {tl : List Token} {e : Expression} {s1 : List Token}
    (hs : StreamOk (t :: tl)) (he : e.spansOk = true) (hstart : e.startPos = t.startPos)
    (hsuf : s1 <:+ tl) : PrefixPost (t :: tl) e s1 :=
  ⟨he, hsuf.trans (List.suffix_cons t tl), fun _ hp => hstart ▸ hp.atHead,
    hstart ▸ hs.lowerBound.toSuffix hsuf⟩

/-! ## Spans of the leaf expressions -/

theorem parseControlExpression_span (typeString : TokenType → String) (name : String)
    (startPos : SourcePos) (s : List Token) (e : Expression) (s1 : List Token)
    (h : parseControlExpression typeString name startPos s = .ok (e, s1)) (hs : StreamOk s)
    (hlb : LowerBound startPos s) :
    e.spansOk = true ∧ s1 <:+ s ∧ e.startPos = startPos := by
  rcases s with _ | ⟨colon, _ | ⟨ident, rest⟩⟩
  · simp [parseControlExpression, expect, eofToken] at h
  · simp only [parseControlExpression, next_cons, next_nil] at h
    split at h
    · simp at h
    · simp [expect, eofToken] at h
  · simp only [parseControlExpression, next_cons] at h
    have hident : startPos ≤ ident.endPos :=
      SourcePos.le_trans (hlb ident (by simp)) (hs.1 ident (by simp))
    split at h
    · simp at h
    · split at h
      · simp at h
      · split at h
        · simp at h
        · split at h
          · rcases rest with _ | ⟨dot, _ | ⟨p, r3⟩⟩
            · simp [eofToken] at *
            · simp [expect, eofToken] at h
            · simp only [next_cons] at h
              split at h
              · simp at h
              · simp only [Except.ok.injEq, Prod.mk.injEq] at h
                obtain ⟨rfl, rfl⟩ := h
                have hp : startPos ≤ p.endPos :=
                  SourcePos.le_trans (hlb p (by simp)) (hs.1 p (by simp))
                refine ⟨by simp [Expression.spansOk, hp], ?_, rfl⟩
                exact ⟨[colon, ident, dot, p], by simp⟩
          · simp only [Except.ok.injEq, Prod.mk.injEq] at h
            obtain ⟨rfl, rfl⟩ := h
            refine ⟨by simp [Expression.spansOk, hident], ?_, rfl⟩
            exact ⟨[colon, ident], by simp⟩

theorem LowerBound.ofCons {t : Token} {tl : List Token} (hs : StreamOk (t :: tl)) :
    LowerBound t.startPos (t :: tl) := by
  intro u hu
  rcases List.mem_cons.mp hu with rfl | hu
  · exact SourcePos.le_refl _
  · exact hs.lowerBound u hu

theorem parseColonTokenExpression_span (typeString : TokenType → String) (s : List Token)
    (e : Expression) (s1 : List Token)
    (h : parseColonTokenExpression typeString s = .ok (e, s1)) (hs : StreamOk s) :
    PrefixPost s e s1 := by
  rcases s with _ | ⟨colon, tl⟩
  · simp [parseColonTokenExpression, parseControlExpression, expect, eofToken] at h
  · simp only [parseColonTokenExpression, peek_cons] at h
    obtain ⟨h1, h2, h3⟩ := parseControlExpression_span typeString _ _ _ _ _ h hs
      (LowerBound.ofCons hs)
    exact ⟨h1, h2, fun p hp => h3 ▸ hp.atHead, h3 ▸ (LowerBound.ofCons hs).toSuffix h2⟩

theorem parseStringTokenExpression_span (typeString : TokenType → String) (s : List Token)
    (e : Expression) (s1 : List Token)
    (h : parseStringTokenExpression typeString s = .ok (e, s1)) (hs : StreamOk s) :
    PrefixPost s e s1 := by
  rcases s with _ | ⟨str, tl⟩
  · simp [parseStringTokenExpression, expect, eofToken] at h
  · simp only [parseStringTokenExpression, next_cons] at h
    split at h
    · simp at h
    · obtain ⟨h1, h2, h3⟩ := parseControlExpression_span typeString _ _ _ _ _ h hs.dropHead
        hs.lowerBound
      exact PrefixPost.of_head hs h1 h3 h2

theorem parseNoteTokenExpression_span (typeString : TokenType → String) (s : List Token)
    (e : Expression) (s1 : List Token)
    (h : parseNoteTokenExpression typeString s = .ok (e, s1)) (hs : StreamOk s) :
    PrefixPost s e s1 := by
  rcases s with _ | ⟨note, tl⟩
  · simp [parseNoteTokenExpression, expect, eofToken] at h
  · simp only [parseNoteTokenExpression, next_cons] at h
    split at h
    · simp at h
    · split at h
      · simp at h
      · split at h
        · simp at h
        · split at h
          · simp at h
          · simp only [Except.ok.injEq, Prod.mk.injEq] at h
            obtain ⟨rfl, rfl⟩ := h
            exact PrefixPost.of_head hs (by simp [Expression.spansOk, hs.head_le]) rfl
              (List.suffix_refl _)

theorem parseNumberTokenExpression_span (typeString : TokenType → String) (s : List Token)
    (e : Expression) (s1 : List Token)
    (h : parseNumberTokenExpression typeString s = .ok (e, s1)) (hs : StreamOk s) :
    PrefixPost s e s1 := by
  rcases s with _ | ⟨number, tl⟩
  · simp [parseNumberTokenExpression, expect, eofToken] at h
  · simp only [parseNumberTokenExpression, next_cons] at h
    split at h
    · simp at h
    · split at h
      · simp at h
      · split at h
        · rename_i hid
          rcases tl with _ | ⟨postMulToken, tl2⟩
          · simp [eofToken] at hid
          · have hpm : number.startPos ≤ postMulToken.endPos :=
              SourcePos.le_trans (hs.lowerBound postMulToken (by simp))
                (hs.1 postMulToken (by simp))
            simp only [peek_cons, next_cons] at h
            split at h <;> split at h <;>
              (simp only [Except.ok.injEq, Prod.mk.injEq] at h
               obtain ⟨rfl, rfl⟩ := h
               exact PrefixPost.of_head hs
                 (by simp [Expression.spansOk, Form.spansOk, Expression.spansOkList, hpm,
                   hs.head_le]) rfl
                 (by first | exact List.suffix_cons _ _ | exact List.suffix_refl _))
        · simp only [Except.ok.injEq, Prod.mk.injEq] at h
          obtain ⟨rfl, rfl⟩ := h
          exact PrefixPost.of_head hs
            (by simp [Expression.spansOk, Form.spansOk, Expression.spansOkList, hs.head_le])
            rfl (List.suffix_refl _)

theorem parsePostfixExpression_span (typeString : TokenType → String) (pre : Expression)
    (s : List Token) (e : Expression) (s1 : List Token)
    (h : parsePostfixExpression typeString pre s = .ok (e, s1)) (hs : StreamOk s)
    (hpre : pre.spansOk = true) (hlb : LowerBound pre.startPos s) :
    PostfixPost pre s e s1 := by
  rcases s with _ | ⟨op, tl⟩
  · simp [parsePostfixExpression, eofToken] at h
  · have hop : pre.startPos ≤ op.endPos := SourcePos.le_trans hlb.atHead hs.head_le
    simp only [parsePostfixExpression, next_cons] at h
    split at h
    · simp at h
    · split at h
      · simp at h
      · rename_i assignable hcast
        have ha : assignable = pre := by
          simp only [dynamic_unique_cast] at hcast
          split at hcast
          · exact (Option.some.inj hcast).symm
          · cases hcast
        subst ha
        simp only [Except.ok.injEq, Prod.mk.injEq] at h
        obtain ⟨rfl, rfl⟩ := h
        exact ⟨by simp [Expression.spansOk, hop, hpre], List.suffix_cons _ _, rfl⟩

/-! ## Spans of the recursive parsers -/

theorem PostfixPost.same (pre : Expression) (s : List Token) (h : pre.spansOk = true) :
    PostfixPost pre s pre s := ⟨h, List.suffix_refl s, rfl⟩

theorem PostfixPost.andThen {pre r e : Expression} {s s1 s2 : List Token}
    (h1 : PostfixPost pre s r s1) (h2 : PostfixPost r s1 e s2) : PostfixPost pre s e s2 :=
  ⟨h2.1, h2.2.1.trans h1.2.1, h2.2.2.trans h1.2.2⟩

theorem PrefixPost.then_postfix {r e : Expression} {s s1 s2 : List Token}
    (h1 : PrefixPost s r s1) (h2 : PostfixPost r s1 e s2) : PrefixPost s e s2 :=
  ⟨h2.1, h2.2.1.trans h1.2.1, fun p hp => h2.2.2 ▸ h1.2.2.1 p hp,
    h2.2.2 ▸ h1.2.2.2.toSuffix h2.2.1⟩

theorem Expression.spansOk_setSpan (e : Expression) (a b : SourcePos)
    (h : e.spansOk = true) (hab : a ≤ b) : (e.setSpan a b).spansOk = true := by
  cases e <;> simp [Expression.spansOk] at h <;>
    simp [Expression.setSpan, Expression.spansOk, hab, h]

theorem Expression.startPos_setSpan (e : Expression) (a b : SourcePos) :
    (e.setSpan a b).startPos = a := by
  cases e <;> rfl

theorem Expression.spansOkList_append (xs : List Expression) (e : Expression) :
    Expression.spansOkList (xs ++ [e]) = (Expression.spansOkList xs && e.spansOk) := by
  induction xs with
  | nil => simp [Expression.spansOkList]
  | cons x xs ih => simp [Expression.spansOkList, ih, Bool.and_assoc]

theorem SpanInv.base (typeString : TokenType → String) : SpanInv typeString 0 where
  expression := by intro _ _ _ _ h; simp [parseExpression] at h
  loop := by intro _ _ _ _ _ h; simp [parseExpressionLoop] at h
  pre := by intro _ _ _ _ h; simp [parsePrefix] at h
  post := by intro _ _ _ _ _ h; simp [parsePostfix] at h
  openSquare := by intro _ _ _ h; simp [parseOpenSquareTokenExpression] at h
  form := by intro _ _ _ h; simp [parseForm] at h
  unary := by intro _ _ _ h; simp [parseUnaryTokenExpression] at h
  identifier := by intro _ _ _ h; simp [parseIdentifierTokenExpression] at h
  sub := by intro _ _ _ h; simp [parseSubTokenExpression] at h
  arguments := by intro _ _ _ _ h; simp [parseArguments] at h
  cast := by intro _ _ _ _ h; simp [parseCastExpression] at h
  math := by intro _ _ _ _ h; simp [parseMathExpression] at h
  assign := by intro _ _ _ _ h; simp [parseAssignExpression] at h

theorem SpanInv.expression_succ {typeString : TokenType → String} {n : Nat}
    (ih : SpanInv typeString n) (precedence : Precedence) (s : List Token) (e : Expression)
    (s1 : List Token) (h : parseExpression typeString (n + 1) precedence s = .ok (e, s1))
    (hs : StreamOk s) : PrefixPost s e s1 := by
  simp only [parseExpression] at h
  split at h
  · simp at h
  · rename_i result s0 hpre
    have h1 := ih.pre precedence s result s0 hpre hs
    have h2 := ih.loop result precedence s0 e s1 h (hs.ofSuffix h1.2.1) h1.1 h1.2.2.2
    exact h1.then_postfix h2

theorem SpanInv.loop_succ {typeString : TokenType → String} {n : Nat}
    (ih : SpanInv typeString n) (result : Expression) (precedence : Precedence)
    (s : List Token) (e : Expression) (s1 : List Token)
    (h : parseExpressionLoop typeString (n + 1) result precedence s = .ok (e, s1))
    (hs : StreamOk s) (hr : result.spansOk = true) (hlb : LowerBound result.startPos s) :
    PostfixPost result s e s1 := by
  simp only [parseExpressionLoop] at h
  split at h
  · split at h
    · simp at h
    · rename_i r1 s0 hpost
      have h1 := ih.post result precedence s r1 s0 hpost hs hr hlb
      have h2 := ih.loop r1 precedence s0 e s1 h (hs.ofSuffix h1.2.1) h1.1
        (h1.2.2 ▸ hlb.toSuffix h1.2.1)
      exact h1.andThen h2
  · simp only [Except.ok.injEq, Prod.mk.injEq] at h
    obtain ⟨rfl, rfl⟩ := h
    exact PostfixPost.same _ _ hr

theorem SpanInv.pre_succ {typeString : TokenType → String} {n : Nat}
    (ih : SpanInv typeString n) (precedence : Precedence) (s : List Token) (e : Expression)
    (s1 : List Token) (h : parsePrefix typeString (n + 1) precedence s = .ok (e, s1))
    (hs : StreamOk s) : PrefixPost s e s1 := by
  simp only [parsePrefix] at h
  split at h
  all_goals first
    | exact parseColonTokenExpression_span typeString s e s1 h hs
    | exact parseNoteTokenExpression_span typeString s e s1 h hs
    | exact parseNumberTokenExpression_span typeString s e s1 h hs
    | exact parseStringTokenExpression_span typeString s e s1 h hs
    | exact ih.openSquare s e s1 h hs
    | exact ih.unary s e s1 h hs
    | exact ih.identifier s e s1 h hs
    | exact ih.sub s e s1 h hs
    | simp at h

theorem SpanInv.post_succ {typeString : TokenType → String} {n : Nat}
    (ih : SpanInv typeString n) (result : Expression) (precedence : Precedence)
    (s : List Token) (e : Expression) (s1 : List Token)
    (h : parsePostfix typeString (n + 1) result precedence s = .ok (e, s1))
    (hs : StreamOk s) (hr : result.spansOk = true) (hlb : LowerBound result.startPos s) :
    PostfixPost result s e s1 := by
  simp only [parsePostfix] at h
  split at h
  · simp only [Except.ok.injEq, Prod.mk.injEq] at h
    obtain ⟨rfl, rfl⟩ := h
    exact PostfixPost.same _ _ hr
  · split at h
    all_goals first
      | exact ih.cast result s e s1 h hs hr hlb
      | exact ih.math result s e s1 h hs hr hlb
      | exact ih.assign result s e s1 h hs hr hlb
      | exact parsePostfixExpression_span typeString result s e s1 h hs hr hlb
      | (simp only [Except.ok.injEq, Prod.mk.injEq] at h
         obtain ⟨rfl, rfl⟩ := h
         exact PostfixPost.same _ _ hr)

theorem SpanInv.openSquare_succ {typeString : TokenType → String} {n : Nat}
    (ih : SpanInv typeString n) (s : List Token) (e : Expression) (s1 : List Token)
    (h : parseOpenSquareTokenExpression typeString (n + 1) s = .ok (e, s1))
    (hs : StreamOk s) : PrefixPost s e s1 := by
  simp only [parseOpenSquareTokenExpression] at h
  split at h
  · simp at h
  · rename_i form s0 hform
    obtain ⟨hf1, hf2, hf3, hf4, _⟩ := ih.form s form s0 hform hs
    split at h
    · simp at h
    · rename_i expr s2 hexpr
      obtain ⟨he1, he2, he3, _⟩ := ih.expression .UNARY s0 expr s2 hexpr (hs.ofSuffix hf2)
      simp only [Except.ok.injEq, Prod.mk.injEq] at h
      obtain ⟨rfl, rfl⟩ := h
      have hroot : form.startPos ≤ expr.endPos :=
        SourcePos.le_trans (he3 _ hf4) (expr.spansOk_root he1)
      exact ⟨by simp [Expression.spansOk, hroot, hf1, he1], he2.trans hf2, hf3,
        hf4.toSuffix he2⟩

theorem SpanInv.form_succ {typeString : TokenType → String} {n : Nat}
    (ih : SpanInv typeString n) (s : List Token) (f : Form) (s1 : List Token)
    (h : parseForm typeString (n + 1) s = .ok (f, s1)) (hs : StreamOk s) :
    FormPost s f s1 := by
  rcases s with _ | ⟨openSquare, _ | ⟨name, rest⟩⟩
  · simp [parseForm, expect, eofToken] at h
  · simp only [parseForm, next_cons, next_nil] at h
    split at h
    · simp at h
    · simp [expect, eofToken] at h
  · simp only [parseForm, next_cons] at h
    split at h
    · simp at h
    · split at h
      · simp at h
      · split at h
        · simp at h
        · rename_i arguments s3 hargs
          obtain ⟨ha1, ha2⟩ := ih.arguments [] rest arguments s3 hargs hs.dropHead.dropHead rfl
          rcases s3 with _ | ⟨closeSquare, s4⟩
          · simp [expect, eofToken] at h
          · simp only [next_cons] at h
            split at h
            · simp at h
            · simp only [Except.ok.injEq, Prod.mk.injEq] at h
              obtain ⟨rfl, rfl⟩ := h
              have hclose : closeSquare ∈ rest := ha2.subset (List.mem_cons_self _ _)
              have hsuf : s4 <:+ rest := (List.suffix_cons _ _).trans ha2
              refine ⟨by simp [Form.spansOk, ha1], ?_, ?_, ?_, ?_⟩
              · exact hsuf.trans ((List.suffix_cons _ _).trans (List.suffix_cons _ _))
              · intro p hp
                exact hp name (by simp)
              · exact hs.dropHead.lowerBound.toSuffix hsuf
              · exact SourcePos.le_trans (hs.dropHead.lowerBound closeSquare hclose)
                  (hs.1 closeSquare (by simp [hclose]))

theorem SpanInv.unary_succ {typeString : TokenType → String} {n : Nat}
    (ih : SpanInv typeString n) (s : List Token) (e : Expression) (s1 : List Token)
    (h : parseUnaryTokenExpression typeString (n + 1) s = .ok (e, s1)) (hs : StreamOk s) :
    PrefixPost s e s1 := by
  rcases s with _ | ⟨typeToken, tl⟩
  · simp [parseUnaryTokenExpression, eofToken] at h
  · simp only [parseUnaryTokenExpression, next_cons] at h
    split at h
    · simp at h
    · split at h
      · simp at h
      · rename_i expr s2 hexpr
        obtain ⟨he1, he2, he3, _⟩ := ih.expression .UNARY tl expr s2 hexpr hs.dropHead
        simp only [Except.ok.injEq, Prod.mk.injEq] at h
        obtain ⟨rfl, rfl⟩ := h
        have hroot : typeToken.startPos ≤ expr.endPos :=
          SourcePos.le_trans (he3 _ hs.lowerBound) (expr.spansOk_root he1)
        exact PrefixPost.of_head hs (by simp [Expression.spansOk, hroot, he1]) rfl he2

theorem SpanInv.identifier_succ {typeString : TokenType → String} {n : Nat}
    (s : List Token) (e : Expression) (s1 : List Token)
    (h : parseIdentifierTokenExpression typeString (n + 1) s = .ok (e, s1))
    (hs : StreamOk s) : PrefixPost s e s1 := by
  rcases s with _ | ⟨identifier, tl⟩
  · simp [parseIdentifierTokenExpression, expect, eofToken] at h
  · simp only [parseIdentifierTokenExpression, next_cons] at h
    split at h
    · simp at h
    · split at h
      · split at h <;> simp at h
      · split at h
        · split at h <;> simp at h
        · simp only [Except.ok.injEq, Prod.mk.injEq] at h
          obtain ⟨rfl, rfl⟩ := h
          exact PrefixPost.of_head hs (by simp [Expression.spansOk, hs.head_le]) rfl
            (List.suffix_refl _)

theorem SpanInv.sub_succ {typeString : TokenType → String} {n : Nat}
    (ih : SpanInv typeString n) (s : List Token) (e : Expression) (s1 : List Token)
    (h : parseSubTokenExpression typeString (n + 1) s = .ok (e, s1)) (hs : StreamOk s) :
    PrefixPost s e s1 := by
  rcases s with _ | ⟨openBracket, tl⟩
  · simp [parseSubTokenExpression, expect, eofToken] at h
  · simp only [parseSubTokenExpression, next_cons] at h
    split at h
    · simp at h
    · split at h
      · simp at h
      · rename_i subExpr s2 hexpr
        obtain ⟨he1, he2, _, _⟩ := ih.expression .ALL tl subExpr s2 hexpr hs.dropHead
        rcases s2 with _ | ⟨closeBracket, s3⟩
        · simp [expect, eofToken] at h
        · simp only [next_cons] at h
          split at h
          · simp at h
          · simp only [Except.ok.injEq, Prod.mk.injEq] at h
            obtain ⟨rfl, rfl⟩ := h
            have hclose : closeBracket ∈ tl := he2.subset (List.mem_cons_self _ _)
            have hroot : openBracket.startPos ≤ closeBracket.endPos :=
              SourcePos.le_trans (hs.lowerBound closeBracket hclose)
                (hs.1 closeBracket (by simp [hclose]))
            exact PrefixPost.of_head hs (subExpr.spansOk_setSpan _ _ he1 hroot)
              (subExpr.startPos_setSpan _ _) ((List.suffix_cons _ _).trans he2)

theorem SpanInv.arguments_succ {typeString : TokenType → String} {n : Nat}
    (ih : SpanInv typeString n) (args : List Expression) (s : List Token)
    (args1 : List Expression) (s1 : List Token)
    (h : parseArguments typeString (n + 1) args s = .ok (args1, s1)) (hs : StreamOk s)
    (hargs : Expression.spansOkList args = true) :
    Expression.spansOkList args1 = true ∧ s1 <:+ s := by
  simp only [parseArguments] at h
  split at h
  · simp at h
  · rename_i expr s0 hexpr
    obtain ⟨he1, he2, _, _⟩ := ih.expression .ALL s expr s0 hexpr hs
    have hnext : (next s0).2 <:+ s := (tail_suffix s0).trans he2
    have hlist : Expression.spansOkList (args ++ [expr]) = true := by
      rw [Expression.spansOkList_append, hargs, he1]; rfl
    split at h
    · obtain ⟨h1, h2⟩ := ih.arguments _ _ args1 s1 h (hs.ofSuffix hnext) hlist
      exact ⟨h1, h2.trans hnext⟩
    · simp only [Except.ok.injEq, Prod.mk.injEq] at h
      obtain ⟨rfl, rfl⟩ := h
      exact ⟨hlist, hnext⟩

theorem SpanInv.cast_succ {typeString : TokenType → String} {n : Nat}
    (ih : SpanInv typeString n) (result : Expression) (s : List Token) (e : Expression)
    (s1 : List Token) (h : parseCastExpression typeString (n + 1) result s = .ok (e, s1))
    (hs : StreamOk s) (hr : result.spansOk = true) (hlb : LowerBound result.startPos s) :
    PostfixPost result s e s1 := by
  simp only [parseCastExpression] at h
  split at h
  · simp at h
  · split at h
    · simp at h
    · rename_i form s2 hform
      have hsuf := tail_suffix s
      obtain ⟨hf1, hf2, hf3, _, hf5⟩ := ih.form _ form s2 hform (hs.ofSuffix hsuf)
      simp only [Except.ok.injEq, Prod.mk.injEq] at h
      obtain ⟨rfl, rfl⟩ := h
      have hroot : result.startPos ≤ form.endPos :=
        SourcePos.le_trans (hf3 _ (hlb.toSuffix hsuf)) hf5
      exact ⟨by simp [Expression.spansOk, hroot, hf1, hr], hf2.trans hsuf, rfl⟩

theorem SpanInv.math_succ {typeString : TokenType → String} {n : Nat}
    (ih : SpanInv typeString n) (result : Expression) (s : List Token) (e : Expression)
    (s1 : List Token) (h : parseMathExpression typeString (n + 1) result s = .ok (e, s1))
    (hs : StreamOk s) (hr : result.spansOk = true) (hlb : LowerBound result.startPos s) :
    PostfixPost result s e s1 := by
  simp only [parseMathExpression] at h
  split at h
  · simp at h
  · rename_i post s2 hexpr
    have hsuf := tail_suffix s
    obtain ⟨he1, he2, he3, _⟩ := ih.expression _ _ post s2 hexpr (hs.ofSuffix hsuf)
    split at h
    · simp at h
    · simp only [Except.ok.injEq, Prod.mk.injEq] at h
      obtain ⟨rfl, rfl⟩ := h
      have hroot : result.startPos ≤ post.endPos :=
        SourcePos.le_trans (he3 _ (hlb.toSuffix hsuf)) (post.spansOk_root he1)
      exact ⟨by simp [Expression.spansOk, hroot, he1, hr], he2.trans hsuf, rfl⟩

theorem SpanInv.assign_succ {typeString : TokenType → String} {n : Nat}
    (ih : SpanInv typeString n) (result : Expression) (s : List Token) (e : Expression)
    (s1 : List Token) (h : parseAssignExpression typeString (n + 1) result s = .ok (e, s1))
    (hs : StreamOk s) (hr : result.spansOk = true) (hlb : LowerBound result.startPos s) :
    PostfixPost result s e s1 := by
  simp only [parseAssignExpression] at h
  split at h
  · simp [castFail] at h
  · rename_i assignable hcast
    have ha : assignable = result := by
      simp only [dynamic_unique_cast] at hcast
      split at hcast
      · exact (Option.some.inj hcast).symm
      · cases hcast
    subst ha
    split at h
    · simp at h
    · rename_i post s2 hexpr
      have hsuf := tail_suffix s
      obtain ⟨he1, he2, he3, _⟩ := ih.expression _ _ post s2 hexpr (hs.ofSuffix hsuf)
      split at h
      · simp at h
      · simp only [Except.ok.injEq, Prod.mk.injEq] at h
        obtain ⟨rfl, rfl⟩ := h
        have hroot : assignable.startPos ≤ post.endPos :=
          SourcePos.le_trans (he3 _ (hlb.toSuffix hsuf)) (post.spansOk_root he1)
        exact ⟨by simp [Expression.spansOk, hroot, he1, hr], he2.trans hsuf, rfl⟩

theorem SpanInv.step {typeString : TokenType → String} {n : Nat}
    (ih : SpanInv typeString n) : SpanInv typeString (n + 1) where
  expression := ih.expression_succ
  loop := ih.loop_succ
  pre := ih.pre_succ
  post := ih.post_succ
  openSquare := ih.openSquare_succ
  form := ih.form_succ
  unary := ih.unary_succ
  identifier := SpanInv.identifier_succ
  sub := ih.sub_succ
  arguments := ih.arguments_succ
  cast := ih.cast_succ
  math := ih.math_succ
  assign := ih.assign_succ

theorem SpanInv.holds (typeString : TokenType → String) (n : Nat) : SpanInv typeString n := by
  induction n with
  | zero => exact SpanInv.base typeString
  | succ n ih => exact ih.step

/-- C17. If every token of the stream has `startPos ≤ endPos` and the tokens stand in
non-decreasing order of their start positions, then in every tree `parseExpression`
returns, at any precedence, every expression node (the root, its descendants and the
arguments of forms) has `startPos ≤ endPos`. -/
theorem parseExpression_spans_ordered (typeString : TokenType → String) (fuel : Nat)
    (precedence : Precedence) (s : List Token) (e : Expression) (s1 : List Token)
    (hwf : ∀ t ∈ s, t.startPos ≤ t.endPos)
    (horder : s.Chain' (fun a b => a.startPos ≤ b.startPos))
    (h : parseExpression typeString fuel precedence s = .ok (e, s1)) :
    e.spansOk = true := by
  haveI : IsTrans Token (fun a b => a.startPos ≤ b.startPos) :=
    ⟨fun _ _ _ h1 h2 => SourcePos.le_trans h1 h2⟩
  exact ((SpanInv.holds typeString fuel).expression precedence s e s1 h
    ⟨hwf, List.chain'_iff_pairwise.mp horder⟩).1

theorem parseExpression_spans_ordered_witness :
    (Expression.UnaryExpression .NEGATIVE
      (.PostfixExpression (.VariableExpression "x" ⟨1, 1⟩ ⟨1, 2⟩) .INCREMENT ⟨1, 1⟩ ⟨1, 4⟩)
      ⟨1, 0⟩ ⟨1, 4⟩).spansOk = true :=
  parseExpression_spans_ordered (fun _ => "") 6 .ALL
    [⟨.MINUS, "-", ⟨1, 0⟩, ⟨1, 1⟩⟩, ⟨.IDENTIFIER, "x", ⟨1, 1⟩, ⟨1, 2⟩⟩,
      ⟨.INCREMENT, "++", ⟨1, 2⟩, ⟨1, 4⟩⟩, ⟨.END_OF_LINE, "", ⟨1, 4⟩, ⟨1, 5⟩⟩,
      ⟨.END_OF_FILE, "", ⟨2, 0⟩, ⟨2, 0⟩⟩]
    _ [⟨.END_OF_LINE, "", ⟨1, 4⟩, ⟨1, 5⟩⟩, ⟨.END_OF_FILE, "", ⟨2, 0⟩, ⟨2, 0⟩⟩]
    (by decide) (by simp [SourcePos.le_def]) rfl

/-! ## Statements at the top level -/

/-- The postfix dispatch at a binary operator whose precedence is at least the
current one: `parseMathExpression` takes over. -/
theorem parsePostfix_math (typeString : TokenType → String) (n : Nat) (pre : Expression)
    (precedence : Precedence) (op : Token) (rest : List Token) (opType : MathType)
    (hop : mathType op.type = some opType)
    (hprec : precedence.rank ≤ (operatorToPrecedence op.type).rank) :
    parsePostfix typeString (n + 1) pre precedence (op :: rest) =
      parseMathExpression typeString n pre (op :: rest) := by
  cases hty : op.type <;> simp [hty, mathType] at hop <;>
    simp [parsePostfix, hty] <;> simp only [hty] at hprec <;> intro h2 <;> omega

/-- A variable in front of `END_OF_LINE` is the whole expression, at any
precedence. -/
theorem parseExpression_variable_eol (typeString : TokenType → String) (n : Nat)
    (precedence : Precedence) (x eol : Token) (rest : List Token)
    (hx : x.type = .IDENTIFIER) (he : eol.type = .END_OF_LINE) :
    parseExpression typeString (n + 3) precedence (x :: eol :: rest) =
      .ok (.VariableExpression x.content x.startPos x.endPos, eol :: rest) := by
  have hv := parseIdentifierTokenExpression_variable typeString n x (eol :: rest) hx
    (by simp [he]) (by simp [he])
  simp [parseExpression, parsePrefix, hx, hv, parseExpressionLoop, he]

theorem mathType_not_special (t : TokenType) (opType : MathType)
    (h : mathType t = some opType) :
    t ≠ .COLON ∧ t ≠ .OPEN_BRACKET ∧ t ≠ .END_OF_LINE ∧ t ≠ .IDENTIFIER := by
  cases t <;> simp [mathType] at h <;> simp

/-- A number in front of a token that is neither an identifier nor `END_OF_LINE`:
at precedence `ALL` the loop of `parseExpression` never ends. -/
theorem parseExpression_ALL_number_stuck (typeString : TokenType → String) (x t : Token)
    (rest : List Token) (v : ℚ) (hx : x.type = .NUMBER) (hv : stof x.content = .ok v)
    (h1 : t.type ≠ .IDENTIFIER) (h2 : t.type ≠ .END_OF_LINE) (fuel : Nat) :
    parseExpression typeString fuel .ALL (x :: t :: rest) = .error .outOfFuel := by
  rcases fuel with _ | _ | n
  · simp [parseExpression]
  · simp [parseExpression, parsePrefix]
  · simp only [parseExpression, parsePrefix, peek_cons, hx, parseNumberTokenExpression,
      next_cons, expect_ok, hv, h1, if_false]
    exact parseExpressionLoop_stuck typeString _ .ALL (t :: rest) (by simpa using h2)
      (fun m => parsePostfix_ALL typeString m _ _) _

/-- At a precedence not above the operator's, `x op y END_OF_LINE` with variables
`x` and `y` is the binary node. -/
theorem parseExpression_binary (typeString : TokenType → String) (n : Nat)
    (precedence : Precedence) (x op y eol : Token) (rest : List Token) (opType : MathType)
    (hx : x.type = .IDENTIFIER) (hy : y.type = .IDENTIFIER) (he : eol.type = .END_OF_LINE)
    (hop : mathType op.type = some opType)
    (hprec : precedence.rank ≤ (operatorToPrecedence op.type).rank) :
    parseExpression typeString (n + 7) precedence (x :: op :: y :: eol :: rest) =
      .ok (.MathExpression (.VariableExpression x.content x.startPos x.endPos) opType
        (.VariableExpression y.content y.startPos y.endPos) x.startPos y.endPos,
        eol :: rest) := by
  obtain ⟨h1, h2, h3, _⟩ := mathType_not_special _ _ hop
  have hv := parseIdentifierTokenExpression_variable typeString (n + 4) x
    (op :: y :: eol :: rest) hx (by simpa using h1) (by simpa using h2)
  have hm := parsePostfix_math typeString (n + 4) (.VariableExpression x.content x.startPos
    x.endPos) precedence op (y :: eol :: rest) opType hop hprec
  have hr := parseExpression_variable_eol typeString n (operatorToPrecedence op.type) y eol
    rest hy he
  simp only [parseExpression, parsePrefix, peek_cons, hx, hv]
  rw [parseExpressionLoop, if_pos (by simpa using h3), hm]
  simp only [parseMathExpression, next_cons, hr]
  simp [parseExpressionLoop, he, hop, Expression.startPos, Expression.endPos]

/-! ## Precedence and associativity -/

/-- C1 (code defect). From the top level, at precedence `ALL`, `a + b * c
END_OF_LINE` is never parsed: after the first operand the operator is left in the
stream and the loop of `parseExpression` runs for ever (shown for any variable in
front of a binary operator and for `2+3*4`). Started at precedence `NONE` instead, the
same functions return `Add(a, Multiply(b, c))`. -/
theorem precedence_statement_never_returns :
    (∀ (typeString : TokenType → String) (fuel : Nat) (a op : Token) (rest : List Token)
      (opType : MathType), a.type = .IDENTIFIER → mathType op.type = some opType →
      parseExpression typeString fuel .ALL (a :: op :: rest) = .error .outOfFuel) ∧
    (∀ (typeString : TokenType → String) (fuel : Nat),
      parseExpression typeString fuel .ALL
        [⟨.NUMBER, "2", ⟨1, 0⟩, ⟨1, 1⟩⟩, ⟨.PLUS, "+", ⟨1, 1⟩, ⟨1, 2⟩⟩,
          ⟨.NUMBER, "3", ⟨1, 2⟩, ⟨1, 3⟩⟩, ⟨.TIMES, "*", ⟨1, 3⟩, ⟨1, 4⟩⟩,
          ⟨.NUMBER, "4", ⟨1, 4⟩, ⟨1, 5⟩⟩, ⟨.END_OF_LINE, "", ⟨1, 5⟩, ⟨1, 6⟩⟩,
          ⟨.END_OF_FILE, "", ⟨2, 0⟩, ⟨2, 0⟩⟩] = .error .outOfFuel) ∧
    (∀ (typeString : TokenType → String) (n : Nat) (a plus b times c eol : Token)
      (rest : List Token), a.type = .IDENTIFIER → plus.type = .PLUS →
      b.type = .IDENTIFIER → times.type = .TIMES → c.type = .IDENTIFIER →
      eol.type = .END_OF_LINE →
      parseExpression typeString (n + 11) .NONE (a :: plus :: b :: times :: c :: eol :: rest) =
        .ok (.MathExpression (.VariableExpression a.content a.startPos a.endPos) .ADD
          (.MathExpression (.VariableExpression b.content b.startPos b.endPos) .MULTIPLY
            (.VariableExpression c.content c.startPos c.endPos) b.startPos c.endPos)
          a.startPos c.endPos, eol :: rest)) := by
  refine ⟨?_, ?_, ?_⟩
  · intro typeString fuel a op rest opType ha hop
    obtain ⟨h1, h2, h3, _⟩ := mathType_not_special _ _ hop
    exact parseExpression_ALL_variable_stuck typeString a op rest ha h1 h2 h3 fuel
  · intro typeString fuel
    exact parseExpression_ALL_number_stuck typeString _ _ _ 2 rfl
      (stof_eq_ok _ _ (by decide) (by simp [numeralValue, numeralParts, digitsValue])
        (by norm_num) (by norm_num)) (by decide) (by decide) fuel
  · intro typeString n a plus b times c eol rest ha hplus hb htimes hc he
    have hv := parseIdentifierTokenExpression_variable typeString (n + 8) a
      (plus :: b :: times :: c :: eol :: rest) ha (by simp [hplus]) (by simp [hplus])
    have hm := parsePostfix_math typeString (n + 8) (.VariableExpression a.content a.startPos
      a.endPos) .NONE plus (b :: times :: c :: eol :: rest) .ADD (by simp [hplus, mathType])
      (by simp [Precedence.rank])
    have hr := parseExpression_binary typeString n (operatorToPrecedence plus.type)
      b times c eol rest .MULTIPLY hb hc he (by simp [htimes, mathType])
      (by simp [hplus, htimes, operatorToPrecedence, Precedence.rank])
    simp only [parseExpression, parsePrefix, peek_cons, ha, hv]
    rw [parseExpressionLoop, if_pos (by simp [hplus]), hm]
    simp only [parseMathExpression, next_cons, hr]
    simp [parseExpressionLoop, he, hplus, mathType, Expression.startPos, Expression.endPos]

/-- C2 (code defect). From the top level, at precedence `ALL`, `a op b op c
END_OF_LINE` is never parsed (shown for any variable in front of a binary operator
and for `2-3-4`). Started at precedence `NONE`, the same functions return the
right-nested tree `op(a, op(b, c))`: the right operand is parsed at the operator's
own precedence, which lets it take the next operator of equal precedence. -/
theorem chain_statement_never_returns :
    (∀ (typeString : TokenType → String) (fuel : Nat) (a op1 b op2 c : Token)
      (rest : List Token) (opType : MathType), a.type = .IDENTIFIER →
      mathType op1.type = some opType →
      parseExpression typeString fuel .ALL (a :: op1 :: b :: op2 :: c :: rest) =
        .error .outOfFuel) ∧
    (∀ (typeString : TokenType → String) (fuel : Nat),
      parseExpression typeString fuel .ALL
        [⟨.NUMBER, "2", ⟨1, 0⟩, ⟨1, 1⟩⟩, ⟨.MINUS, "-", ⟨1, 1⟩, ⟨1, 2⟩⟩,
          ⟨.NUMBER, "3", ⟨1, 2⟩, ⟨1, 3⟩⟩, ⟨.MINUS, "-", ⟨1, 3⟩, ⟨1, 4⟩⟩,
          ⟨.NUMBER, "4", ⟨1, 4⟩, ⟨1, 5⟩⟩, ⟨.END_OF_LINE, "", ⟨1, 5⟩, ⟨1, 6⟩⟩,
          ⟨.END_OF_FILE, "", ⟨2, 0⟩, ⟨2, 0⟩⟩] = .error .outOfFuel) ∧
    (∀ (typeString : TokenType → String) (n : Nat) (a op1 b op2 c eol : Token)
      (rest : List Token) (opType : MathType), a.type = .IDENTIFIER →
      b.type = .IDENTIFIER → c.type = .IDENTIFIER → eol.type = .END_OF_LINE →
      mathType op1.type = some opType → op2.type = op1.type →
      parseExpression typeString (n + 11) .NONE (a :: op1 :: b :: op2 :: c :: eol :: rest) =
        .ok (.MathExpression (.VariableExpression a.content a.startPos a.endPos) opType
          (.MathExpression (.VariableExpression b.content b.startPos b.endPos) opType
            (.VariableExpression c.content c.startPos c.endPos) b.startPos c.endPos)
          a.startPos c.endPos, eol :: rest)) := by
  refine ⟨?_, ?_, ?_⟩
  · intro typeString fuel a op1 b op2 c rest opType ha hop
    obtain ⟨h1, h2, h3, _⟩ := mathType_not_special _ _ hop
    exact parseExpression_ALL_variable_stuck typeString a op1 _ ha h1 h2 h3 fuel
  · intro typeString fuel
    exact parseExpression_ALL_number_stuck typeString _ _ _ 2 rfl
      (stof_eq_ok _ _ (by decide) (by simp [numeralValue, numeralParts, digitsValue])
        (by norm_num) (by norm_num)) (by decide) (by decide) fuel
  · intro typeString n a op1 b op2 c eol rest opType ha hb hc he hop h12
    obtain ⟨h1, h2, h3, _⟩ := mathType_not_special _ _ hop
    have hv := parseIdentifierTokenExpression_variable typeString (n + 8) a
      (op1 :: b :: op2 :: c :: eol :: rest) ha (by simpa using h1) (by simpa using h2)
    have hm := parsePostfix_math typeString (n + 8) (.VariableExpression a.content a.startPos
      a.endPos) .NONE op1 (b :: op2 :: c :: eol :: rest) opType hop
      (by simp [Precedence.rank])
    have hr := parseExpression_binary typeString n (operatorToPrecedence op1.type)
      b op2 c eol rest opType hb hc he (by rw [h12]; exact hop) (by rw [h12])
    simp only [parseExpression, parsePrefix, peek_cons, ha, hv]
    rw [parseExpressionLoop, if_pos (by simpa using h3), hm]
    simp only [parseMathExpression, next_cons, hr]
    simp [parseExpressionLoop, he, hop, Expression.startPos, Expression.endPos]

/-! ## `Parser::parse` -/

theorem parse_never_ok (typeString : TokenType → String) (fuel : Nat) :
    ∀ (block : List Expression) (s : List Token) (r : List Expression × List Token),
      parse typeString fuel block s ≠ .ok r := by
  induction fuel with
  | zero => intro block s r; simp [parse]
  | succ n ih =>
    intro block s r h
    simp only [parse] at h
    split at h
    · split at h
      · simp at h
      · split at h
        · simp at h
        · exact ih _ _ r h
    · simp at h

/-- C3 (code defect). `Parser::parse` does not terminate on every stream that ends
with `END_OF_FILE`: on `a * b END_OF_LINE END_OF_FILE`, and on any statement that
starts with a variable followed by a binary operator, the loop of
`parseExpression` runs for ever, so `parse` exhausts every amount of fuel. -/
theorem parse_does_not_terminate :
    (∀ (typeString : TokenType → String) (fuel : Nat),
      parse typeString fuel []
        [⟨.IDENTIFIER, "a", ⟨1, 0⟩, ⟨1, 1⟩⟩, ⟨.TIMES, "*", ⟨1, 1⟩, ⟨1, 2⟩⟩,
          ⟨.IDENTIFIER, "b", ⟨1, 2⟩, ⟨1, 3⟩⟩, ⟨.END_OF_LINE, "", ⟨1, 3⟩, ⟨1, 4⟩⟩,
          ⟨.END_OF_FILE, "", ⟨2, 0⟩, ⟨2, 0⟩⟩] = .error .outOfFuel) ∧
    (∀ (typeString : TokenType → String) (fuel : Nat) (block : List Expression)
      (a op : Token) (rest : List Token) (opType : MathType), a.type = .IDENTIFIER →
      mathType op.type = some opType →
      parse typeString fuel block (a :: op :: rest) = .error .outOfFuel) := by
  have main : ∀ (typeString : TokenType → String) (fuel : Nat) (block : List Expression)
      (a op : Token) (rest : List Token) (opType : MathType), a.type = .IDENTIFIER →
      mathType op.type = some opType →
      parse typeString fuel block (a :: op :: rest) = .error .outOfFuel := by
    intro typeString fuel block a op rest opType ha hop
    obtain ⟨h1, h2, h3, _⟩ := mathType_not_special _ _ hop
    cases fuel with
    | zero => simp [parse]
    | succ n =>
      simp [parse, ha, parseExpression_ALL_variable_stuck typeString a op rest ha h1 h2 h3 n]
  exact ⟨fun typeString fuel => main typeString fuel [] _ _ _ .MULTIPLY rfl rfl, main⟩

/-- C4 (code defect). `Parser::parse` returns no `Block`: on a single statement
`x END_OF_LINE END_OF_FILE` it parses the expression, collects it, leaves the loop at
`END_OF_FILE` and then runs off the end of the function without a `return`; and for
no stream and no fuel does it return a value. -/
theorem parse_returns_no_block :
    (∀ (typeString : TokenType → String) (n : Nat) (x eol eof : Token),
      x.type = .IDENTIFIER → eol.type = .END_OF_LINE → eof.type = .END_OF_FILE →
      parse typeString (n + 5) [] [x, eol, eof] = .error .missingReturn) ∧
    (∀ (typeString : TokenType → String) (fuel : Nat) (block : List Expression)
      (s : List Token) (r : List Expression × List Token),
      parse typeString fuel block s ≠ .ok r) ∧
    (∀ (typeString : TokenType → String) (n : Nat),
      parse typeString (n + 5) []
        [⟨.IDENTIFIER, "x", ⟨1, 0⟩, ⟨1, 1⟩⟩, ⟨.END_OF_LINE, "", ⟨1, 1⟩, ⟨1, 2⟩⟩,
          ⟨.END_OF_FILE, "", ⟨2, 0⟩, ⟨2, 0⟩⟩] = .error .missingReturn) := by
  have main : ∀ (typeString : TokenType → String) (n : Nat) (x eol eof : Token),
      x.type = .IDENTIFIER → eol.type = .END_OF_LINE → eof.type = .END_OF_FILE →
      parse typeString (n + 5) [] [x, eol, eof] = .error .missingReturn := by
    intro typeString n x eol eof hx he hf
    have hv := parseExpression_variable_eol typeString (n + 1) .ALL x eol [eof] hx he
    simp [parse, hx, hv, expect_ok, he, hf]
  exact ⟨main, fun typeString fuel => parse_never_ok typeString fuel,
    fun typeString n => main typeString n _ _ _ rfl rfl rfl⟩

/-! ## The assignable gate -/

/-- C10 (code defect). When the operand of `++`, `--` or an assignment operator is
not assignable, the code calls `castFail(assignable.get())` with the null pointer the
failed cast returned, and `castFail` reads `startPos` through it: no `ParseError` is
built. Given an expression, `castFail` does build the dedicated error at that
expression's span, with a message that differs from those of `fail` and `expect`.
From the top level `3++` is not even reached: the loop of `parseExpression` never
ends. -/
theorem assignable_gate_null_dereference :
    (∀ (typeString : TokenType → String) (pre : Expression) (op : Token) (rest : List Token),
      (op.type = .INCREMENT ∨ op.type = .DECREMENT) → pre.isAssignable = false →
      parsePostfixExpression typeString pre (op :: rest) = .error .nullDereference) ∧
    (∀ (typeString : TokenType → String) (n : Nat) (pre : Expression) (op : Token)
      (rest : List Token), pre.isAssignable = false →
      parseAssignExpression typeString (n + 1) pre (op :: rest) = .error .nullDereference) ∧
    (∀ (e : Expression), castFail (some e) = .parseError
      ⟨"Hey! I ned something I can assign to here, not this silly fuge you're giving me.",
        e.startPos, e.endPos⟩) ∧
    (∀ (typeString : TokenType → String) (token : Token) (expectedType : TokenType),
      (fail typeString token).message ≠
          "Hey! I ned something I can assign to here, not this silly fuge you're giving me." ∧
        "Dude, why is there a " ++ typeString token.type ++ "? I expected a "
          ++ typeString expectedType ++ " here." ≠
          "Hey! I ned something I can assign to here, not this silly fuge you're giving me.") ∧
    (∀ (typeString : TokenType → String) (fuel : Nat),
      parseExpression typeString fuel .ALL
        [⟨.NUMBER, "3", ⟨1, 0⟩, ⟨1, 1⟩⟩, ⟨.INCREMENT, "++", ⟨1, 1⟩, ⟨1, 3⟩⟩,
          ⟨.END_OF_LINE, "", ⟨1, 3⟩, ⟨1, 4⟩⟩, ⟨.END_OF_FILE, "", ⟨2, 0⟩, ⟨2, 0⟩⟩] =
        .error .outOfFuel) := by
  refine ⟨?_, ?_, fun e => rfl, ?_, ?_⟩
  · intro typeString pre op rest hop hpre
    rcases hop with h | h <;>
      simp [parsePostfixExpression, h, dynamic_unique_cast, hpre, castFail]
  · intro typeString n pre op rest hpre
    simp [parseAssignExpression, dynamic_unique_cast, hpre, castFail]
  · intro typeString token expectedType
    constructor
    · intro h
      have h2 := congrArg String.data h
      simp [fail, String.data_append] at h2
    · intro h
      have h2 := congrArg String.data h
      simp [String.data_append] at h2
  · intro typeString fuel
    exact parseExpression_ALL_number_stuck typeString _ _ _ 3 rfl
      (stof_eq_ok _ _ (by decide) (by simp [numeralValue, numeralParts, digitsValue])
        (by norm_num) (by norm_num)) (by decide) (by decide) fuel

/-! ## Numeric literals -/

theorem compare_eq_zero_iff (text : String) (pos : Nat) (str : String) :
    compare text pos str = 0 ↔ String.mk (text.toList.drop pos) = str := by
  unfold compare
  by_cases h : String.mk (text.toList.drop pos) = str
  · rw [if_pos h]
    exact ⟨fun _ => h, fun _ => rfl⟩
  · rw [if_neg h]
    by_cases h2 : String.mk (text.toList.drop pos) < str
    · rw [if_pos h2]
      exact ⟨fun h0 => absurd h0 (by decide), fun h3 => absurd h3 h⟩
    · rw [if_neg h2]
      exact ⟨fun h0 => absurd h0 (by decide), fun h3 => absurd h3 h⟩

/-- The form chain as the code evaluates it: every test succeeds when the text
differs from the unit, so the name is `freq` unless the text is `HZ`, and then
`db`. -/
theorem postForm_eq (postMulText : String) (formStart : Nat) :
    postForm postMulText formStart =
      some (if String.mk (postMulText.toList.drop formStart) = "HZ" then "db" else "freq") := by
  unfold postForm
  by_cases h : String.mk (postMulText.toList.drop formStart) = "HZ"
  · have h1 : ¬ compare postMulText formStart "HZ" ≠ 0 :=
      not_not.mpr ((compare_eq_zero_iff _ _ _).mpr h)
    have h2 : compare postMulText formStart "DB" ≠ 0 := by
      rw [Ne, compare_eq_zero_iff, h]; decide
    rw [if_neg h1, if_pos h2, if_pos h]
  · have h1 : compare postMulText formStart "HZ" ≠ 0 := by
      rw [Ne, compare_eq_zero_iff]; exact h
    rw [if_pos h1, if_neg h]

/-- A number followed by an identifier: the identifier is always taken. -/
theorem parseNumberTokenExpression_identifier (typeString : TokenType → String)
    (number ident : Token) (rest : List Token) (v : ℚ) (hn : number.type = .NUMBER)
    (hv : stof number.content = .ok v) (hi : ident.type = .IDENTIFIER) :
    parseNumberTokenExpression typeString (number :: ident :: rest) =
      .ok (.NumberExpression
        ((postMul v ((toUpperCase ident.content).toList.headD (Char.ofNat 0))).getD v)
        (Form.mk
          (if String.mk ((toUpperCase ident.content).toList.drop
              (if (postMul v ((toUpperCase ident.content).toList.headD (Char.ofNat 0))).isSome
                then 1 else 0)) = "HZ" then "db" else "freq")
          [] ident.startPos ident.endPos)
        number.startPos ident.endPos, rest) := by
  simp only [parseNumberTokenExpression, next_cons, peek_cons, expect_ok, hn, hv, hi, if_true,
    postForm_eq, Option.isSome_some, Bool.or_true, Option.getD_some]

/-- A number followed by a token that is not an identifier. -/
theorem parseNumberTokenExpression_plain (typeString : TokenType → String)
    (number : Token) (rest : List Token) (v : ℚ) (hn : number.type = .NUMBER)
    (hv : stof number.content = .ok v) (hi : (peek rest).type ≠ .IDENTIFIER) :
    parseNumberTokenExpression typeString (number :: rest) =
      .ok (.NumberExpression v (Form.mk "lin" [] (peek rest).startPos (peek rest).endPos)
        number.startPos number.endPos, rest) := by
  simp only [parseNumberTokenExpression, next_cons, expect_ok, hn, hv, hi, if_false]

/-- C5 (code defect). The form chain tests `compare(...)` for truth, and `compare`
is zero on equality: whenever an identifier follows the number, the form is `freq`
unless the text after the magnitude letter is `HZ`, and then it is `db`. So `440hz`
and `3khz` get the form `db` (not `freq`) and `5x` gets `freq`; `1.5k` gets `freq` (not
`lin`). Only a number with no identifier behind it has the form `lin`. -/
theorem number_form_inverted :
    (∀ (typeString : TokenType → String) (number ident : Token) (rest : List Token) (v : ℚ),
      number.type = .NUMBER → stof number.content = .ok v → ident.type = .IDENTIFIER →
      ∃ value form endPos s1,
        parseNumberTokenExpression typeString (number :: ident :: rest) =
          .ok (.NumberExpression value form number.startPos endPos, s1) ∧
        (form.name = "freq" ∨ form.name = "db")) ∧
    (∀ (typeString : TokenType → String),
      parseNumberTokenExpression typeString
        [⟨.NUMBER, "440", ⟨1, 0⟩, ⟨1, 3⟩⟩, ⟨.IDENTIFIER, "hz", ⟨1, 3⟩, ⟨1, 5⟩⟩,
          ⟨.END_OF_LINE, "", ⟨1, 5⟩, ⟨1, 6⟩⟩] =
        .ok (.NumberExpression 440 (.mk "db" [] ⟨1, 3⟩ ⟨1, 5⟩) ⟨1, 0⟩ ⟨1, 5⟩,
          [⟨.END_OF_LINE, "", ⟨1, 5⟩, ⟨1, 6⟩⟩])) ∧
    (∀ (typeString : TokenType → String),
      parseNumberTokenExpression typeString
        [⟨.NUMBER, "3", ⟨1, 0⟩, ⟨1, 1⟩⟩, ⟨.IDENTIFIER, "khz", ⟨1, 1⟩, ⟨1, 4⟩⟩,
          ⟨.END_OF_LINE, "", ⟨1, 4⟩, ⟨1, 5⟩⟩] =
        .ok (.NumberExpression 3000 (.mk "db" [] ⟨1, 1⟩ ⟨1, 4⟩) ⟨1, 0⟩ ⟨1, 4⟩,
          [⟨.END_OF_LINE, "", ⟨1, 4⟩, ⟨1, 5⟩⟩])) ∧
    (∀ (typeString : TokenType → String),
      parseNumberTokenExpression typeString
        [⟨.NUMBER, "1.5", ⟨1, 0⟩, ⟨1, 3⟩⟩, ⟨.IDENTIFIER, "k", ⟨1, 3⟩, ⟨1, 4⟩⟩,
          ⟨.END_OF_LINE, "", ⟨1, 4⟩, ⟨1, 5⟩⟩] =
        .ok (.NumberExpression 1500 (.mk "freq" [] ⟨1, 3⟩ ⟨1, 4⟩) ⟨1, 0⟩ ⟨1, 4⟩,
          [⟨.END_OF_LINE, "", ⟨1, 4⟩, ⟨1, 5⟩⟩])) ∧
    (∀ (typeString : TokenType → String),
      parseNumberTokenExpression typeString
        [⟨.NUMBER, "5", ⟨1, 0⟩, ⟨1, 1⟩⟩, ⟨.END_OF_LINE, "", ⟨1, 1⟩, ⟨1, 2⟩⟩] =
        .ok (.NumberExpression 5 (.mk "lin" [] ⟨1, 1⟩ ⟨1, 2⟩) ⟨1, 0⟩ ⟨1, 1⟩,
          [⟨.END_OF_LINE, "", ⟨1, 1⟩, ⟨1, 2⟩⟩])) := by
  refine ⟨?_, ?_, ?_, ?_, ?_⟩
  · intro typeString number ident rest v hn hv hi
    refine ⟨_, _, _, _, parseNumberTokenExpression_identifier typeString number ident rest v
      hn hv hi, ?_⟩
    simp only [Form.name]
    split_ifs <;> simp
  · intro typeString
    rw [parseNumberTokenExpression_identifier typeString _ _ _ 440 rfl
      (stof_eq_ok _ _ (by decide) (by simp [numeralValue, numeralParts, digitsValue])
        (by norm_num) (by norm_num)) rfl]
    simp [toUpperCase, postMul]
  · intro typeString
    rw [parseNumberTokenExpression_identifier typeString _ _ _ 3 rfl
      (stof_eq_ok _ _ (by decide) (by simp [numeralValue, numeralParts, digitsValue])
        (by norm_num) (by norm_num)) rfl]
    simp [toUpperCase, postMul]
    norm_num
  · intro typeString
    rw [parseNumberTokenExpression_identifier typeString _ _ _ (3 / 2) rfl
      (stof_eq_ok _ _ (by decide) (by simp [numeralValue, numeralParts, digitsValue] ; norm_num)
        (by norm_num) (by norm_num)) rfl]
    simp [toUpperCase, postMul]
    norm_num
  · intro typeString
    rw [parseNumberTokenExpression_plain typeString _ _ 5 rfl
      (stof_eq_ok _ _ (by decide) (by simp [numeralValue, numeralParts, digitsValue])
        (by norm_num) (by norm_num)) (by decide)]
    rfl

/-- C6 (code defect). Because the form chain always assigns a name (`didMatchForm`
is true for every text), an identifier that follows a number is always taken off the
stream and the literal always ends at it, also when neither a magnitude letter nor a
unit matched: in `5 x` the `x` is consumed and the span runs to its end. -/
theorem number_identifier_always_consumed :
    (∀ (typeString : TokenType → String) (number ident : Token) (rest : List Token) (v : ℚ),
      number.type = .NUMBER → stof number.content = .ok v → ident.type = .IDENTIFIER →
      ∃ value form,
        parseNumberTokenExpression typeString (number :: ident :: rest) =
          .ok (.NumberExpression value form number.startPos ident.endPos, rest)) ∧
    (∀ (typeString : TokenType → String),
      parseNumberTokenExpression typeString
        [⟨.NUMBER, "5", ⟨1, 0⟩, ⟨1, 1⟩⟩, ⟨.IDENTIFIER, "x", ⟨1, 2⟩, ⟨1, 3⟩⟩,
          ⟨.END_OF_LINE, "", ⟨1, 3⟩, ⟨1, 4⟩⟩] =
        .ok (.NumberExpression 5 (.mk "freq" [] ⟨1, 2⟩ ⟨1, 3⟩) ⟨1, 0⟩ ⟨1, 3⟩,
          [⟨.END_OF_LINE, "", ⟨1, 3⟩, ⟨1, 4⟩⟩])) := by
  refine ⟨?_, ?_⟩
  · intro typeString number ident rest v hn hv hi
    exact ⟨_, _, parseNumberTokenExpression_identifier typeString number ident rest v hn hv hi⟩
  · intro typeString
    rw [parseNumberTokenExpression_identifier typeString _ _ _ 5 rfl
      (stof_eq_ok _ _ (by decide) (by simp [numeralValue, numeralParts, digitsValue])
        (by norm_num) (by norm_num)) rfl]
    simp [toUpperCase, postMul]

theorem char_eq_iff_toNat (c d : Char) : c = d ↔ c.toNat = d.toNat := by
  constructor
  · intro h; rw [h]
  · intro h
    rw [← Char.ofNat_toNat c, ← Char.ofNat_toNat d, h]

theorem toNat_ofNat_small (m : Nat) (h : m < 55296) : (Char.ofNat m).toNat = m := by
  have hv : m.isValidChar := Or.inl h
  have h32 : m < UInt32.size := by
    have : (55296 : Nat) < UInt32.size := by decide
    omega
  simp [Char.ofNat, hv, Char.ofNatAux, Char.toNat, UInt32.toNat, Nat.mod_eq_of_lt h32]

theorem toNat_toUpper (c : Char) :
    c.toUpper.toNat = if 97 ≤ c.toNat ∧ c.toNat ≤ 122 then c.toNat - 32 else c.toNat := by
  unfold Char.toUpper
  by_cases h : c.toNat ≥ 97 ∧ c.toNat ≤ 122
  · simp only [h, and_self, if_true]
    rw [toNat_ofNat_small _ (by omega)]
  · simp only [h, if_false]

/-- The multiplier chain on the upper-cased first letter computes the claim's
magnitude of that letter. -/
theorem postMul_toUpper (v : ℚ) (c : Char) :
    (postMul v c.toUpper).getD v = v * magnitude (some c) := by
  have hu := toNat_toUpper c
  have e : ∀ d : Char, (c.toUpper = d ↔ c.toUpper.toNat = d.toNat) :=
    fun d => char_eq_iff_toNat _ _
  have f : ∀ d : Char, (c = d ↔ c.toNat = d.toNat) := fun d => char_eq_iff_toNat _ _
  have hK : ('K' : Char).toNat = 75 := rfl
  have hM : ('M' : Char).toNat = 77 := rfl
  have hG : ('G' : Char).toNat = 71 := rfl
  have hT : ('T' : Char).toNat = 84 := rfl
  have hP : ('P' : Char).toNat = 80 := rfl
  have hk : ('k' : Char).toNat = 107 := rfl
  have hm : ('m' : Char).toNat = 109 := rfl
  have hg : ('g' : Char).toNat = 103 := rfl
  have ht : ('t' : Char).toNat = 116 := rfl
  have hp : ('p' : Char).toNat = 112 := rfl
  simp only [postMul, magnitude, Option.some.injEq, e, f, hK, hM, hG, hT, hP, hk, hm, hg, ht,
    hp, hu]
  by_cases hr : 97 ≤ c.toNat ∧ c.toNat ≤ 122
  · simp only [hr, and_self, if_true]
    split_ifs <;> first | omega | rfl | simp
  · simp only [hr, if_false]
    split_ifs <;> first | omega | rfl | simp

/-- The value of a number followed by an identifier. -/
theorem parseNumberTokenExpression_value (typeString : TokenType → String)
    (number ident : Token) (rest : List Token) (v : ℚ) (hn : number.type = .NUMBER)
    (hv : stof number.content = .ok v) (hi : ident.type = .IDENTIFIER) :
    ∃ form, parseNumberTokenExpression typeString (number :: ident :: rest) =
      .ok (.NumberExpression (v * magnitude ident.content.toList.head?) form
        number.startPos ident.endPos, rest) := by
  rw [parseNumberTokenExpression_identifier typeString number ident rest v hn hv hi]
  have hval : (postMul v ((toUpperCase ident.content).toList.headD (Char.ofNat 0))).getD v =
      v * magnitude ident.content.toList.head? := by
    cases hc : ident.content.toList with
    | nil =>
      have h0 : (toUpperCase ident.content).toList = [] := by
        show ident.content.toList.map Char.toUpper = []
        rw [hc]; rfl
      rw [h0]
      simp [postMul, magnitude]
    | cons c cs =>
      have h0 : (toUpperCase ident.content).toList = c.toUpper :: cs.map Char.toUpper := by
        show ident.content.toList.map Char.toUpper = _
        rw [hc]; rfl
      rw [h0]
      exact postMul_toUpper v c
  rw [hval]
  exact ⟨_, rfl⟩

/-- A text that is a numeral as a whole has a digit. -/
theorem isNumeral_digits (str : String) (h : isNumeral str = true) :
    ¬ ((numeralParts str).1 = [] ∧ (numeralParts str).2 = []) := by
  unfold isNumeral at h
  unfold numeralParts
  rintro ⟨h1, h2⟩
  simp only at h1 h2
  split at h
  · rw [h1] at h
    simp at h
  · rename_i r heq
    rw [heq] at h2
    simp only at h2
    simp only [Bool.and_eq_true, Bool.not_eq_true', Bool.and_eq_false_imp,
      List.isEmpty_eq_true] at h
    have hr : r.takeWhile Char.isDigit = r := List.takeWhile_eq_self_iff.mpr (by
      intro c hc
      exact List.all_eq_true.mp h.1 c hc)
    rw [hr] at h2
    have := h.2 h1
    simp [h2] at this
  · cases h

/-- When `std::stof` throws, so does `parseNumberTokenExpression`. -/
theorem parseNumberTokenExpression_stof_error (typeString : TokenType → String)
    (number : Token) (rest : List Token) (f : Failure) (hn : number.type = .NUMBER)
    (hv : stof number.content = .error f) :
    parseNumberTokenExpression typeString (number :: rest) = .error f := by
  simp only [parseNumberTokenExpression, next_cons, expect_ok, hn, hv]

/-- C7 (amended). For a `NUMBER` token whose text is an unsigned decimal numeral of
value `v`. When `v` is zero or a normal `float` value (`2^-126 ≤ v < 2^128 - 2^103`):
followed by an identifier, `parseNumberTokenExpression` produces the value
`v × 10³, 10⁶, 10⁹, 10¹², 10¹⁵` when the identifier's first letter is `K`, `M`, `G`,
`T`, `P` in either case, and `v` for any other first letter; followed by anything
else it produces `v`; the arithmetic is exact (rational). When `v` is `2^128 - 2^103`
or more, `std::stof` throws `std::out_of_range` and nothing is produced. -/
theorem number_value_scaled (typeString : TokenType → String) (number : Token)
    (rest : List Token) (hn : number.type = .NUMBER)
    (hshape : isNumeral number.content = true) :
    ((numeralValue number.content = 0 ∨
        (1 / 2 ^ 126 ≤ numeralValue number.content ∧
          numeralValue number.content < 2 ^ 128 - 2 ^ 103)) →
      (∀ ident tl, rest = ident :: tl → ident.type = .IDENTIFIER →
        ∃ form endPos s1, parseNumberTokenExpression typeString (number :: rest) =
          .ok (.NumberExpression
            (numeralValue number.content * magnitude ident.content.toList.head?) form
            number.startPos endPos, s1)) ∧
      ((peek rest).type ≠ .IDENTIFIER →
        ∃ form endPos s1, parseNumberTokenExpression typeString (number :: rest) =
          .ok (.NumberExpression (numeralValue number.content) form number.startPos endPos,
            s1))) ∧
    (2 ^ 128 - 2 ^ 103 ≤ numeralValue number.content →
      parseNumberTokenExpression typeString (number :: rest) = .error .outOfRange) := by
  have hdigits := isNumeral_digits number.content hshape
  refine ⟨?_, ?_⟩
  · intro hrange
    have hv : stof number.content = .ok (numeralValue number.content) := by
      refine stof_eq_ok _ _ hdigits rfl ?_ ?_
      · rcases hrange with h | h
        · rw [h]; norm_num
        · exact h.2
      · rcases hrange with h | h
        · exact Or.inl h
        · exact Or.inr h.1
    refine ⟨?_, ?_⟩
    · intro ident tl hrest hi
      subst hrest
      obtain ⟨form, h⟩ :=
        parseNumberTokenExpression_value typeString number ident tl _ hn hv hi
      exact ⟨form, _, _, h⟩
    · intro hi
      exact ⟨_, _, _, parseNumberTokenExpression_plain typeString number rest _ hn hv hi⟩
  · intro hhigh
    exact parseNumberTokenExpression_stof_error typeString number rest _ hn
      (stof_eq_outOfRange _ hdigits hhigh)

theorem number_value_scaled_witness :
    (∃ form endPos s1, parseNumberTokenExpression (fun _ => "")
        [⟨.NUMBER, "1.5", ⟨1, 0⟩, ⟨1, 3⟩⟩, ⟨.IDENTIFIER, "k", ⟨1, 3⟩, ⟨1, 4⟩⟩] =
        .ok (.NumberExpression 1500 form ⟨1, 0⟩ endPos, s1)) ∧
    (∃ form endPos s1, parseNumberTokenExpression (fun _ => "")
        [⟨.NUMBER, "3", ⟨1, 0⟩, ⟨1, 1⟩⟩, ⟨.IDENTIFIER, "khz", ⟨1, 1⟩, ⟨1, 4⟩⟩] =
        .ok (.NumberExpression 3000 form ⟨1, 0⟩ endPos, s1)) ∧
    (∃ form endPos s1, parseNumberTokenExpression (fun _ => "")
        [⟨.NUMBER, "440", ⟨1, 0⟩, ⟨1, 3⟩⟩, ⟨.IDENTIFIER, "hz", ⟨1, 3⟩, ⟨1, 5⟩⟩] =
        .ok (.NumberExpression 440 form ⟨1, 0⟩ endPos, s1)) ∧
    (∃ form endPos s1, parseNumberTokenExpression (fun _ => "")
        [⟨.NUMBER, "5", ⟨1, 0⟩, ⟨1, 1⟩⟩, ⟨.END_OF_LINE, "", ⟨1, 1⟩, ⟨1, 2⟩⟩] =
        .ok (.NumberExpression 5 form ⟨1, 0⟩ endPos, s1)) := by
  have v1 : numeralValue "1.5" = 3 / 2 := by
    simp [numeralValue, numeralParts, digitsValue]; norm_num
  have v2 : numeralValue "3" = 3 := by simp [numeralValue, numeralParts, digitsValue]
  have v3 : numeralValue "440" = 440 := by simp [numeralValue, numeralParts, digitsValue]
  have v4 : numeralValue "5" = 5 := by simp [numeralValue, numeralParts, digitsValue]
  refine ⟨?_, ?_, ?_, ?_⟩
  · have h := ((number_value_scaled (fun _ => "") ⟨.NUMBER, "1.5", ⟨1, 0⟩, ⟨1, 3⟩⟩
      [⟨.IDENTIFIER, "k", ⟨1, 3⟩, ⟨1, 4⟩⟩] rfl rfl).1
      (Or.inr (by show _ ≤ numeralValue "1.5" ∧ numeralValue "1.5" < _
                  rw [v1]; norm_num))).1 _ _ rfl rfl
    have hm : numeralValue "1.5" * magnitude ("k".toList.head?) = 1500 := by
      rw [v1]; simp [magnitude]; norm_num
    simp only [hm] at h
    exact h
  · have h := ((number_value_scaled (fun _ => "") ⟨.NUMBER, "3", ⟨1, 0⟩, ⟨1, 1⟩⟩
      [⟨.IDENTIFIER, "khz", ⟨1, 1⟩, ⟨1, 4⟩⟩] rfl rfl).1
      (Or.inr (by show _ ≤ numeralValue "3" ∧ numeralValue "3" < _
                  rw [v2]; norm_num))).1 _ _ rfl rfl
    have hm : numeralValue "3" * magnitude ("khz".toList.head?) = 3000 := by
      rw [v2]; simp [magnitude]; norm_num
    simp only [hm] at h
    exact h
  · have h := ((number_value_scaled (fun _ => "") ⟨.NUMBER, "440", ⟨1, 0⟩, ⟨1, 3⟩⟩
      [⟨.IDENTIFIER, "hz", ⟨1, 3⟩, ⟨1, 5⟩⟩] rfl rfl).1
      (Or.inr (by show _ ≤ numeralValue "440" ∧ numeralValue "440" < _
                  rw [v3]; norm_num))).1 _ _ rfl rfl
    have hm : numeralValue "440" * magnitude ("hz".toList.head?) = 440 := by
      rw [v3]; simp [magnitude]
    simp only [hm] at h
    exact h
  · have h := ((number_value_scaled (fun _ => "") ⟨.NUMBER, "5", ⟨1, 0⟩, ⟨1, 1⟩⟩
      [⟨.END_OF_LINE, "", ⟨1, 1⟩, ⟨1, 2⟩⟩] rfl rfl).1
      (Or.inr (by show _ ≤ numeralValue "5" ∧ numeralValue "5" < _
                  rw [v4]; norm_num))).2 (by decide)
    simp only [v4] at h
    exact h

/-- C7, as stated, fails for a numeral beyond the range of `float`: on the forty-digit
numeral `10^39` followed by `k`, `std::stof` throws `std::out_of_range` and
`parseNumberTokenExpression` produces no value. -/
theorem number_beyond_float_range :
    isNumeral "1000000000000000000000000000000000000000" = true ∧
      numeralValue "1000000000000000000000000000000000000000" = 10 ^ 39 ∧
      parseNumberTokenExpression (fun _ => "")
        [⟨.NUMBER, "1000000000000000000000000000000000000000", ⟨1, 0⟩, ⟨1, 40⟩⟩,
          ⟨.IDENTIFIER, "k", ⟨1, 40⟩, ⟨1, 41⟩⟩] = .error .outOfRange := by
  have hv : numeralValue "1000000000000000000000000000000000000000" = 10 ^ 39 := by
    simp [numeralValue, numeralParts, digitsValue]
    norm_num
  refine ⟨rfl, hv, ?_⟩
  refine parseNumberTokenExpression_stof_error _ _ _ _ rfl
    (stof_eq_outOfRange _ (by decide) ?_)
  rw [hv]
  norm_num

/-! ## Note literals -/

theorem isDigit_ne_hash (d : Char) (h : d.isDigit = true) : d ≠ '#' := by
  intro hd
  rw [hd] at h
  exact absurd h (by decide)

/-- The regular expression on a letter, an optional `#` and digits. -/
theorem noteRegex_letter (content : String) (c : Char) (digits : List Char)
    (hc : ('a' ≤ c ∧ c ≤ 'g') ∨ ('A' ≤ c ∧ c ≤ 'G')) (hne : digits ≠ [])
    (hd : ∀ d ∈ digits, d.isDigit = true) :
    (content.toList = c :: digits →
      noteRegex content = some (String.mk [c], String.mk digits)) ∧
    (content.toList = c :: '#' :: digits →
      noteRegex content = some (String.mk [c, '#'], String.mk digits)) := by
  have hall : digits.all Char.isDigit = true := List.all_eq_true.mpr hd
  constructor
  · intro h
    rcases digits with _ | ⟨d, ds⟩
    · exact absurd rfl hne
    · have hd0 : d ≠ '#' := isDigit_ne_hash d (hd d (List.mem_cons_self _ _))
      unfold noteRegex
      rw [h]
      simp [hc, hd0, hall]
  · intro h
    unfold noteRegex
    rw [h]
    simp [hc, hne, hall]

theorem parseNoteTokenExpression_of_groups (typeString : TokenType → String) (token : Token)
    (rest : List Token) (group1 group2 : String) (index : Nat) (ht : token.type = .NOTE)
    (hre : noteRegex token.content = some (group1, group2))
    (hidx : noteNames.indexOf (toUpperCase group1) = index) (hlt : index < 12)
    (hoct : digitsValue group2.toList ≤ 2147483647) :
    parseNoteTokenExpression typeString (token :: rest) =
      .ok (.NoteExpression ((index : Int) + (digitsValue group2.toList : Int) * 12)
        token.startPos token.endPos, rest) := by
  have hlen : noteNames.length = 12 := rfl
  have hnot : ¬ index ≥ 12 := by omega
  simp only [parseNoteTokenExpression, next_cons, expect_ok, ht, hre, hidx, hlen, hnot,
    if_false, stoi, hoct, if_true]
  rfl

/-- C8 (amended). For a `NOTE` token whose text is one of the twelve note names, the
letter in either case, followed by one or more decimal digits whose value is at most
2147483647 (so that `std::stoi` returns it), `parseNoteTokenExpression` returns the
`NoteExpression` with `midiNumber = index + octave × 12` at the token's span, where
`index` is the position of the upper-cased name in `noteNames`. -/
theorem note_midi_number (typeString : TokenType → String) (token : Token)
    (rest : List Token) (spelled : String) (index : Nat) (digits : List Char)
    (ht : token.type = .NOTE) (hs : (spelled, index) ∈ noteSpellings) (hne : digits ≠ [])
    (hd : ∀ d ∈ digits, d.isDigit = true)
    (hcontent : token.content.toList = spelled.toList ++ digits)
    (hoct : digitsValue digits ≤ 2147483647) :
    parseNoteTokenExpression typeString (token :: rest) =
        .ok (.NoteExpression ((index : Int) + (digitsValue digits : Int) * 12)
          token.startPos token.endPos, rest) ∧
      noteNames[index]? = some (toUpperCase spelled) := by
  simp only [noteSpellings, List.mem_cons, Prod.mk.injEq, List.mem_singleton,
    List.not_mem_nil, or_false] at hs
  rcases hs with h | h | h | h | h | h | h | h | h | h | h | h | h | h | h | h | h | h | h | h
    | h | h | h | h <;> obtain ⟨rfl, rfl⟩ := h <;>
  first
    | exact ⟨parseNoteTokenExpression_of_groups typeString token rest _ _ _ ht
        ((noteRegex_letter token.content _ digits (by decide) hne hd).1 hcontent) rfl
        (by decide) hoct, rfl⟩
    | exact ⟨parseNoteTokenExpression_of_groups typeString token rest _ _ _ ht
        ((noteRegex_letter token.content _ digits (by decide) hne hd).2 hcontent) rfl
        (by decide) hoct, rfl⟩

theorem note_midi_number_witness :
    parseNoteTokenExpression (fun _ => "") [⟨.NOTE, "a4", ⟨1, 0⟩, ⟨1, 2⟩⟩] =
      .ok (.NoteExpression 57 ⟨1, 0⟩ ⟨1, 2⟩, []) :=
  (note_midi_number (fun _ => "") ⟨.NOTE, "a4", ⟨1, 0⟩, ⟨1, 2⟩⟩ [] "a" 9 ['4'] rfl
    (by decide) (by decide) (by decide) rfl (by decide)).1

/-- C8, as stated, fails: on `a2147483648` the octave does not fit `int`, `std::stoi`
throws `std::out_of_range` and no `NoteExpression` is returned. -/
theorem note_octave_out_of_range :
    parseNoteTokenExpression (fun _ => "")
        [⟨.NOTE, "a2147483648", ⟨1, 0⟩, ⟨1, 11⟩⟩] = .error .outOfRange ∧
      ¬ ∃ r, parseNoteTokenExpression (fun _ => "")
        [⟨.NOTE, "a2147483648", ⟨1, 0⟩, ⟨1, 11⟩⟩] = .ok r := by
  have h : parseNoteTokenExpression (fun _ => "")
      [⟨.NOTE, "a2147483648", ⟨1, 0⟩, ⟨1, 11⟩⟩] = .error .outOfRange := by rfl
  refine ⟨h, ?_⟩
  rintro ⟨r, hr⟩
  rw [h] at hr
  cases hr

/-- C9 (amended). A `NOTE` token whose text is `h4` fails the assertion on the note's
lexical shape in `parseNoteTokenExpression`: the run aborts there, and no `ParseError`
is raised. -/
theorem note_h4_fails_assertion (typeString : TokenType → String) (startPos endPos : SourcePos)
    (rest : List Token) :
    parseNoteTokenExpression typeString (⟨.NOTE, "h4", startPos, endPos⟩ :: rest) =
      .error .assertionFailed := by
  rfl

/-- C9, as stated, fails: on `h4` the result is not a `ParseError`. -/
theorem note_h4_no_parse_error :
    ¬ ∃ e, parseNoteTokenExpression (fun _ => "") [⟨.NOTE, "h4", ⟨1, 0⟩, ⟨1, 2⟩⟩] =
      .error (.parseError e) := by
  rintro ⟨e, he⟩
  have h : parseNoteTokenExpression (fun _ => "") [⟨.NOTE, "h4", ⟨1, 0⟩, ⟨1, 2⟩⟩] =
      .error .assertionFailed := rfl
  rw [h] at he
  cases he

/-! ## Folding that fails -/

/-- C21 (code defect). When the callee is constant-foldable and every operand is a
constant but `ConstantFoldCall` returns the null pointer, `CreateCall` returns that
null pointer and inserts nothing: there is no fall back to `b.Insert`, which the two
other exits of the function perform. -/
theorem CreateCall_failed_fold_returns_null :
    (∀ (canConstantFoldCallTo : CallInst → Function → Bool)
      (ConstantFoldCall : CallInst → Function → List Constant → Option Constant)
      (b : Builder) (f : Function) (operands : List Value) (name : String),
      canConstantFoldCallTo (CallInst.Create f operands) f = true →
      (∀ operand ∈ operands, dyn_cast operand ≠ none) →
      ConstantFoldCall (CallInst.Create f operands) f (operands.filterMap dyn_cast) = none →
      CreateCall canConstantFoldCallTo ConstantFoldCall b f operands name = (none, b)) ∧
    CreateCall (fun _ _ => true) (fun _ _ _ => none) ⟨[], []⟩ ⟨"sqrt"⟩ [.constant ⟨1⟩] "r" =
      (none, ⟨[], []⟩) := by
  refine ⟨?_, rfl⟩
  intro canConstantFoldCallTo ConstantFoldCall b f operands name hfoldable hconst hfold
  simp [CreateCall, hfoldable, constOperandsLoop_some _ _ hconst, hfold]

/-! ## Stopping at a lower precedence -/

/-- A token whose operator precedence is below the current one is handed back by
`parsePostfix`, unconsumed. -/
theorem parsePostfix_lower (typeString : TokenType → String) (n : Nat) (pre : Expression)
    (precedence : Precedence) (s : List Token)
    (h : precedence.rank > (operatorToPrecedence (peek s).type).rank) :
    parsePostfix typeString (n + 1) pre precedence s = .ok (pre, s) := by
  simp [parsePostfix, h]

/-- A variable in front of a token of lower precedence that is not `END_OF_LINE`:
the loop of `parseExpression` never ends. -/
theorem parseExpression_variable_stuck (typeString : TokenType → String)
    (precedence : Precedence) (x t : Token) (rest : List Token) (hx : x.type = .IDENTIFIER)
    (h1 : t.type ≠ .COLON) (h2 : t.type ≠ .OPEN_BRACKET) (h3 : t.type ≠ .END_OF_LINE)
    (hlow : precedence.rank > (operatorToPrecedence t.type).rank) (fuel : Nat) :
    parseExpression typeString fuel precedence (x :: t :: rest) = .error .outOfFuel := by
  rcases fuel with _ | _ | _ | n
  · simp [parseExpression]
  · simp [parseExpression, parsePrefix]
  · simp [parseExpression, parsePrefix, hx, parseIdentifierTokenExpression]
  · have hv := parseIdentifierTokenExpression_variable typeString n x (t :: rest) hx
      (by simpa using h1) (by simpa using h2)
    simp only [parseExpression, parsePrefix, peek_cons, hx, hv]
    exact parseExpressionLoop_stuck typeString _ precedence (t :: rest) (by simpa using h3)
      (fun m => parsePostfix_lower typeString m _ _ _ (by simpa using hlow)) _

theorem mathType_rank_lt_unary (t : TokenType) (opType : MathType)
    (h : mathType t = some opType) :
    Precedence.UNARY.rank > (operatorToPrecedence t).rank := by
  cases t <;> simp [mathType] at h <;> decide

/-- C22 (code defect). A prefix operator `+`, `-` or `!` in front of a variable and
`END_OF_LINE` gives the unary node that spans from the operator's start to the
variable's end. With a binary operator behind the operand, `u a op b`, nothing is
returned: the operand is parsed at precedence `UNARY`, `parsePostfix` hands the
lower operator back, and the loop of `parseExpression` runs for ever. -/
theorem unary_operand_never_returns :
    (∀ (typeString : TokenType → String) (n : Nat) (u a eol : Token) (rest : List Token),
      (u.type = .PLUS ∨ u.type = .MINUS ∨ u.type = .NOT) → a.type = .IDENTIFIER →
      eol.type = .END_OF_LINE →
      ∃ unaryType, parseExpression typeString (n + 6) .ALL (u :: a :: eol :: rest) =
        .ok (.UnaryExpression unaryType
          (.VariableExpression a.content a.startPos a.endPos) u.startPos a.endPos,
          eol :: rest)) ∧
    (∀ (typeString : TokenType → String) (fuel : Nat) (u a op : Token) (rest : List Token)
      (opType : MathType), (u.type = .PLUS ∨ u.type = .MINUS ∨ u.type = .NOT) →
      a.type = .IDENTIFIER → mathType op.type = some opType →
      parseExpression typeString fuel .ALL (u :: a :: op :: rest) = .error .outOfFuel) ∧
    (∀ (typeString : TokenType → String) (fuel : Nat),
      parseExpression typeString fuel .ALL
        [⟨.MINUS, "-", ⟨1, 0⟩, ⟨1, 1⟩⟩, ⟨.IDENTIFIER, "a", ⟨1, 1⟩, ⟨1, 2⟩⟩,
          ⟨.PLUS, "+", ⟨1, 2⟩, ⟨1, 3⟩⟩, ⟨.IDENTIFIER, "b", ⟨1, 3⟩, ⟨1, 4⟩⟩,
          ⟨.END_OF_LINE, "", ⟨1, 4⟩, ⟨1, 5⟩⟩, ⟨.END_OF_FILE, "", ⟨2, 0⟩, ⟨2, 0⟩⟩] =
        .error .outOfFuel) := by
  have stuck : ∀ (typeString : TokenType → String) (fuel : Nat) (u a op : Token)
      (rest : List Token) (opType : MathType),
      (u.type = .PLUS ∨ u.type = .MINUS ∨ u.type = .NOT) →
      a.type = .IDENTIFIER → mathType op.type = some opType →
      parseExpression typeString fuel .ALL (u :: a :: op :: rest) = .error .outOfFuel := by
    intro typeString fuel u a op rest opType hu ha hop
    obtain ⟨h1, h2, h3, _⟩ := mathType_not_special _ _ hop
    have hs := parseExpression_variable_stuck typeString .UNARY a op rest ha h1 h2 h3
      (mathType_rank_lt_unary _ _ hop)
    rcases fuel with _ | _ | _ | n
    · simp [parseExpression]
    · simp [parseExpression, parsePrefix]
    · rcases hu with h | h | h <;>
        simp [parseExpression, parsePrefix, h, parseUnaryTokenExpression]
    · rcases hu with h | h | h <;>
        simp [parseExpression, parsePrefix, h, parseUnaryTokenExpression, hs]
  refine ⟨?_, stuck, fun typeString fuel =>
    stuck typeString fuel _ _ _ _ .ADD (Or.inr (Or.inl rfl)) rfl rfl⟩
  intro typeString n u a eol rest hu ha he
  have hv := parseExpression_variable_eol typeString n .UNARY a eol rest ha he
  rcases hu with h | h | h
  · refine ⟨.POSITIVE, ?_⟩
    rw [parseExpression]
    simp only [parsePrefix, peek_cons, h]
    simp only [parseUnaryTokenExpression, next_cons, h, hv]
    simp [parseExpressionLoop, he, Expression.endPos]
  · refine ⟨.NEGATIVE, ?_⟩
    rw [parseExpression]
    simp only [parsePrefix, peek_cons, h]
    simp only [parseUnaryTokenExpression, next_cons, h, hv]
    simp [parseExpressionLoop, he, Expression.endPos]
  · refine ⟨.NOT, ?_⟩
    rw [parseExpression]
    simp only [parsePrefix, peek_cons, h]
    simp only [parseUnaryTokenExpression, next_cons, h, hv]
    simp [parseExpressionLoop, he, Expression.endPos]

/-- C23 (code defect). `parsePostfix` does hand back, unconsumed, a token whose
operator precedence is below the current one; but `parseExpression` does not stop
there: unless that token is `END_OF_LINE` its loop calls `parsePostfix` again, for
ever. So `a * b + c END_OF_LINE` is never parsed, neither from the top level nor
started at precedence `NONE` (where the right operand of `*` is parsed at
`MULTIPLY` and meets `+`). -/
theorem lower_precedence_never_stops :
    (∀ (typeString : TokenType → String) (n : Nat) (pre : Expression)
      (minPrecedence : Precedence) (s : List Token),
      minPrecedence.rank > (operatorToPrecedence (peek s).type).rank →
      parsePostfix typeString (n + 1) pre minPrecedence s = .ok (pre, s)) ∧
    (∀ (typeString : TokenType → String) (fuel : Nat) (minPrecedence : Precedence)
      (x t : Token) (rest : List Token), x.type = .IDENTIFIER → t.type ≠ .COLON →
      t.type ≠ .OPEN_BRACKET → t.type ≠ .END_OF_LINE →
      minPrecedence.rank > (operatorToPrecedence t.type).rank →
      parseExpression typeString fuel minPrecedence (x :: t :: rest) = .error .outOfFuel) ∧
    (∀ (typeString : TokenType → String) (fuel : Nat) (a times b plus c : Token)
      (rest : List Token), a.type = .IDENTIFIER → times.type = .TIMES →
      b.type = .IDENTIFIER → plus.type = .PLUS →
      parseExpression typeString fuel .ALL (a :: times :: b :: plus :: c :: rest) =
          .error .outOfFuel ∧
        parseExpression typeString fuel .NONE (a :: times :: b :: plus :: c :: rest) =
          .error .outOfFuel) ∧
    (∀ (typeString : TokenType → String) (fuel : Nat),
      parseExpression typeString fuel .ALL
        [⟨.IDENTIFIER, "a", ⟨1, 0⟩, ⟨1, 1⟩⟩, ⟨.TIMES, "*", ⟨1, 1⟩, ⟨1, 2⟩⟩,
          ⟨.IDENTIFIER, "b", ⟨1, 2⟩, ⟨1, 3⟩⟩, ⟨.PLUS, "+", ⟨1, 3⟩, ⟨1, 4⟩⟩,
          ⟨.IDENTIFIER, "c", ⟨1, 4⟩, ⟨1, 5⟩⟩, ⟨.END_OF_LINE, "", ⟨1, 5⟩, ⟨1, 6⟩⟩,
          ⟨.END_OF_FILE, "", ⟨2, 0⟩, ⟨2, 0⟩⟩] = .error .outOfFuel) := by
  have both : ∀ (typeString : TokenType → String) (fuel : Nat) (a times b plus c : Token)
      (rest : List Token), a.type = .IDENTIFIER → times.type = .TIMES →
      b.type = .IDENTIFIER → plus.type = .PLUS →
      parseExpression typeString fuel .ALL (a :: times :: b :: plus :: c :: rest) =
          .error .outOfFuel ∧
        parseExpression typeString fuel .NONE (a :: times :: b :: plus :: c :: rest) =
          .error .outOfFuel := by
    intro typeString fuel a times b plus c rest ha ht hb hp
    refine ⟨parseExpression_variable_stuck typeString .ALL a times _ ha (by simp [ht])
      (by simp [ht]) (by simp [ht]) (by simp [ht, operatorToPrecedence, Precedence.rank]) fuel,
      ?_⟩
    have hs := parseExpression_variable_stuck typeString .MULTIPLY b plus (c :: rest) hb
      (by simp [hp]) (by simp [hp]) (by simp [hp])
      (by simp [hp, operatorToPrecedence, Precedence.rank])
    have hmath : ∀ (n : Nat) (pre : Expression),
        parseMathExpression typeString n pre (times :: b :: plus :: c :: rest) =
          .error .outOfFuel := by
      intro n pre
      cases n with
      | zero => simp [parseMathExpression]
      | succ k =>
        have hk := hs k
        simp [parseMathExpression, ht, operatorToPrecedence, hk]
    have hpost : ∀ (n : Nat) (pre : Expression),
        parsePostfix typeString n pre .NONE (times :: b :: plus :: c :: rest) =
          .error .outOfFuel := by
      intro n pre
      cases n with
      | zero => simp [parsePostfix]
      | succ k =>
        rw [parsePostfix_math typeString k pre .NONE times (b :: plus :: c :: rest) .MULTIPLY
          (by simp [ht, mathType]) (by simp [Precedence.rank])]
        exact hmath k pre
    have hloop : ∀ (n : Nat) (pre : Expression),
        parseExpressionLoop typeString n pre .NONE (times :: b :: plus :: c :: rest) =
          .error .outOfFuel := by
      intro n pre
      cases n with
      | zero => simp [parseExpressionLoop]
      | succ k => rw [parseExpressionLoop, if_pos (by simp [ht]), hpost k pre]
    rcases fuel with _ | _ | _ | n
    · simp [parseExpression]
    · simp [parseExpression, parsePrefix]
    · simp [parseExpression, parsePrefix, ha, parseIdentifierTokenExpression]
    · have hv := parseIdentifierTokenExpression_variable typeString n a
        (times :: b :: plus :: c :: rest) ha (by simp [ht]) (by simp [ht])
      simp only [parseExpression, parsePrefix, peek_cons, ha, hv]
      exact hloop _ _
  refine ⟨parsePostfix_lower, ?_, both, fun typeString fuel =>
    (both typeString fuel _ _ _ _ _ _ rfl rfl rfl rfl).1⟩
  intro typeString fuel minPrecedence x t rest hx h1 h2 h3 hlow
  exact parseExpression_variable_stuck typeString minPrecedence x t rest hx h1 h2 h3 hlow fuel

/-! ## The invalid-note branch -/

theorem letter_cases (c : Char) (hc : ('a' ≤ c ∧ c ≤ 'g') ∨ ('A' ≤ c ∧ c ≤ 'G')) :
    c ∈ ['a', 'b', 'c', 'd', 'e', 'f', 'g', 'A', 'B', 'C', 'D', 'E', 'F', 'G'] := by
  have hof : c = Char.ofNat c.toNat := (Char.ofNat_toNat c).symm
  have hn : (97 ≤ c.toNat ∧ c.toNat ≤ 103) ∨ (65 ≤ c.toNat ∧ c.toNat ≤ 71) := by
    rcases hc with ⟨h1, h2⟩ | ⟨h1, h2⟩
    · rw [Char.le_def] at h1 h2
      exact Or.inl ⟨h1, h2⟩
    · rw [Char.le_def] at h1 h2
      exact Or.inr ⟨h1, h2⟩
  generalize c.toNat = n at hof hn
  subst hof
  rcases hn with ⟨h1, h2⟩ | ⟨h1, h2⟩ <;> interval_cases n <;> decide

/-- What the regular expression's first group can be. -/
theorem noteRegex_group (content group1 group2 : String)
    (h : noteRegex content = some (group1, group2)) :
    ∃ c, (('a' ≤ c ∧ c ≤ 'g') ∨ ('A' ≤ c ∧ c ≤ 'G')) ∧
      (group1 = String.mk [c] ∨ group1 = String.mk [c, '#']) := by
  unfold noteRegex at h
  split at h
  · cases h
  · rename_i c rest _
    by_cases hc : ('a' ≤ c ∧ c ≤ 'g') ∨ ('A' ≤ c ∧ c ≤ 'G')
    · refine ⟨c, hc, ?_⟩
      rw [if_pos hc] at h
      by_cases hsharp : rest.head? = some '#'
      · simp only [hsharp, if_true] at h
        split at h
        · simp only [Option.some.injEq, Prod.mk.injEq] at h
          exact Or.inr h.1.symm
        · cases h
      · simp only [hsharp, if_false] at h
        split at h
        · simp only [Option.some.injEq, Prod.mk.injEq] at h
          exact Or.inl h.1.symm
        · cases h
    · rw [if_neg hc] at h
      cases h

/-- C24 (amended). For a `NOTE` token whose text has the lexical shape (a letter A–G
in either case, an optional `#`, digits): when the name is neither `E#` nor `B#`, the
upper-cased name is in the twelve-entry table and `parseNoteTokenExpression` raises
no `ParseError`; when the name is `E#` or `B#`, in either case of the letter, it is
not in the table and the invalid-note `ParseError` is raised, with the upper-cased
name in the message and the token's span. -/
theorem note_name_in_table (typeString : TokenType → String) (token : Token)
    (rest : List Token) (group1 group2 : String) (ht : token.type = .NOTE)
    (hre : noteRegex token.content = some (group1, group2)) :
    (toUpperCase group1 ≠ "E#" → toUpperCase group1 ≠ "B#" →
      toUpperCase group1 ∈ noteNames ∧
        ∀ e, parseNoteTokenExpression typeString (token :: rest) ≠ .error (.parseError e)) ∧
    (toUpperCase group1 = "E#" ∨ toUpperCase group1 = "B#" →
      toUpperCase group1 ∉ noteNames ∧
        parseNoteTokenExpression typeString (token :: rest) =
          .error (.parseError
            ⟨"Ey my man, don't you know that " ++ toUpperCase group1 ++
              " isn't a valid note?", token.startPos, token.endPos⟩)) := by
  refine ⟨?_, ?_⟩
  · intro hE hB
    have hmem : toUpperCase group1 ∈ noteNames := by
      obtain ⟨c, hc, hg⟩ := noteRegex_group _ _ _ hre
      have hl := letter_cases c hc
      simp only [List.mem_cons, List.mem_singleton, List.not_mem_nil, or_false] at hl
      rcases hg with rfl | rfl <;>
        rcases hl with h | h | h | h | h | h | h | h | h | h | h | h | h | h <;> subst h <;>
        first
          | decide
          | exact absurd (by decide) hE
          | exact absurd (by decide) hB
    refine ⟨hmem, ?_⟩
    intro e he
    have hidx : ¬ noteNames.indexOf (toUpperCase group1) ≥ noteNames.length :=
      Nat.not_le.mpr (List.indexOf_lt_length.mpr hmem)
    simp only [parseNoteTokenExpression, next_cons, expect_ok, ht, hre, hidx, if_false] at he
    split at he
    · rename_i f hf
      simp only [stoi] at hf
      split at hf
      · cases hf
      · simp only [Except.error.injEq] at hf he
        rw [← hf] at he
        cases he
    · cases he
  · intro hname
    have hnot : toUpperCase group1 ∉ noteNames := by
      rcases hname with h | h <;> rw [h] <;> decide
    refine ⟨hnot, ?_⟩
    have hidx : noteNames.indexOf (toUpperCase group1) ≥ noteNames.length := by
      rcases hname with h | h <;> rw [h] <;> decide
    simp only [parseNoteTokenExpression, next_cons, expect_ok, ht, hre, hidx, if_true]

theorem note_name_in_table_witness :
    (toUpperCase "a" ∈ noteNames ∧
      ∀ e, parseNoteTokenExpression (fun _ => "") [⟨.NOTE, "a4", ⟨1, 0⟩, ⟨1, 2⟩⟩] ≠
        .error (.parseError e)) ∧
    (toUpperCase "b#" ∉ noteNames ∧
      parseNoteTokenExpression (fun _ => "") [⟨.NOTE, "b#4", ⟨1, 0⟩, ⟨1, 3⟩⟩] =
        .error (.parseError
          ⟨"Ey my man, don't you know that " ++ toUpperCase "b#" ++ " isn't a valid note?",
            ⟨1, 0⟩, ⟨1, 3⟩⟩)) ∧
    (toUpperCase "E#" ∉ noteNames ∧
      parseNoteTokenExpression (fun _ => "") [⟨.NOTE, "E#10", ⟨1, 0⟩, ⟨1, 4⟩⟩] =
        .error (.parseError
          ⟨"Ey my man, don't you know that " ++ toUpperCase "E#" ++ " isn't a valid note?",
            ⟨1, 0⟩, ⟨1, 4⟩⟩)) :=
  ⟨(note_name_in_table (fun _ => "") ⟨.NOTE, "a4", ⟨1, 0⟩, ⟨1, 2⟩⟩ [] "a" "4" rfl rfl).1
      (by decide) (by decide),
    (note_name_in_table (fun _ => "") ⟨.NOTE, "b#4", ⟨1, 0⟩, ⟨1, 3⟩⟩ [] "b#" "4" rfl rfl).2
      (Or.inr (by decide)),
    (note_name_in_table (fun _ => "") ⟨.NOTE, "E#10", ⟨1, 0⟩, ⟨1, 4⟩⟩ [] "E#" "10" rfl rfl).2
      (Or.inl (by decide))⟩

/-- C24, as stated, fails: `e#4` has the lexical shape, its name `E#` is not in the
table, and the invalid-note `ParseError` is raised. -/
theorem note_e_sharp_is_invalid :
    noteRegex "e#4" = some ("e#", "4") ∧
      parseNoteTokenExpression (fun _ => "") [⟨.NOTE, "e#4", ⟨1, 0⟩, ⟨1, 3⟩⟩] =
        .error (.parseError
          ⟨"Ey my man, don't you know that E# isn't a valid note?", ⟨1, 0⟩, ⟨1, 3⟩⟩) :=
  ⟨rfl, rfl⟩

/-! ## What follows a returned expression -/

theorem parseSubTokenExpression_not_ok (typeString : TokenType → String) (fuel : Nat)
    (s : List Token) (r : Expression × List Token) :
    parseSubTokenExpression typeString fuel s ≠ .ok r := by
  intro h
  cases fuel with
  | zero => simp [parseSubTokenExpression] at h
  | succ n =>
    simp only [parseSubTokenExpression] at h
    split at h
    · cases h
    · split at h
      · cases h
      · rename_i e s2 hq
        have hp := parseExpression_ok_peek typeString n .ALL _ e s2 hq
        have hne : (next s2).1.type ≠ .CLOSE_BRACKET := by
          rw [next_fst, hp]; decide
        simp [expect_error _ _ _ hne] at h

theorem parseArguments_one (typeString : TokenType → String) (fuel : Nat)
    (args : List Expression) (s : List Token) (args1 : List Expression) (s1 : List Token)
    (h : parseArguments typeString fuel args s = .ok (args1, s1)) :
    ∃ expr s0, args1 = args ++ [expr] ∧ (peek s0).type = .END_OF_LINE ∧ s1 = s0.tail := by
  cases fuel with
  | zero => simp [parseArguments] at h
  | succ n =>
    simp only [parseArguments] at h
    split at h
    · cases h
    · rename_i expr s0 hq
      have hp := parseExpression_ok_peek typeString n .ALL _ expr s0 hq
      have hne : ¬ (next s0).1.type = .COMMA := by
        rw [next_fst, hp]; decide
      rw [if_neg hne] at h
      simp only [Except.ok.injEq, Prod.mk.injEq] at h
      exact ⟨expr, s0, h.1.symm, hp, h.2.symm⟩

/-- C25. Whenever `parseExpression` returns an expression, at any precedence, the
next token of the stream it leaves is `END_OF_LINE`. Hence `parseSubTokenExpression`,
which expects the closing bracket there, returns for no input, and `parseArguments`,
when it returns, has appended exactly one argument and taken an `END_OF_LINE` off
the stream: it finds neither a comma nor a closing bracket behind an argument. -/
theorem parseExpression_returns_at_end_of_line (typeString : TokenType → String)
    (fuel : Nat) (precedence : Precedence) (s : List Token) (e : Expression)
    (s1 : List Token) (h : parseExpression typeString fuel precedence s = .ok (e, s1)) :
    (peek s1).type = .END_OF_LINE ∧
    (∀ (fuel2 : Nat) (s2 : List Token) (r : Expression × List Token),
      parseSubTokenExpression typeString fuel2 s2 ≠ .ok r) ∧
    (∀ (fuel2 : Nat) (args : List Expression) (s2 : List Token) (args1 : List Expression)
      (s3 : List Token), parseArguments typeString fuel2 args s2 = .ok (args1, s3) →
      ∃ expr s0, args1 = args ++ [expr] ∧ (peek s0).type = .END_OF_LINE ∧ s3 = s0.tail) :=
  ⟨parseExpression_ok_peek typeString fuel precedence s e s1 h,
    parseSubTokenExpression_not_ok typeString, parseArguments_one typeString⟩

theorem parseExpression_returns_at_end_of_line_witness :
    (peek [(⟨.END_OF_LINE, "", ⟨1, 1⟩, ⟨1, 2⟩⟩ : Token),
      ⟨.END_OF_FILE, "", ⟨2, 0⟩, ⟨2, 0⟩⟩]).type = .END_OF_LINE :=
  (parseExpression_returns_at_end_of_line (fun _ => "") 3 .ALL
    [⟨.IDENTIFIER, "x", ⟨1, 0⟩, ⟨1, 1⟩⟩, ⟨.END_OF_LINE, "", ⟨1, 1⟩, ⟨1, 2⟩⟩,
      ⟨.END_OF_FILE, "", ⟨2, 0⟩, ⟨2, 0⟩⟩]
    (.VariableExpression "x" ⟨1, 0⟩ ⟨1, 1⟩)
    [⟨.END_OF_LINE, "", ⟨1, 1⟩, ⟨1, 2⟩⟩, ⟨.END_OF_FILE, "", ⟨2, 0⟩, ⟨2, 0⟩⟩] rfl).1

/-! ## The undo history -/

theorem HistoryList.append_spec (h : HistoryList) (action : Action)
    (forward forceForwards : Bool) (hpos : h.stackPos ≤ h.stack.length)
    (hlen : h.stack.length ≤ h.maxActions) (hmax : 1 ≤ h.maxActions) :
    (h.append action forward forceForwards).maxActions = h.maxActions ∧
      (h.append action forward forceForwards).stackPos =
        (h.append action forward forceForwards).stack.length ∧
      (h.append action forward forceForwards).stack.length ≤ h.maxActions ∧
      (h.append action forward forceForwards).stack.getLast? = some action := by
  have htake : (h.stack.take h.stackPos).length = h.stackPos := by
    rw [List.length_take]; omega
  unfold HistoryList.append
  by_cases hfull : (h.stack.take h.stackPos).length = h.maxActions
  · simp only [hfull, if_true]
    refine ⟨trivial, ?_, ?_, by simp⟩
    · simp only [List.length_append, List.length_tail, List.length_singleton, hfull]
      omega
    · simp only [List.length_append, List.length_tail, List.length_singleton, hfull]
      omega
  · simp only [hfull, if_false]
    refine ⟨trivial, ?_, ?_, by simp⟩
    · simp only [List.length_append, List.length_singleton, htake]
    · simp only [List.length_append, List.length_singleton, htake]
      rw [htake] at hfull
      omega

theorem HistoryList.call_invariant (h : HistoryList) (c : HistoryCall)
    (hpos : h.stackPos ≤ h.stack.length) (hlen : h.stack.length ≤ h.maxActions)
    (hmax : 1 ≤ h.maxActions) :
    (h.call c).maxActions = h.maxActions ∧ (h.call c).stackPos ≤ (h.call c).stack.length ∧
      (h.call c).stack.length ≤ h.maxActions := by
  cases c with
  | append action forward forceForwards =>
    obtain ⟨h1, h2, h3, _⟩ := h.append_spec action forward forceForwards hpos hlen hmax
    exact ⟨h1, Nat.le_of_eq h2, h3⟩
  | undo =>
    simp only [HistoryList.call, HistoryList.undo, HistoryList.canUndo]
    split
    · exact ⟨rfl, hpos, hlen⟩
    · exact ⟨rfl, by simp only; omega, hlen⟩
  | redo =>
    simp only [HistoryList.call, HistoryList.redo, HistoryList.canRedo]
    split
    · exact ⟨rfl, hpos, hlen⟩
    · rename_i hc
      simp only [Bool.not_eq_true, Bool.not_eq_false', decide_eq_true_eq] at hc
      exact ⟨rfl, by simp only; omega, hlen⟩

theorem HistoryList.calls_invariant (cs : List HistoryCall) :
    ∀ (h : HistoryList), h.stackPos ≤ h.stack.length → h.stack.length ≤ h.maxActions →
      1 ≤ h.maxActions →
      (h.calls cs).maxActions = h.maxActions ∧
        (h.calls cs).stackPos ≤ (h.calls cs).stack.length ∧
        (h.calls cs).stack.length ≤ h.maxActions := by
  induction cs with
  | nil => intro h hpos hlen _; exact ⟨rfl, hpos, hlen⟩
  | cons c cs ih =>
    intro h hpos hlen hmax
    obtain ⟨h1, h2, h3⟩ := h.call_invariant c hpos hlen hmax
    obtain ⟨k1, k2, k3⟩ := ih (h.call c) h2 (h1 ▸ h3) (h1 ▸ hmax)
    exact ⟨k1.trans h1, k2, h1 ▸ k3⟩

/-- C26. From the empty history with `maxActions ≥ 1`, after every sequence of
`append`, `undo` and `redo` calls `stackPos ≤ stack.size ≤ maxActions`; and an
`append` made then leaves `stackPos = stack.size` (so `canRedo()` is false) with the
appended action last on the stack. -/
theorem history_position_within_stack (maxActions : Nat) (hmax : 1 ≤ maxActions)
    (cs : List HistoryCall) :
    ((HistoryList.empty maxActions).calls cs).stackPos ≤
        ((HistoryList.empty maxActions).calls cs).stack.length ∧
      ((HistoryList.empty maxActions).calls cs).stack.length ≤ maxActions ∧
      ∀ (action : Action) (forward forceForwards : Bool),
        (((HistoryList.empty maxActions).calls cs).append action forward forceForwards).stackPos
            = (((HistoryList.empty maxActions).calls cs).append action forward
                forceForwards).stack.length ∧
          (((HistoryList.empty maxActions).calls cs).append action forward
            forceForwards).canRedo = false ∧
          (((HistoryList.empty maxActions).calls cs).append action forward
            forceForwards).stack.getLast? = some action := by
  obtain ⟨h1, h2, h3⟩ := HistoryList.calls_invariant cs (HistoryList.empty maxActions)
    (Nat.le_refl _) (Nat.zero_le _) hmax
  have h3' : ((HistoryList.empty maxActions).calls cs).stack.length ≤ maxActions := h3
  refine ⟨h2, h3', ?_⟩
  intro action forward forceForwards
  obtain ⟨_, k2, _, k4⟩ := ((HistoryList.empty maxActions).calls cs).append_spec action
    forward forceForwards h2 (h1 ▸ h3') (h1 ▸ hmax)
  refine ⟨k2, ?_, k4⟩
  simp only [HistoryList.canRedo, k2, Nat.lt_irrefl, decide_False]

theorem history_position_within_stack_witness :
    ((HistoryList.empty 2).calls
        [.append ⟨1⟩ true false, .append ⟨2⟩ true false, .append ⟨3⟩ true false, .undo,
          .redo]).stackPos ≤
      ((HistoryList.empty 2).calls
        [.append ⟨1⟩ true false, .append ⟨2⟩ true false, .append ⟨3⟩ true false, .undo,
          .redo]).stack.length ∧
    ((HistoryList.empty 2).calls
        [.append ⟨1⟩ true false, .append ⟨2⟩ true false, .append ⟨3⟩ true false, .undo,
          .redo]).stack.length ≤ 2 :=
  have h := history_position_within_stack 2 (by decide)
    [.append ⟨1⟩ true false, .append ⟨2⟩ true false, .append ⟨3⟩ true false, .undo, .redo]
  ⟨h.1, h.2.1⟩

/-! ## Persistent parameters: slots of the table -/

theorem slot_nil (j : Nat) : slot [] j = none := by
  simp [slot]

theorem slot_cons_zero (x : Option PersistentParameter)
    (xs : List (Option PersistentParameter)) : slot (x :: xs) 0 = x := by
  simp [slot]

theorem slot_cons_succ (x : Option PersistentParameter)
    (xs : List (Option PersistentParameter)) (j : Nat) :
    slot (x :: xs) (j + 1) = slot xs j := by
  simp [slot]

theorem slot_eq_some_iff (table : List (Option PersistentParameter)) (i : Nat)
    (q : PersistentParameter) : slot table i = some q ↔ table[i]? = some (some q) := by
  induction table generalizing i with
  | nil => simp [slot_nil]
  | cons x xs ih =>
    cases i with
    | zero => simp [slot_cons_zero]
    | succ j => simp [slot_cons_succ, ih]

theorem slot_mem_filled (table : List (Option PersistentParameter)) (i : Nat)
    (q : PersistentParameter) (h : slot table i = some q) : q ∈ table.filterMap id := by
  rw [slot_eq_some_iff] at h
  rw [List.mem_filterMap]
  exact ⟨some q, List.getElem?_mem h, rfl⟩

theorem insertParameter_parameters (s : PersistentParameters) (i : Nat)
    (p : PersistentParameter) :
    (s.insertParameter i p).parameters = insertAt s.parameters i p := by
  have hnil : ∀ k : Nat, (List.replicate (k + 1) (none : Option PersistentParameter)).set k
      (some p) = insertAt [] k p := by
    intro k
    induction k with
    | zero => rfl
    | succ k ih =>
      rw [List.replicate_succ, List.set_cons_succ, ih]
      rfl
  have hgen : ∀ (table : List (Option PersistentParameter)) (k : Nat),
      (table ++ List.replicate (k + 1 - table.length) none).set k (some p) =
        insertAt table k p := by
    intro table
    induction table with
    | nil =>
      intro k
      simpa using hnil k
    | cons x xs ih =>
      intro k
      cases k with
      | zero => simp [insertAt]
      | succ k =>
        have hlen : k + 1 + 1 - (x :: xs).length = k + 1 - xs.length := by
          simp
        rw [hlen, List.cons_append, List.set_cons_succ, ih k]
        rfl
  exact hgen s.parameters i

theorem slot_insertAt (table : List (Option PersistentParameter)) (i j : Nat)
    (p : PersistentParameter) :
    slot (insertAt table i p) j = if j = i then some p else slot table j := by
  induction table generalizing i j with
  | nil =>
    induction i generalizing j with
    | zero =>
      cases j with
      | zero => simp [insertAt, slot_cons_zero]
      | succ j => simp [insertAt, slot_cons_succ, slot_nil]
    | succ i ih =>
      cases j with
      | zero => simp [insertAt, slot_cons_zero, slot_nil]
      | succ j => simp [insertAt, slot_cons_succ, ih, slot_nil]
  | cons x xs ih =>
    cases i with
    | zero =>
      cases j with
      | zero => simp [insertAt, slot_cons_zero]
      | succ j => simp [insertAt, slot_cons_succ]
    | succ i =>
      cases j with
      | zero => simp [insertAt, slot_cons_zero]
      | succ j => simp [insertAt, slot_cons_succ, ih]

theorem filled_insertAt (table : List (Option PersistentParameter)) (i : Nat)
    (p : PersistentParameter) (hfree : slot table i = none) :
    ((insertAt table i p).filterMap id).Perm (p :: table.filterMap id) := by
  induction table generalizing i with
  | nil =>
    induction i with
    | zero => simp [insertAt]
    | succ i ih =>
      simp only [insertAt, List.filterMap_cons_none, id_eq]
      exact ih (slot_nil i)
  | cons x xs ih =>
    cases i with
    | zero =>
      rw [slot_cons_zero] at hfree
      subst hfree
      simp [insertAt]
    | succ i =>
      rw [slot_cons_succ] at hfree
      cases x with
      | none =>
        simp only [insertAt, List.filterMap_cons_none, id_eq]
        exact ih i hfree
      | some q =>
        simp only [insertAt, List.filterMap_cons_some, id_eq]
        exact ((ih i hfree).cons q).trans (List.Perm.swap p q _)

theorem slot_findIdx_free (table : List (Option PersistentParameter)) :
    slot table (table.findIdx (fun p => p.isNone)) = none := by
  induction table with
  | nil => simp [slot_nil]
  | cons x xs ih =>
    cases x with
    | none => simp [List.findIdx_cons, slot_cons_zero]
    | some q => simpa [List.findIdx_cons, slot_cons_succ] using ih

/-! ## Persistent parameters: the index map -/

theorem firstIndex_some (table : List (Option PersistentParameter)) (id i : Nat)
    (h : firstIndex table id = some i) : ∃ q, slot table i = some q ∧ q.id = id := by
  induction table generalizing i with
  | nil => simp [firstIndex] at h
  | cons x xs ih =>
    cases x with
    | none =>
      simp only [firstIndex, Option.map_eq_some'] at h
      obtain ⟨j, hj, rfl⟩ := h
      simpa [slot_cons_succ] using ih j hj
    | some q =>
      simp only [firstIndex] at h
      split at h
      · rename_i hq
        simp only [Option.some.injEq] at h
        subst h
        exact ⟨q, slot_cons_zero _ _, hq⟩
      · simp only [Option.map_eq_some'] at h
        obtain ⟨j, hj, rfl⟩ := h
        simpa [slot_cons_succ] using ih j hj

theorem firstIndex_none (table : List (Option PersistentParameter)) (id : Nat)
    (h : firstIndex table id = none) :
    ∀ i q, slot table i = some q → q.id ≠ id := by
  induction table with
  | nil => intro i q hq; simp [slot_nil] at hq
  | cons x xs ih =>
    intro i q hq
    cases x with
    | none =>
      simp only [firstIndex, Option.map_eq_none'] at h
      cases i with
      | zero => simp [slot_cons_zero] at hq
      | succ j => exact ih h j q (by simpa [slot_cons_succ] using hq)
    | some q0 =>
      simp only [firstIndex] at h
      split at h
      · cases h
      · rename_i hne
        simp only [Option.map_eq_none'] at h
        cases i with
        | zero =>
          simp only [slot_cons_zero, Option.some.injEq] at hq
          subst hq
          exact hne
        | succ j => exact ih h j q (by simpa [slot_cons_succ] using hq)

theorem firstIndex_of_nodup (table : List (Option PersistentParameter))
    (hnodup : ((table.filterMap id).map (fun p => p.id)).Nodup) :
    ∀ i q, slot table i = some q → firstIndex table q.id = some i := by
  induction table with
  | nil => intro i q hq; simp [slot_nil] at hq
  | cons x xs ih =>
    intro i q hq
    cases x with
    | none =>
      simp only [List.filterMap_cons_none, id_eq] at hnodup
      cases i with
      | zero => simp [slot_cons_zero] at hq
      | succ j =>
        rw [slot_cons_succ] at hq
        simp [firstIndex, ih hnodup j q hq]
    | some q0 =>
      have hcons : (some q0 :: xs).filterMap id = q0 :: xs.filterMap id := rfl
      rw [hcons, List.map_cons, List.nodup_cons] at hnodup
      cases i with
      | zero =>
        simp only [slot_cons_zero, Option.some.injEq] at hq
        subst hq
        simp [firstIndex]
      | succ j =>
        rw [slot_cons_succ] at hq
        have hmem : q.id ∈ (xs.filterMap id).map (fun p => p.id) :=
          List.mem_map.mpr ⟨q, slot_mem_filled xs j q hq, rfl⟩
        have hne : ¬ q0.id = q.id := fun he => hnodup.1 (he ▸ hmem)
        simp [firstIndex, hne, ih hnodup.2 j q hq]

theorem parameterIndexMapLoop_eq (table : List (Option PersistentParameter)) :
    ∀ (i : Nat) (m : IndexMap) (id : Nat),
      parameterIndexMapLoop table i m id =
        match m id with
        | some v => some v
        | none => (firstIndex table id).map (· + i) := by
  induction table with
  | nil =>
    intro i m id
    simp only [parameterIndexMapLoop, firstIndex, Option.map_none']
    cases m id <;> rfl
  | cons x xs ih =>
    intro i m id
    cases x with
    | none =>
      simp only [parameterIndexMapLoop, firstIndex, ih, Option.map_map]
      cases m id with
      | some v => rfl
      | none =>
        simp only
        congr 1
        funext k
        simp only [Function.comp_apply]
        omega
    | some q =>
      simp only [parameterIndexMapLoop, firstIndex, ih, IndexMap.emplace]
      by_cases hid : id = q.id
      · subst hid
        cases hm : m q.id with
        | some v => simp [hm]
        | none => simp [hm]
      · have hne : ¬ q.id = id := fun h => hid h.symm
        simp only [hid, if_false, hne, Option.map_map]
        cases m id with
        | some v => rfl
        | none =>
          simp only
          congr 1
          funext k
          simp only [Function.comp_apply]
          omega

theorem parameterIndexMap_eq (table : List (Option PersistentParameter)) (id : Nat) :
    parameterIndexMapLoop table 0 IndexMap.empty id = firstIndex table id := by
  rw [parameterIndexMapLoop_eq]
  simp [IndexMap.empty]

/-! ## Persistent parameters: the loops of `setParameters` -/

theorem newParametersLoop_spec (m : IndexMap)
    (hm : ∀ id1 id2 i, m id1 = some i → m id2 = some i → id1 = id2) :
    ∀ (ps : List PersistentParameter) (s : PersistentParameters)
      (queued : List PersistentParameter),
      (ps.map (fun p => p.id)).Nodup →
      (∀ p ∈ ps, ∀ j q, slot s.parameters j = some q → q.id ≠ p.id) →
      (∀ j q, slot s.parameters j = some q → m q.id = some j) →
      (∀ j q, slot s.parameters j = some q →
        slot (newParametersLoop m ps s queued).1.parameters j = some q) ∧
      (∀ p ∈ ps, ∀ i, m p.id = some i →
        slot (newParametersLoop m ps s queued).1.parameters i = some p) ∧
      ((newParametersLoop m ps s queued).1.parameters.filterMap id ++
          (newParametersLoop m ps s queued).2).Perm
        (s.parameters.filterMap id ++ queued ++ ps) := by
  intro ps
  induction ps with
  | nil =>
    intro s queued _ _ _
    simp [newParametersLoop]
  | cons p ps ih =>
    intro s queued hnodup hfresh hidx
    rw [List.map_cons, List.nodup_cons] at hnodup
    cases hp : m p.id with
    | none =>
      have hloop : newParametersLoop m (p :: ps) s queued =
          newParametersLoop m ps s (queued ++ [p]) := by
        simp only [newParametersLoop, hp]
      rw [hloop]
      obtain ⟨h1, h2, h3⟩ := ih s (queued ++ [p]) hnodup.2
        (fun p' hp' => hfresh p' (List.mem_cons_of_mem _ hp')) hidx
      refine ⟨h1, ?_, ?_⟩
      · intro p' hp' i hi
        rcases List.mem_cons.mp hp' with rfl | hmem
        · rw [hp] at hi; cases hi
        · exact h2 p' hmem i hi
      · simpa [List.append_assoc] using h3
    | some i =>
      have hloop : newParametersLoop m (p :: ps) s queued =
          newParametersLoop m ps (s.insertParameter i p) queued := by
        simp only [newParametersLoop, hp]
      rw [hloop]
      have hfree : slot s.parameters i = none := by
        cases hslot : slot s.parameters i with
        | none => rfl
        | some q =>
          have hq := hidx i q hslot
          have hid := hm q.id p.id i hq hp
          exact absurd hid (hfresh p (List.mem_cons_self _ _) i q hslot)
      have hslot' : ∀ j, slot (s.insertParameter i p).parameters j =
          if j = i then some p else slot s.parameters j := by
        intro j
        rw [insertParameter_parameters, slot_insertAt]
      obtain ⟨h1, h2, h3⟩ := ih (s.insertParameter i p) queued hnodup.2
        (by
          intro p' hp' j q hq
          rw [hslot'] at hq
          split at hq
          · simp only [Option.some.injEq] at hq
            subst hq
            intro he
            exact hnodup.1 (List.mem_map.mpr ⟨p', hp', he.symm⟩)
          · exact hfresh p' (List.mem_cons_of_mem _ hp') j q hq)
        (by
          intro j q hq
          rw [hslot'] at hq
          split at hq
          · rename_i hj
            simp only [Option.some.injEq] at hq
            subst hq
            rw [hj]; exact hp
          · exact hidx j q hq)
      have hkeep : ∀ j q, slot s.parameters j = some q →
          slot (s.insertParameter i p).parameters j = some q := by
        intro j q hq
        rw [hslot']
        split
        · rename_i hj
          rw [hj, hfree] at hq
          cases hq
        · exact hq
      refine ⟨fun j q hq => h1 j q (hkeep j q hq), ?_, ?_⟩
      · intro p' hp' i' hi'
        rcases List.mem_cons.mp hp' with rfl | hmem
        · rw [hp] at hi'
          simp only [Option.some.injEq] at hi'
          subst hi'
          exact h1 i p' (by rw [hslot']; simp)
        · exact h2 p' hmem i' hi'
      · refine h3.trans ?_
        rw [insertParameter_parameters]
        have hperm := filled_insertAt s.parameters i p hfree
        have h4 : (List.filterMap id (insertAt s.parameters i p) ++ queued ++ ps).Perm
            (p :: List.filterMap id s.parameters ++ queued ++ ps) :=
          (hperm.append_right queued).append_right ps
        refine h4.trans ?_
        simp only [List.cons_append]
        exact List.perm_middle.symm

theorem queuedParametersLoop_spec :
    ∀ (qs : List PersistentParameter) (s : PersistentParameters),
      (∀ j q, slot s.parameters j = some q →
        slot (queuedParametersLoop qs s).parameters j = some q) ∧
      ((queuedParametersLoop qs s).parameters.filterMap id).Perm
        (s.parameters.filterMap id ++ qs) := by
  intro qs
  induction qs with
  | nil =>
    intro s
    simp [queuedParametersLoop]
  | cons q qs ih =>
    intro s
    have hfree := slot_findIdx_free s.parameters
    have hpush : (s.pushParameter q).parameters =
        insertAt s.parameters (s.parameters.findIdx (fun p => p.isNone)) q := by
      rw [PersistentParameters.pushParameter, insertParameter_parameters]
    obtain ⟨h1, h2⟩ := ih (s.pushParameter q)
    simp only [queuedParametersLoop]
    refine ⟨?_, ?_⟩
    · intro j x hx
      apply h1
      rw [hpush, slot_insertAt]
      split
      · rename_i hj
        rw [hj, hfree] at hx
        cases hx
      · exact hx
    · refine h2.trans ?_
      rw [hpush]
      refine ((filled_insertAt _ _ q hfree).append_right qs).trans ?_
      simp only [List.cons_append]
      exact List.perm_middle.symm

/-- What `setParameters` does to the table, from any state, for new parameters of
pairwise-distinct ids. -/
theorem setParameters_table (s : PersistentParameters)
    (newParameters : List PersistentParameter)
    (hnodup : (newParameters.map (fun p => p.id)).Nodup) :
    (∀ p ∈ newParameters, ∀ i, firstIndex s.parameters p.id = some i →
      slot (s.setParameters newParameters).parameters i = some p) ∧
    ((s.setParameters newParameters).parameters.filterMap id).Perm newParameters := by
  have hm : ∀ id1 id2 i, parameterIndexMapLoop s.parameters 0 IndexMap.empty id1 = some i →
      parameterIndexMapLoop s.parameters 0 IndexMap.empty id2 = some i → id1 = id2 := by
    intro id1 id2 i h1 h2
    rw [parameterIndexMap_eq] at h1 h2
    obtain ⟨q1, hq1, hid1⟩ := firstIndex_some _ _ _ h1
    obtain ⟨q2, hq2, hid2⟩ := firstIndex_some _ _ _ h2
    rw [hq1] at hq2
    simp only [Option.some.injEq] at hq2
    subst hq2
    exact hid1.symm.trans hid2
  obtain ⟨_, h2, h3⟩ := newParametersLoop_spec _ hm newParameters
    { s with parameters := [] } [] hnodup
    (by intro p _ j q hq; simp [slot_nil] at hq)
    (by intro j q hq; simp [slot_nil] at hq)
  obtain ⟨k1, k2⟩ := queuedParametersLoop_spec
    (newParametersLoop (parameterIndexMapLoop s.parameters 0 IndexMap.empty) newParameters
      { s with parameters := [] } []).2
    (newParametersLoop (parameterIndexMapLoop s.parameters 0 IndexMap.empty) newParameters
      { s with parameters := [] } []).1
  refine ⟨?_, ?_⟩
  · intro p hp i hi
    apply k1
    apply h2 p hp i
    rw [parameterIndexMap_eq]
    exact hi
  · refine k2.trans (h3.trans ?_)
    simp

theorem reached_nodup (s : PersistentParameters) (h : s.Reached) :
    ((s.parameters.filterMap id).map (fun p => p.id)).Nodup := by
  cases h with
  | fresh => simp [PersistentParameters.empty]
  | set s0 newParameters _ hnodup =>
    have hperm := (setParameters_table s0 newParameters hnodup).2
    exact ((hperm.map (fun p => p.id)).nodup_iff).mpr hnodup

/-! ## Persistent parameters: `setParameters` -/

/-- C27 (amended). From a state reached from the fresh object by `setParameters`
calls that were each given pairwise-distinct ids, and for new parameters of
pairwise-distinct ids: a new parameter whose id was stored at index `i` is stored at
index `i` afterwards; any other new parameter is stored at some index that held the
id of no new parameter; and the non-empty slots of the table are the new parameters,
each once. -/
theorem setParameters_keeps_indices (s : PersistentParameters) (hs : s.Reached)
    (newParameters : List PersistentParameter)
    (hnodup : (newParameters.map (fun p => p.id)).Nodup) :
    (∀ p ∈ newParameters, ∀ (i : Nat) (q : PersistentParameter), s.parameters[i]? = some (some q) → q.id = p.id →
      (s.setParameters newParameters).parameters[i]? = some (some p)) ∧
    (∀ p ∈ newParameters, (∀ (i : Nat) (q : PersistentParameter), s.parameters[i]? = some (some q) → q.id ≠ p.id) →
      ∃ j : Nat, (s.setParameters newParameters).parameters[j]? = some (some p) ∧
        ∀ p' ∈ newParameters, ∀ q : PersistentParameter,
          s.parameters[j]? = some (some q) → q.id ≠ p'.id) ∧
    ((s.setParameters newParameters).parameters.filterMap id).Perm newParameters := by
  obtain ⟨ha, hc⟩ := setParameters_table s newParameters hnodup
  have hkeep : ∀ p ∈ newParameters, ∀ (i : Nat) (q : PersistentParameter), s.parameters[i]? = some (some q) → q.id = p.id →
      (s.setParameters newParameters).parameters[i]? = some (some p) := by
    intro p hp i q hq hid
    rw [← slot_eq_some_iff] at hq ⊢
    have hfirst := firstIndex_of_nodup s.parameters (reached_nodup s hs) i q hq
    rw [hid] at hfirst
    exact ha p hp i hfirst
  refine ⟨hkeep, ?_, hc⟩
  intro p hp hnew
  have hmem : p ∈ (s.setParameters newParameters).parameters.filterMap id :=
    hc.mem_iff.mpr hp
  obtain ⟨x, hx, hxp⟩ := List.mem_filterMap.mp hmem
  simp only [id_eq] at hxp
  subst hxp
  obtain ⟨j, hj⟩ := List.mem_iff_getElem?.mp hx
  refine ⟨j, hj, ?_⟩
  intro p' hp' q hq hid
  have hj' := hkeep p' hp' j q hq hid
  rw [hj] at hj'
  simp only [Option.some.injEq] at hj'
  subst hj'
  exact hnew j q hq hid

theorem setParameters_keeps_indices_witness :
    ((PersistentParameters.empty.setParameters
        [⟨1, 0, 0, "a"⟩, ⟨2, 1, 0, "b"⟩]).setParameters
      [⟨3, 2, 0, "c"⟩, ⟨2, 0, 0, "b2"⟩]).parameters[1]? =
      some (some ⟨2, 0, 0, "b2"⟩) :=
  (setParameters_keeps_indices
    (PersistentParameters.empty.setParameters [⟨1, 0, 0, "a"⟩, ⟨2, 1, 0, "b"⟩])
    (.set _ _ .fresh (by decide)) [⟨3, 2, 0, "c"⟩, ⟨2, 0, 0, "b2"⟩] (by decide)).1
    ⟨2, 0, 0, "b2"⟩ (by simp) 1 ⟨2, 1, 0, "b"⟩ rfl rfl

/-- C27, as stated, fails in a state reached by a call with a repeated id. After
`setParameters([A(id 1), A2(id 1)])` the id 1 is stored at index 0 and at index 1.
`setParameters([C(id 1)])` then stores `C` at index 0 only: the first loop keeps the
first index of an id, and the table has no index 1 any more. -/
theorem setParameters_repeated_id_not_kept :
    (PersistentParameters.empty.setParameters
        [⟨1, 0, 0, "a"⟩, ⟨1, 1, 0, "a2"⟩]).parameters =
        [some ⟨1, 0, 0, "a"⟩, some ⟨1, 1, 0, "a2"⟩] ∧
      ((PersistentParameters.empty.setParameters
        [⟨1, 0, 0, "a"⟩, ⟨1, 1, 0, "a2"⟩]).setParameters [⟨1, 0, 0, "c"⟩]).parameters =
        [some ⟨1, 0, 0, "c"⟩] ∧
      ((PersistentParameters.empty.setParameters
        [⟨1, 0, 0, "a"⟩, ⟨1, 1, 0, "a2"⟩]).setParameters [⟨1, 0, 0, "c"⟩]).parameters[1]? ≠
        some (some ⟨1, 0, 0, "c"⟩) := by
  refine ⟨rfl, rfl, ?_⟩
  have h : ((PersistentParameters.empty.setParameters
      [⟨1, 0, 0, "a"⟩, ⟨1, 1, 0, "a2"⟩]).setParameters [⟨1, 0, 0, "c"⟩]).parameters =
      [some ⟨1, 0, 0, "c"⟩] := rfl
  rw [h]
  simp

theorem emplace_keeps (m : IndexMap) (key value k v : Nat) (h : m k = some v) :
    m.emplace key value k = some v := by
  unfold IndexMap.emplace
  split
  · rename_i hk
    subst hk
    rw [h]
  · exact h

theorem newParametersLoop_map_keeps (m : IndexMap) (k v : Nat) :
    ∀ (ps : List PersistentParameter) (s : PersistentParameters)
      (queued : List PersistentParameter), s.portalParameterMap k = some v →
      (newParametersLoop m ps s queued).1.portalParameterMap k = some v := by
  intro ps
  induction ps with
  | nil => intro s queued h; exact h
  | cons p ps ih =>
    intro s queued h
    simp only [newParametersLoop]
    split
    · exact ih _ _ (emplace_keeps _ _ _ _ _ h)
    · exact ih _ _ h

theorem queuedParametersLoop_map_keeps (k v : Nat) :
    ∀ (qs : List PersistentParameter) (s : PersistentParameters),
      s.portalParameterMap k = some v →
      (queuedParametersLoop qs s).portalParameterMap k = some v := by
  intro qs
  induction qs with
  | nil => intro s h; exact h
  | cons q qs ih =>
    intro s h
    simp only [queuedParametersLoop]
    exact ih _ (emplace_keeps _ _ _ _ _ h)

/-- C28 (code defect). `setParameters` clears the table but not the portal map, and
`emplace` leaves an existing key alone: every entry of the map survives every later
call. After `setParameters([A(id 1, portal 0), B(id 2, portal 1)])` and then
`setParameters([B'(id 2, portal 0)])` the table is `[empty, B']`, while the map still
sends portal 0 to index 0 (B' is at index 1) and still has portal 1, which no stored
parameter has. After the first call on a fresh object the map is right. -/
theorem portal_map_keeps_stale_entries :
    (∀ (s : PersistentParameters) (newParameters : List PersistentParameter) (k v : Nat),
      s.portalParameterMap k = some v →
      (s.setParameters newParameters).portalParameterMap k = some v) ∧
    ((PersistentParameters.empty.setParameters
        [⟨1, 0, 0, "a"⟩, ⟨2, 1, 0, "b"⟩]).parameters =
        [some ⟨1, 0, 0, "a"⟩, some ⟨2, 1, 0, "b"⟩] ∧
      (PersistentParameters.empty.setParameters
        [⟨1, 0, 0, "a"⟩, ⟨2, 1, 0, "b"⟩]).portalParameterMap 0 = some 0 ∧
      (PersistentParameters.empty.setParameters
        [⟨1, 0, 0, "a"⟩, ⟨2, 1, 0, "b"⟩]).portalParameterMap 1 = some 1) ∧
    (((PersistentParameters.empty.setParameters
        [⟨1, 0, 0, "a"⟩, ⟨2, 1, 0, "b"⟩]).setParameters [⟨2, 0, 0, "b2"⟩]).parameters =
        [none, some ⟨2, 0, 0, "b2"⟩] ∧
      ((PersistentParameters.empty.setParameters
        [⟨1, 0, 0, "a"⟩, ⟨2, 1, 0, "b"⟩]).setParameters
          [⟨2, 0, 0, "b2"⟩]).portalParameterMap 0 = some 0 ∧
      ((PersistentParameters.empty.setParameters
        [⟨1, 0, 0, "a"⟩, ⟨2, 1, 0, "b"⟩]).setParameters
          [⟨2, 0, 0, "b2"⟩]).portalParameterMap 1 = some 1) := by
  refine ⟨?_, ⟨rfl, rfl, rfl⟩, ⟨rfl, rfl, rfl⟩⟩
  intro s newParameters k v h
  unfold PersistentParameters.setParameters
  exact queuedParametersLoop_map_keeps k v _ _ (newParametersLoop_map_keeps _ k v _ _ _ h)

end Maxim
